import Mathlib

/-!
# The matrix-command interpreter (`mmn_22/mainmat`), the word index and the list of names

A shallow embedding of the matrix algebra engine (`mymat.c`, `utility.c`), of the
command analyser and the line reader (`process_input.c`), of the driver (`mainmat.c`) and of
the macros they use (`utility.h`, `error_utility.h`), followed by theorems about them. Two
shorter parts embed the hash table of the word index (`mmn_23`: `hash`, `addWordToIndex`,
`word_compare`, `print_word_entry`) and the duplicate test of the list of names (`mmn_12`:
`is_duplicate`).

Conventions of the embedding:

* a cell is a value of an arbitrary type `α` carrying the operations the code uses
  (`+`, `-`, `*`, the literal `0`); no algebraic law is assumed unless a theorem says so,
  so the theorems hold for any arithmetic, IEEE doubles included;
* a `mat *` is a location `ι`; the memory the engine works on is a map from locations
  to matrices, so that two pointer arguments may alias;
* a `char *` is the list of characters from the pointer onwards; reading at the end of
  the list yields the NUL character;
* the library function `strtod` is a parameter of the analyser: the theorems hold for every
  behaviour of it, or say what they assume of it;
* the library function `free` returns when it is given the start of the allocated block; given
  any other address, where its behaviour is undefined, it ends the process as the C library
  does, with `abort`;
* where a property depends on rounding, `IntDouble` gives the double-precision addition and
  subtraction on the doubles that are integers;
* an `unsigned int` is a natural number reduced modulo `2 ^ 32`; the conversion of a `char` to
  `int`, which depends on the platform, is a parameter of `hash`;
* a linked list of line numbers is the list of the numbers in the order of the `next`
  pointers, and an array of entries is a map from positions to entries.
-/

namespace MainMat

/-! ## Matrices and memory -/

/-- The type `mat`: `double data[4][4]`. -/
abbrev mat (α : Type) := Fin 4 → Fin 4 → α

/-- Memory holding one matrix per location. -/
abbrev Heap (ι α : Type) := ι → mat α

/-- The assignment `p->data[row][col] = v`. -/
def setCell {ι α : Type} [DecidableEq ι] (h : Heap ι α) (p : ι) (row col : Fin 4) (v : α) :
    Heap ι α :=
  fun q => if q = p then (fun r c => if r = row ∧ c = col then v else h q r c) else h q

/-- The macro `FOR_RANGE(index, upperBound)`: `for (index = 0; index < upperBound; index++)`,
as a state transformer. -/
def FOR_RANGE {σ : Type} (upperBound : Nat) (body : Fin upperBound → σ → σ) (s : σ) : σ :=
  (List.finRange upperBound).foldl (fun acc index => body index acc) s

def NUM_OF_ROWS : Nat := 4

def NUM_OF_COLUMNS : Nat := 4

section Engine

variable {ι α : Type} [DecidableEq ι]

/-- The function `copy_mat` of `utility.c`. -/
def copy_mat (srcMatrix destMatrix : ι) (h : Heap ι α) : Heap ι α :=
  FOR_RANGE 4 (fun row h =>
    FOR_RANGE 4 (fun col h =>
      setCell h destMatrix row col (h srcMatrix row col)) h) h

/-- The function `add_mat` of `mymat.c`. -/
def add_mat [Add α] (matrixA matrixB matrixC : ι) (h : Heap ι α) : Heap ι α :=
  FOR_RANGE NUM_OF_ROWS (fun row h =>
    FOR_RANGE NUM_OF_COLUMNS (fun col h =>
      setCell h matrixC row col (h matrixA row col + h matrixB row col)) h) h

/-- The function `sub_mat` of `mymat.c`. -/
def sub_mat [Sub α] (matrixA matrixB matrixC : ι) (h : Heap ι α) : Heap ι α :=
  FOR_RANGE NUM_OF_ROWS (fun row h =>
    FOR_RANGE NUM_OF_COLUMNS (fun col h =>
      setCell h matrixC row col (h matrixA row col - h matrixB row col)) h) h

/-- The function `mul_scalar` of `mymat.c`. -/
def mul_scalar [Mul α] (matrixA : ι) (scalar : α) (matrixB : ι) (h : Heap ι α) : Heap ι α :=
  FOR_RANGE NUM_OF_ROWS (fun row h =>
    FOR_RANGE NUM_OF_COLUMNS (fun col h =>
      setCell h matrixB row col (h matrixA row col * scalar)) h) h

/-- Memory extended with one fresh location `none` for the local `temp_mat = {0}`. -/
def withTemp [Zero α] (h : Heap ι α) : Heap (Option ι) α
  | none => fun _ _ => 0
  | some q => h q

/-- The function `mul_mat` of `mymat.c`; `none` is the address of the local `temp_mat`. -/
def mul_mat [Add α] [Mul α] [Zero α] (matrixA matrixB matrixC : ι) (h : Heap ι α) :
    Heap ι α :=
  let h1 : Heap (Option ι) α :=
    FOR_RANGE NUM_OF_ROWS (fun row h =>
      FOR_RANGE NUM_OF_COLUMNS (fun col h =>
        let h := setCell h none row col 0
        FOR_RANGE 4 (fun k h =>
          setCell h none row col
            (h none row col + h (some matrixA) row k * h (some matrixB) k col)) h) h)
      (withTemp h)
  let h2 := copy_mat none (some matrixC) h1
  fun q => h2 (some q)

/-- The function `trans_mat` of `mymat.c`; `none` is the address of the local `temp_mat`. -/
def trans_mat [Zero α] (matrixA matrixB : ι) (h : Heap ι α) : Heap ι α :=
  let h1 : Heap (Option ι) α :=
    FOR_RANGE NUM_OF_ROWS (fun row h =>
      FOR_RANGE NUM_OF_COLUMNS (fun col h =>
        setCell h none row col (h (some matrixA) col row)) h)
      (withTemp h)
  let h2 := copy_mat none (some matrixB) h1
  fun q => h2 (some q)

/-- The state of the loops of `read_mat`: the memory, the counter `i`, and whether the
inner loop has executed `break`. -/
structure ReadState (ι α : Type) where
  heap : Heap ι α
  i : Nat
  broke : Bool

/-- The body of the inner loop of `read_mat`, at row `row` and column `col`. A store is
executed only while `i < 16`, that is for `row < 4`. -/
def read_mat_cell [Zero α] (matrix : ι) (val : List α) (size : Nat) (row : Nat) (col : Fin 4)
    (st : ReadState ι α) : ReadState ι α :=
  if st.broke then st
  else if st.i < size then
    { heap := if hr : row < 4 then setCell st.heap matrix ⟨row, hr⟩ col (val.getD st.i 0)
              else st.heap,
      i := st.i + 1, broke := false }
  else if st.i < 16 then
    { heap := if hr : row < 4 then setCell st.heap matrix ⟨row, hr⟩ col 0 else st.heap,
      i := st.i + 1, broke := false }
  else { st with broke := true }

/-- The body of the outer loop of `read_mat`: the inner loop over the columns of `row`. -/
def read_mat_row [Zero α] (matrix : ι) (val : List α) (size : Nat) (row : Nat)
    (s : Heap ι α × Nat) : Heap ι α × Nat :=
  let inner := FOR_RANGE NUM_OF_COLUMNS (fun col st => read_mat_cell matrix val size row col st)
    { heap := s.1, i := s.2, broke := false }
  (inner.heap, inner.i)

/-- The function `read_mat` of `mymat.c`. The array `val` is a list and `val[i]` reads its
`i`-th element (`0` beyond its end, which the code reaches only when `size` exceeds the
length of the array). The row index runs up to `size`, as in the source. -/
def read_mat [Zero α] (matrix : ι) (val : List α) (size : Nat) (h : Heap ι α) : Heap ι α :=
  let size := if size > 16 then 16 else size
  (FOR_RANGE size (fun row s => read_mat_row matrix val size row.val s) (h, 0)).1

end Engine

/-! ## Strings, cursors and the scanning macros (`utility.h`) -/

/-- The terminator of a C string. -/
def NUL : Char := Char.ofNat 0

/-- The read `*ptr`; at the end of the list it yields NUL. -/
def deref (ptr : List Char) : Char := ptr.headD NUL

/-- The function `isspace` of the C locale: space, `\t`, `\n`, `\v`, `\f`, `\r`. -/
def isspace (c : Char) : Bool :=
  c == ' ' || c == '\t' || c == '\n' || c == Char.ofNat 11 || c == Char.ofNat 12 || c == '\r'

/-- The macro `IS_END_OF_COMMAND(ptr)`. -/
def IS_END_OF_COMMAND (ptr : List Char) : Bool := deref ptr == NUL || deref ptr == '\n'

/-- The macro `IS_NOT_END_OF_COMMAND(ptr)`. -/
def IS_NOT_END_OF_COMMAND (ptr : List Char) : Bool := deref ptr != NUL && deref ptr != '\n'

/-- The macro `MOVE_TO_NON_WHITE(string)`: `for (; *string && isspace(*string); string++);`. -/
def MOVE_TO_NON_WHITE (string : List Char) : List Char :=
  string.dropWhile (fun c => c != NUL && isspace c)

/-- The macro `MOVE_TO_NEXT_WORD(ptr)`: skip white space, then skip the word. -/
def MOVE_TO_NEXT_WORD (ptr : List Char) : List Char :=
  (ptr.dropWhile (fun c => c != NUL && isspace c)).dropWhile (fun c => c != NUL && !isspace c)

def MAX_MAT_NAME : Nat := 5

def FUNC_COUNT : Nat := 8

def NUM_OF_MATRICES : Nat := 6

/-- The macro `MOVE_AFTER_MAT(ptr)`: `ptr += MAX_MAT_NAME`. -/
def MOVE_AFTER_MAT (ptr : List Char) : List Char := ptr.drop MAX_MAT_NAME

/-- The test `strncmp(s1, s2, n) == 0`: the strings agree on their first `n` characters, or up
to a common terminator before that. -/
def strncmp_eq (s1 s2 : List Char) : Nat → Bool
  | 0 => true
  | n + 1 =>
    if deref s1 != deref s2 then false
    else if deref s1 == NUL then true
    else strncmp_eq s1.tail s2.tail n

/-- The function `strlen`. -/
def strlen (s : List Char) : Nat := (s.takeWhile (fun c => c != NUL)).length

/-- The enumeration `CommandType` of `globals.h`. -/
inductive CommandType where
  | READ_MAT | PRINT_MAT | ADD_MAT | SUB_MAT | MUL_MAT | MUL_SCALAR | TRANS_MAT | STOP
  | NONE_FUNC
  deriving DecidableEq, Repr

/-- The enumeration `Matrix` of `globals.h`. -/
inductive Matrix where
  | MATRIX_A | MATRIX_B | MATRIX_C | MATRIX_D | MATRIX_E | MATRIX_F | NONE_MATRIX
  deriving DecidableEq, Repr

/-- The six global matrices of `mainmat.c`; a value of this type is the address of one. -/
inductive Reg where
  | MAT_A | MAT_B | MAT_C | MAT_D | MAT_E | MAT_F
  deriving DecidableEq, Repr

/-- The table `funcNames` of `tables_utility.c`. -/
def funcNames : List (List Char) :=
  ["read_mat".toList, "print_mat".toList, "add_mat".toList, "sub_mat".toList,
   "mul_mat".toList, "mul_scalar".toList, "trans_mat".toList, "stop".toList]

/-- The table `matrices` of `tables_utility.c`. -/
def matrices : List (List Char) :=
  ["MAT_A".toList, "MAT_B".toList, "MAT_C".toList, "MAT_D".toList, "MAT_E".toList,
   "MAT_F".toList]

/-- The enumerator of `CommandType` with value `i`. -/
def CommandType.ofIndex : Nat → CommandType
  | 0 => .READ_MAT | 1 => .PRINT_MAT | 2 => .ADD_MAT | 3 => .SUB_MAT | 4 => .MUL_MAT
  | 5 => .MUL_SCALAR | 6 => .TRANS_MAT | 7 => .STOP | _ => .NONE_FUNC

/-- The enumerator of `Matrix` with value `i`. -/
def Matrix.ofIndex : Nat → Matrix
  | 0 => .MATRIX_A | 1 => .MATRIX_B | 2 => .MATRIX_C | 3 => .MATRIX_D | 4 => .MATRIX_E
  | 5 => .MATRIX_F | _ => .NONE_MATRIX

/-- The first loop of `first_Word_analysis`: the number of characters of the first word. -/
def wordLength : List Char → Nat
  | [] => 0
  | c :: cs => if (c != NUL && c != '\n') && !isspace c then wordLength cs + 1 else 0

/-- The function `first_Word_analysis` of `utility.c`. -/
def first_Word_analysis (strPtr : List Char) : CommandType :=
  let charCount := wordLength strPtr
  match (List.range FUNC_COUNT).find? (fun i =>
      strlen (funcNames.getD i []) == charCount
        && strncmp_eq (funcNames.getD i []) strPtr charCount) with
  | some i => CommandType.ofIndex i
  | none => .NONE_FUNC

/-- The function `getMatrix` of `utility.c`. -/
def getMatrix (ptr : List Char) : Matrix :=
  match (List.range NUM_OF_MATRICES).find? (fun i =>
      strncmp_eq ptr (matrices.getD i []) MAX_MAT_NAME) with
  | some i => Matrix.ofIndex i
  | none => .NONE_MATRIX

/-- The function `whichMatrix` of `utility.c`; `none` is the NULL pointer. -/
def whichMatrix (ptr : List Char) : Option Reg :=
  match getMatrix ptr with
  | .MATRIX_A => some .MAT_A
  | .MATRIX_B => some .MAT_B
  | .MATRIX_C => some .MAT_C
  | .MATRIX_D => some .MAT_D
  | .MATRIX_E => some .MAT_E
  | .MATRIX_F => some .MAT_F
  | .NONE_MATRIX => none

/-! ## Messages (`error_utility.h`, `message_utility.h`) -/

def COMMA_ERR : String := "Illegal comma"

def EXT_TXT_ERR : String := "Extraneous text after end of command"

def NO_ARGS_ERR : String := "Missing argument"

def NO_COMMA_ERR : String := "Missing comma"

def UNNECESSARY_COMMA_ERR : String := "Multiple consecutive commas"

def UNDEFINED_MAT_ERR : String := "Undefined matrix name"

def MISSING_ARG_ERR : String := "Missing argument"

def MISSING_SCALAR_ERR : String := "Argument is not a scalar"

def ARG_IS_NOT_DOUBLE : String := "Argument is not a real number"

def UNDEFINED_CMD : String := "Undefined command name"

def EXIT_MESSAGE : String :=
  "\nThank you for using the program. You have successfully processed the input. \nHave a great day!\n"

/-! ## The command analyser (`process_input.c`) -/

/-- What is written to the standard output: a text, or a matrix rendered by `print_mat`. -/
inductive Out (α : Type) where
  | text (s : String)
  | matrix (m : mat α)

/-- The observable result of analysing one line: the registers afterwards, the messages
passed to `error_handling` in order, the standard output in order, and the exit status when
the process was terminated. -/
structure Outcome (α : Type) where
  regs : Heap Reg α
  errors : List String
  out : List (Out α)
  exit : Option Nat

section Analyser

variable {α : Type}

/-- Falling off the end of a function, with registers `σ`. -/
def done (σ : Heap Reg α) : Outcome α := { regs := σ, errors := [], out := [], exit := none }

/-- The statements `error_handling(msg); return;`. -/
def fault (σ : Heap Reg α) (msg : String) : Outcome α :=
  { regs := σ, errors := [msg], out := [], exit := none }

/-- Sequencing: when the first part has terminated the process nothing follows, otherwise the
second part runs on the registers the first left. -/
def Outcome.andThen (o : Outcome α) (k : Heap Reg α → Outcome α) : Outcome α :=
  match o.exit with
  | some _ => o
  | none =>
    let o2 := k o.regs
    { regs := o2.regs, errors := o.errors ++ o2.errors, out := o.out ++ o2.out, exit := o2.exit }

/-- The macro `ILLEGAL_COMMA(ch)`, followed by the rest `k` of the function. -/
def ILLEGAL_COMMA (ch : List Char) (σ : Heap Reg α) (k : Outcome α) : Outcome α :=
  if deref ch == ',' then fault σ COMMA_ERR else k

/-- The macro `EXTRANEOUS_TEXT(ch)`, followed by the rest `k` of the function. -/
def EXTRANEOUS_TEXT (ch : List Char) (σ : Heap Reg α) (k : Outcome α) : Outcome α :=
  if deref ch != NUL && (deref ch != '\n' && deref ch != NUL) then fault σ EXT_TXT_ERR else k

/-- The macro `MISSING_ARGUMENT(ch)`, followed by the rest `k` of the function. -/
def MISSING_ARGUMENT (ch : List Char) (σ : Heap Reg α) (k : Outcome α) : Outcome α :=
  if deref ch == NUL then fault σ NO_ARGS_ERR else k

/-- The macro `MISSING_COMMA(ch)`, followed by the rest `k` of the function. -/
def MISSING_COMMA (ch : List Char) (σ : Heap Reg α) (k : Outcome α) : Outcome α :=
  if deref ch != ',' then fault σ NO_COMMA_ERR else k

/-- The macro `MULTIPLE_CONSECUTIVE_COMMAS(ch)`, followed by the rest `k` of the function. -/
def MULTIPLE_CONSECUTIVE_COMMAS (ch : List Char) (σ : Heap Reg α) (k : Outcome α) :
    Outcome α :=
  if deref ch == ',' then fault σ UNNECESSARY_COMMA_ERR else k

/-- The function `print_mat` of `mymat.c`, as the output it produces. -/
def print_mat {ι : Type} (matrix : ι) (h : Heap ι α) : Out α := .matrix (h matrix)

/-- The function `stop` of `mymat.c`: the farewell message, then `exit(0)`. -/
def stop (σ : Heap Reg α) : Outcome α :=
  { regs := σ, errors := [], out := [.text EXIT_MESSAGE], exit := some 0 }

/-- The function `handle_stop`: `userInput++`, the check for extraneous text, then `stop()`. -/
def handle_stop (userInput : List Char) (σ : Heap Reg α) : Outcome α :=
  let userInput := userInput.tail
  EXTRANEOUS_TEXT userInput σ <|
  stop σ

/-- The function `handle_print_mat`. -/
def handle_print_mat (userInput : List Char) (firstMatrix : Reg) (σ : Heap Reg α) :
    Outcome α :=
  EXTRANEOUS_TEXT userInput σ <|
  { regs := σ, errors := [], out := [print_mat firstMatrix σ], exit := none }

/-- The function `handle_trans_mat`. -/
def handle_trans_mat [Zero α] (userInput : List Char) (firstMatrix : Reg) (σ : Heap Reg α) :
    Outcome α :=
  MISSING_COMMA userInput σ <|
  let userInput := MOVE_TO_NON_WHITE userInput.tail
  MULTIPLE_CONSECUTIVE_COMMAS userInput σ <|
  match whichMatrix userInput with
  | none => fault σ MISSING_ARG_ERR
  | some secondMatrix =>
    let userInput := MOVE_TO_NON_WHITE (MOVE_AFTER_MAT userInput)
    EXTRANEOUS_TEXT userInput σ <|
    done (trans_mat firstMatrix secondMatrix σ)

/-- The function `handle_mul_scalar`. The library function `strtod` is a parameter: it maps
the text at the cursor to the value read and to the number of characters consumed, so that
`endPtr` is the cursor advanced by that number and `userInput == endPtr` means `0`. -/
def handle_mul_scalar [Mul α] (strtod : List Char → α × Nat) (userInput : List Char)
    (firstMat : Reg) (σ : Heap Reg α) : Outcome α :=
  let userInput := MOVE_TO_NON_WHITE userInput
  MISSING_COMMA userInput σ <|
  let userInput := MOVE_TO_NON_WHITE userInput.tail
  MULTIPLE_CONSECUTIVE_COMMAS userInput σ <|
  let scalar := (strtod userInput).1
  if (strtod userInput).2 = 0 then fault σ MISSING_SCALAR_ERR
  else
    let userInput := userInput.drop (strtod userInput).2
    let userInput := MOVE_TO_NON_WHITE userInput
    MISSING_COMMA userInput σ <|
    let userInput := MOVE_TO_NON_WHITE userInput.tail
    MULTIPLE_CONSECUTIVE_COMMAS userInput σ <|
    match whichMatrix userInput with
    | none => fault σ MISSING_ARG_ERR
    | some secondMatrix =>
      let userInput := MOVE_TO_NON_WHITE (MOVE_AFTER_MAT userInput)
      EXTRANEOUS_TEXT userInput σ <|
      done (mul_scalar firstMat scalar secondMatrix σ)

/-- The function `handle_add_sub_mul`. -/
def handle_add_sub_mul [Add α] [Sub α] [Mul α] [Zero α] (userInput : List Char)
    (firstMat : Reg) (cmdType : CommandType) (σ : Heap Reg α) : Outcome α :=
  MISSING_COMMA userInput σ <|
  let userInput := MOVE_TO_NON_WHITE userInput.tail
  MULTIPLE_CONSECUTIVE_COMMAS userInput σ <|
  match whichMatrix userInput with
  | none => fault σ MISSING_ARG_ERR
  | some secondMatrix =>
    let userInput := MOVE_TO_NON_WHITE (MOVE_AFTER_MAT userInput)
    MISSING_COMMA userInput σ <|
    let userInput := MOVE_TO_NON_WHITE userInput.tail
    match whichMatrix userInput with
    | none => fault σ MISSING_ARG_ERR
    | some thirdMatrix =>
      let userInput := MOVE_TO_NON_WHITE (MOVE_AFTER_MAT userInput)
      EXTRANEOUS_TEXT userInput σ <|
      match cmdType with
      | .ADD_MAT => done (add_mat firstMat secondMatrix thirdMatrix σ)
      | .SUB_MAT => done (sub_mat firstMat secondMatrix thirdMatrix σ)
      | .MUL_MAT => done (mul_mat firstMat secondMatrix thirdMatrix σ)
      | _ => done σ

/-- How the `while` loop of `handle_read_mat` is left: by `error_handling(msg); return;`, or
past its end with the cursor and the array `values`. -/
inductive LoopExit (α : Type) where
  | returned (msg : String)
  | finished (userInput : List Char) (values : List α)

/-- The `while` loop of `handle_read_mat`, from the cursor `userInput` with the counter `i`
and the array `values`. -/
def read_values (strtod : List Char → α × Nat) (userInput : List Char) (i : Nat)
    (values : List α) : LoopExit α :=
  if h1 : IS_NOT_END_OF_COMMAND userInput = true then
    let values1 := if i < 16 then values.set i (strtod userInput).1 else values
    let i1 := if i < 16 then i + 1 else i
    if _h : (strtod userInput).2 = 0 then .returned ARG_IS_NOT_DOUBLE
    else
      let userInput1 := MOVE_TO_NON_WHITE (userInput.drop (strtod userInput).2)
      if IS_END_OF_COMMAND userInput1 then .finished userInput1 values1
      else if IS_NOT_END_OF_COMMAND userInput1 then
        let tempChar := deref userInput1
        let userInput2 := MOVE_TO_NON_WHITE userInput1.tail
        if IS_END_OF_COMMAND userInput2 && (tempChar != '\n' && tempChar != NUL) then
          .returned EXT_TXT_ERR
        else if tempChar != ',' then .returned NO_COMMA_ERR
        else if deref userInput2 != NUL && deref userInput2 == ',' then
          .returned UNNECESSARY_COMMA_ERR
        else read_values strtod userInput2 i1 values1
      else read_values strtod userInput1 i1 values1
  else .finished userInput values
termination_by userInput.length
decreasing_by
  all_goals
    have hne : userInput ≠ [] := by
      rintro rfl
      simp [IS_NOT_END_OF_COMMAND, deref] at h1
    have hlen : 0 < userInput.length := List.length_pos.mpr hne
    have hw : ∀ l : List Char, (MOVE_TO_NON_WHITE l).length ≤ l.length := fun l =>
      (List.dropWhile_sublist _).length_le
    have h3 := hw (userInput.drop (strtod userInput).2)
    have h4 := hw (MOVE_TO_NON_WHITE (userInput.drop (strtod userInput).2)).tail
    have h5 := List.length_tail (MOVE_TO_NON_WHITE (userInput.drop (strtod userInput).2))
    have h6 := List.length_drop (strtod userInput).2 userInput
    first
      | (simp only [userInput1, userInput2] at *; omega)
      | (simp only [userInput1] at *; omega)

/-- The function `handle_read_mat`. -/
def handle_read_mat [Zero α] (strtod : List Char → α × Nat) (userInput : List Char)
    (firstMat : Reg) (σ : Heap Reg α) : Outcome α :=
  MISSING_ARGUMENT userInput σ <|
  MISSING_COMMA userInput σ <|
  let userInput := MOVE_TO_NON_WHITE userInput.tail
  MULTIPLE_CONSECUTIVE_COMMAS userInput σ <|
  MISSING_ARGUMENT userInput σ <|
  match read_values strtod userInput 0 (List.replicate 16 0) with
  | .returned msg => fault σ msg
  | .finished userInput values =>
    let numOfVal := 16
    if IS_NOT_END_OF_COMMAND userInput then
      MISSING_COMMA userInput σ <|
      done (read_mat firstMat values numOfVal σ)
    else done (read_mat firstMat values numOfVal σ)

/-- The status with which a process ended by `abort` (signal 6) is reported. -/
def ABORTED : Nat := 134

/-- The library function `free`, as `analyze_input` calls it on its cursor. The line is held in
the block that `line_process` allocated, and `analyze_input` received the pointer to the start
of that block; `skipped` is the number of characters between the start and the cursor. With
`skipped = 0` the pointer is the one the allocation returned: the block is released and the
call returns. Otherwise the pointer is not one an allocation function returned: the behaviour
is undefined, and the C library, which finds no block at that address, ends the process with
`abort`. -/
def free (skipped : Nat) (σ : Heap Reg α) : Outcome α :=
  { regs := σ, errors := [], out := [], exit := if skipped = 0 then none else some ABORTED }

/-- The function `analyze_input`, called with the pointer to the start of the block that holds
the line. When `handle_stop` returns (it reported a fault), the function goes on with the
checks that follow. On an undefined command `free(userInput)` is called on the cursor, which
`MOVE_TO_NON_WHITE` has moved by the number of white-space characters that begin the line. -/
def analyze_input [Add α] [Sub α] [Mul α] [Zero α] (strtod : List Char → α × Nat)
    (userInput : List Char) (σ : Heap Reg α) : Outcome α :=
  let block := userInput
  let userInput := MOVE_TO_NON_WHITE userInput
  if IS_END_OF_COMMAND userInput then done σ
  else
    let cmdType := first_Word_analysis userInput
    if cmdType = .NONE_FUNC then
      (fault σ UNDEFINED_CMD).andThen (free (block.length - userInput.length))
    else
      let userInput := MOVE_TO_NON_WHITE (MOVE_TO_NEXT_WORD userInput)
      ILLEGAL_COMMA userInput σ <|
      (if cmdType = .STOP then handle_stop userInput σ else done σ).andThen fun σ =>
      MISSING_ARGUMENT userInput σ <|
      match whichMatrix userInput with
      | none => fault σ UNDEFINED_MAT_ERR
      | some firstMat =>
        let userInput := MOVE_TO_NON_WHITE (MOVE_AFTER_MAT userInput)
        match cmdType with
        | .PRINT_MAT => handle_print_mat userInput firstMat σ
        | .TRANS_MAT => handle_trans_mat userInput firstMat σ
        | .MUL_SCALAR => handle_mul_scalar strtod userInput firstMat σ
        | .ADD_MAT => handle_add_sub_mul userInput firstMat cmdType σ
        | .SUB_MAT => handle_add_sub_mul userInput firstMat cmdType σ
        | .MUL_MAT => handle_add_sub_mul userInput firstMat cmdType σ
        | .READ_MAT => handle_read_mat strtod userInput firstMat σ
        | _ => done σ

end Analyser

/-! ## Notions used to state the properties -/

section Notions

variable {α : Type}

/-- The sixteen cells in the order in which a row loop around a column loop visits them. -/
def cellOrder : List (Fin 4 × Fin 4) :=
  [(0, 0), (0, 1), (0, 2), (0, 3), (1, 0), (1, 1), (1, 2), (1, 3),
   (2, 0), (2, 1), (2, 2), (2, 3), (3, 0), (3, 1), (3, 2), (3, 3)]

/-- The dot product of row `r` of `a` and column `c` of `b`, accumulated from `0` in the
order `k = 0, 1, 2, 3`. -/
def dot [Add α] [Mul α] [Zero α] (a b : mat α) (r c : Fin 4) : α :=
  0 + a r 0 * b 0 c + a r 1 * b 1 c + a r 2 * b 2 c + a r 3 * b 3 c

/-- The value the load rule gives to cell `(r, c)`. -/
def loadRule [Zero α] (val : List α) (size : Nat) (r c : Fin 4) : α :=
  if 4 * r.val + c.val < size then val.getD (4 * r.val + c.val) 0 else 0

/-- The name of a register in the command language. -/
def Reg.name : Reg → List Char
  | .MAT_A => "MAT_A".toList | .MAT_B => "MAT_B".toList | .MAT_C => "MAT_C".toList
  | .MAT_D => "MAT_D".toList | .MAT_E => "MAT_E".toList | .MAT_F => "MAT_F".toList

/-- The text of a line: its characters up to the terminator. -/
def lineText (line : List Char) : List Char := line.takeWhile (fun c => c != NUL)

/-- The last operand of a line: the register named by the five characters that end the text
of the line, white space at the end of the line left aside. -/
def lastOperand (line : List Char) : Option Reg :=
  whichMatrix (((lineText line).reverse.dropWhile isspace).take MAX_MAT_NAME).reverse

/-- The first operand of a line: the register named right after the command word. -/
def firstOperand (line : List Char) : Option Reg :=
  whichMatrix (MOVE_TO_NON_WHITE (MOVE_TO_NEXT_WORD (MOVE_TO_NON_WHITE line)))

/-- The destination of the command on a line: the first operand of `read_mat`, the last
operand of `trans_mat`, `mul_scalar`, `add_mat`, `sub_mat` and `mul_mat`; the other
commands have none. -/
def destination (line : List Char) : Option Reg :=
  match first_Word_analysis (MOVE_TO_NON_WHITE line) with
  | .READ_MAT => firstOperand line
  | .TRANS_MAT => lastOperand line
  | .MUL_SCALAR => lastOperand line
  | .ADD_MAT => lastOperand line
  | .SUB_MAT => lastOperand line
  | .MUL_MAT => lastOperand line
  | _ => none

/-- The cursor `cur` is reached from the start of `line` by passing only characters other
than the terminator. -/
def Reached (line cur : List Char) : Prop := ∃ pre, line = pre ++ cur ∧ ∀ c ∈ pre, c ≠ NUL

/-- The scan `strtod` consumes no terminator: the characters it passes are part of the
string it is given. -/
def StaysInText {α : Type} (strtod : List Char → α × Nat) : Prop :=
  ∀ l : List Char, ∀ c ∈ l.take (strtod l).2, c ≠ NUL

/-- One value of a `read_mat` line: the white space before it, its text, and the value the
scan gives to that text. -/
structure ValueItem (α : Type) where
  ws : List Char
  lit : List Char
  val : α

/-- The text `w1 v1,w2 v2,...,wn vn` of the values of a `read_mat` line. -/
def valuesText {α : Type} : List (ValueItem α) → List Char
  | [] => []
  | it :: rest =>
    match rest with
    | [] => it.ws ++ it.lit
    | _ :: _ => it.ws ++ it.lit ++ ',' :: valuesText rest

/-- The line `read_mat R,w1 v1,...,wn vn`. -/
def readMatLine {α : Type} (R : Reg) (items : List (ValueItem α)) : List Char :=
  "read_mat ".toList ++ R.name ++ ',' :: valuesText items

/-- The item is white space followed by a numeric literal for the scan `strtod`: the text
begins with a character that is neither white space, nor a comma, nor the terminator, and
when a comma or the end of the line follows it, the scan consumes exactly the text and yields
the value of the item. -/
def IsLiteral {α : Type} (strtod : List Char → α × Nat) (it : ValueItem α) : Prop :=
  (∀ c ∈ it.ws, isspace c = true) ∧
  (∃ c t, it.lit = c :: t ∧ isspace c = false ∧ c ≠ ',' ∧ c ≠ NUL) ∧
  (∀ rest, (rest = [] ∨ ∃ t, rest = ',' :: t) →
    strtod (it.lit ++ rest) = (it.val, it.lit.length))

/-- The array `values` after the values `vs` have been stored from index `i` on, as the loop
of `handle_read_mat` does: only the indices below 16 are written. -/
def storeValues {α : Type} : Nat → List α → List α → List α
  | _, values, [] => values
  | i, values, v :: vs =>
    storeValues (if i < 16 then i + 1 else i) (if i < 16 then values.set i v else values) vs

/-- A scan of unsigned decimal integers, one possible behaviour of `strtod` on such texts: it
consumes the leading digits and yields their value. It instantiates the parameter `strtod` in
the examples. -/
def strtodDigits (l : List Char) : Int × Nat :=
  ((l.takeWhile Char.isDigit).foldl (fun acc c => acc * 10 + ((c.toNat : Int) - 48)) 0,
    (l.takeWhile Char.isDigit).length)

/-- The items of the line `read_mat MAT_A, 1,2,3,4,5,6,7,8,9,10,11,12,13,14,15,16`. -/
def sixteenItems : List (ValueItem Int) :=
  [⟨[' '], ['1'], 1⟩, ⟨[], ['2'], 2⟩, ⟨[], ['3'], 3⟩, ⟨[], ['4'], 4⟩,
   ⟨[], ['5'], 5⟩, ⟨[], ['6'], 6⟩, ⟨[], ['7'], 7⟩, ⟨[], ['8'], 8⟩,
   ⟨[], ['9'], 9⟩, ⟨[], ['1', '0'], 10⟩, ⟨[], ['1', '1'], 11⟩, ⟨[], ['1', '2'], 12⟩,
   ⟨[], ['1', '3'], 13⟩, ⟨[], ['1', '4'], 14⟩, ⟨[], ['1', '5'], 15⟩, ⟨[], ['1', '6'], 16⟩]

/-- The number of halvings that bring a natural number below `2 ^ 53`, at most `fuel`. -/
def excessBitsAux : Nat → Nat → Nat
  | 0, _ => 0
  | fuel + 1, a => if a < 2 ^ 53 then 0 else excessBitsAux fuel (a / 2) + 1

/-- The number of low-order bits a natural number has beyond 53 significant bits (for numbers
below `2 ^ 1024`, the range of the finite doubles). -/
def excessBits (a : Nat) : Nat := excessBitsAux 1024 a

/-- IEEE-754 rounding of an integer to double precision: 53 significant bits, round to
nearest, ties to even (integers below `2 ^ 1024` in absolute value). -/
def roundToDouble (n : Int) : Int :=
  let a := n.natAbs
  let k := excessBits a
  if k = 0 then n
  else
    let q := a / 2 ^ k
    let r := a % 2 ^ k
    let half := 2 ^ (k - 1)
    let q1 := if half < r ∨ (r = half ∧ q % 2 = 1) then q + 1 else q
    Int.sign n * ((q1 * 2 ^ k : Nat) : Int)

/-- The doubles whose value is an integer, with the addition and subtraction of IEEE-754
double precision: the exact result, rounded by `roundToDouble`. -/
structure IntDouble where
  val : Int
  deriving DecidableEq

instance : Add IntDouble := ⟨fun a b => ⟨roundToDouble (a.val + b.val)⟩⟩

instance : Sub IntDouble := ⟨fun a b => ⟨roundToDouble (a.val - b.val)⟩⟩

/-- Registers of doubles: `MAT_A` holds `1.0` and `MAT_B` holds `9007199254740992.0`
(that is `2 ^ 53`) in every cell, the others hold `0.0`. -/
def roundingRegs : Heap Reg IntDouble := fun q _ _ =>
  match q with
  | .MAT_A => ⟨1⟩
  | .MAT_B => ⟨9007199254740992⟩
  | _ => ⟨0⟩

end Notions

/-! ## Words, operands and lines -/

/-- The word at the cursor: the characters from the cursor up to the first white space or
the terminator. -/
def wordAt (p : List Char) : List Char := p.takeWhile (fun c => c != NUL && !isspace c)

/-- The part of `analyze_input` that follows the classification of the command word: the
checks on the first operand and the call of the handler, from the cursor `userInput` placed
after the command word and the white space behind it. -/
def analyze_operands {α : Type} [Add α] [Sub α] [Mul α] [Zero α] (strtod : List Char → α × Nat)
    (cmdType : CommandType) (userInput : List Char) (σ : Heap Reg α) : Outcome α :=
  ILLEGAL_COMMA userInput σ <|
  (if cmdType = .STOP then handle_stop userInput σ else done σ).andThen fun σ =>
  MISSING_ARGUMENT userInput σ <|
  match whichMatrix userInput with
  | none => fault σ UNDEFINED_MAT_ERR
  | some firstMat =>
    let userInput := MOVE_TO_NON_WHITE (MOVE_AFTER_MAT userInput)
    match cmdType with
    | .PRINT_MAT => handle_print_mat userInput firstMat σ
    | .TRANS_MAT => handle_trans_mat userInput firstMat σ
    | .MUL_SCALAR => handle_mul_scalar strtod userInput firstMat σ
    | .ADD_MAT => handle_add_sub_mul userInput firstMat cmdType σ
    | .SUB_MAT => handle_add_sub_mul userInput firstMat cmdType σ
    | .MUL_MAT => handle_add_sub_mul userInput firstMat cmdType σ
    | .READ_MAT => handle_read_mat strtod userInput firstMat σ
    | _ => done σ

/-- The cursor at the first operand of a line: after the command word and the white space
behind it. -/
def firstOperandText (line : List Char) : List Char :=
  MOVE_TO_NON_WHITE (MOVE_TO_NEXT_WORD (MOVE_TO_NON_WHITE line))


/-! ## Reading a line (`process_input.c`) -/

def EOF_ERR : String :=
  "Premature end of file encountered. Missing stop command to properly terminate the file processing"

def MEMORY_ALLOCATION_ERR : String := "Memory allocation failed"

def INIT_LINE_SIZE : Nat := 100

/-- The status `EXIT_FAILURE` of `stdlib.h`. -/
def EXIT_FAILURE : Nat := 1

/-- How a call of `get_line` ends: the process is terminated, after the messages `errors` were
passed to `error_handling` and the texts `stderr` were written to the error stream directly;
or the function returns, with the contents of the buffer and the remaining input. -/
inductive LineExit where
  | exited (errors : List String) (stderr : List String) (status : Nat)
  | returned (value : Bool) (line : Nat → Char) (stdin : List Char)

/-- The function `handle_memory_allocation_failure` of `utility.c`. -/
def handle_memory_allocation_failure : LineExit := .exited [] [MEMORY_ALLOCATION_ERR] EXIT_FAILURE

/-- The `for` loop of `get_line` and the `return` after it. The standard input is the list of
the characters still to come, and `fgetc` yields `EOF` when the list is empty. The buffer
`line` is a map from indices to characters: what it holds at the indices never written is the
content of the allocated memory. The library function `realloc` is a parameter: for the size
requested it fails (`none`) or yields the content of the memory beyond the characters
written so far. -/
def get_line_loop (realloc : Nat → Option (Nat → Char)) :
    List Char → Nat → (Nat → Char) → Nat → LineExit
  | [], _, _, _ => .exited [EOF_ERR] [] 0
  | ch :: stdin, i, line, lineLength =>
    if ch = '\n' then .returned (line i == NUL) line stdin
    else
      let line := Function.update line i ch
      if i = lineLength - 1 then
        let lineLength := lineLength * 2
        match realloc ((lineLength + 1) * 1) with
        | none => handle_memory_allocation_failure
        | some fresh =>
          get_line_loop realloc stdin (i + 1) (fun j => if j ≤ i then line j else fresh j)
            lineLength
      else get_line_loop realloc stdin (i + 1) line lineLength

/-- The function `get_line`. -/
def get_line (realloc : Nat → Option (Nat → Char)) (stdin : List Char) (line : Nat → Char) :
    LineExit :=
  get_line_loop realloc stdin 0 line INIT_LINE_SIZE

/-! ## Start-up (`mainmat.c`) -/

/-- The function `matrices_initialization`: the array `zero` holds the single value `0`, so
`size` is `1`, and `read_mat` is called on each register in turn. -/
def matrices_initialization {α : Type} [Zero α] (σ : Heap Reg α) : Heap Reg α :=
  let zero : List α := [0]
  let size := zero.length
  let σ := read_mat Reg.MAT_A zero size σ
  let σ := read_mat Reg.MAT_B zero size σ
  let σ := read_mat Reg.MAT_C zero size σ
  let σ := read_mat Reg.MAT_D zero size σ
  let σ := read_mat Reg.MAT_E zero size σ
  read_mat Reg.MAT_F zero size σ

/-! ## The function `getScalar` (`utility.c`) -/

/-- The function `isdigit` of the C locale. -/
def isdigit (c : Char) : Bool := '0' ≤ c && c ≤ '9'

/-- The loop `while (*strPtr && (isdigit(*strPtr) || *strPtr == '.'))` of `getScalar`, on the
variables `result`, `decimalPlaces` and `isFractional`. -/
def getScalar_digits {α : Type} [Add α] [Mul α] [NatCast α] :
    List Char → α → Nat → Bool → α × Nat × Bool
  | [], result, decimalPlaces, isFractional => (result, decimalPlaces, isFractional)
  | c :: strPtr, result, decimalPlaces, isFractional =>
    if c != NUL && (isdigit c || c == '.') then
      if c == '.' then getScalar_digits strPtr result decimalPlaces true
      else
        getScalar_digits strPtr (result * ((10 : Nat) : α) + ((c.toNat - '0'.toNat : Nat) : α))
          (if isFractional then decimalPlaces + 1 else decimalPlaces) isFractional
    else (result, decimalPlaces, isFractional)

/-- The loop `while (decimalPlaces > 0) { result /= 10.0; decimalPlaces--; }`. -/
def getScalar_adjust {α : Type} [Div α] [NatCast α] : Nat → α → α
  | 0, result => result
  | decimalPlaces + 1, result => getScalar_adjust decimalPlaces (result / ((10 : Nat) : α))

/-- The function `getScalar`: `none` is the result `FALSE`, which leaves `*returnVal` as it
was, and `some v` is the result `TRUE` with `v` stored in `*returnVal`. The type `α` stands
for `double`, with the operations the code uses. -/
def getScalar {α : Type} [Zero α] [Add α] [Mul α] [Div α] [NatCast α] [IntCast α]
    (strPtr : List Char) : Option α :=
  let result : α := 0
  let strPtr := strPtr.dropWhile isspace
  if !(isdigit (deref strPtr) || deref strPtr == '-' || deref strPtr == '+') then none
  else if deref strPtr == '0' || deref strPtr == NUL then none
  else
    let tail (sign : Int) (strPtr : List Char) : Option α :=
      let st := getScalar_digits strPtr result 0 false
      let result := if st.2.2 then getScalar_adjust st.2.1 st.1 else st.1
      some (result * ((sign : Int) : α))
    if deref strPtr == '-' then
      let strPtr := strPtr.tail
      if !isdigit (deref strPtr) then none else tail (-1) strPtr
    else if deref strPtr != NUL || deref strPtr == '+' then
      let strPtr := strPtr.tail
      if !isdigit (deref strPtr) then none else tail 1 strPtr
    else tail 1 strPtr

/-! ## Printing a matrix (`mymat.c`) -/

/-- The function `fabs`, on a type with an order, a negation and a zero. -/
def fabs {α : Type} [LT α] [DecidableRel (fun a b : α => a < b)] [Neg α] [Zero α] (x : α) : α :=
  if x < 0 then -x else x

section Printing

variable {α : Type} [LT α] [DecidableRel (fun a b : α => a < b)] [Neg α] [Zero α] [OfNat α 1000]

/-- The body of the inner loop of the first part of `print_mat`, on the flag `useScientific`
and on whether the loop has executed `break`. -/
def print_mat_scan_cell (m : mat α) (row col : Fin 4) (st : Bool × Bool) : Bool × Bool :=
  if st.2 then st
  else if (1000 : α) < fabs (m row col) then (true, true)
  else st

/-- The body of the outer loop of the first part of `print_mat`: the inner loop over the
columns, then `if (useScientific) break;`. -/
def print_mat_scan_row (m : mat α) (row : Fin 4) (st : Bool × Bool) : Bool × Bool :=
  if st.2 then st
  else
    let inner := FOR_RANGE NUM_OF_COLUMNS (fun col s => print_mat_scan_cell m row col s)
      (st.1, false)
    (inner.1, inner.1)

/-- The flag `useScientific` of `print_mat` after the first pair of loops. -/
def useScientific (m : mat α) : Bool :=
  (FOR_RANGE NUM_OF_ROWS (fun row st => print_mat_scan_row m row st) (false, false)).1

/-- One call of `printf` by `print_mat`: a line feed, or a cell with its conversion. -/
inductive PrintItem (α : Type) where
  | newline
  | cell (format : String) (value : α)

/-- The calls of `printf` that `print_mat` makes on a matrix, in order. -/
def print_mat_items (m : mat α) : List (PrintItem α) :=
  let useScientific := useScientific m
  FOR_RANGE NUM_OF_ROWS (fun row out =>
    FOR_RANGE NUM_OF_COLUMNS (fun col out =>
      if useScientific then out ++ [.cell "%10.2e\t" (m row col)]
      else out ++ [.cell "%7.2f\t" (m row col)]) (out ++ [.newline])) [] ++ [.newline]

end Printing

/-- A matrix of rationals whose largest magnitude is exactly `1000`. -/
def atThreshold : mat ℚ := fun r c =>
  if r = 1 ∧ c = 2 then 1000 else if r = 3 ∧ c = 0 then -1000 else 999

/-- A matrix of rationals with one cell at `1000.01` and `0` elsewhere. -/
def aboveThreshold : mat ℚ := fun r c => if r = 2 ∧ c = 3 then 100001 / 100 else 0

/-- The text `w1 v1,w2 v2,...,wn vn,` of values that are each followed by a comma, and then
the text `T`. -/
def valuesBefore {α : Type} : List (ValueItem α) → List Char → List Char
  | [], T => T
  | it :: rest, T => it.ws ++ it.lit ++ ',' :: valuesBefore rest T

/-! ## The driver (`process_input.c`, `mainmat.c`) -/

def EMPTY_LINE : String := "The line is empty.\n"

def OPENING_MESSAGE : String := "\nHello,\nPlease enter a command.\n"

/-- The size `sizeof(char *)`, on a platform with 64-bit pointers. -/
def SIZEOF_CHAR_PTR : Nat := 8

/-- The characters of the first `size` bytes of a buffer, as the text at a cursor placed at its
start. The analyser reads this text up to its first terminator. -/
def bufferText (line : Nat → Char) (size : Nat) : List Char := (List.range size).map line

/-- The function `print_input` of `utility.c`, as the text it writes. -/
def print_input (userInput : List Char) : String :=
  "The input is: " ++ String.mk (lineText userInput) ++ "\n"

/-- What a call of `line_process` writes to the standard output, and how it ends: `result` is
that of `get_line`, or the exit of `validated_memory_allocation`. -/
structure LineProcess where
  out : List String
  result : LineExit

/-- The function `line_process`. The library function `malloc` is a parameter: for the size
requested it fails (`none`) or yields the content of the block it allocates. The buffer
`*userInput` is the one `get_line` leaves: `get_line` assigns the result of `realloc` to its own
parameter only, so this is the buffer of the caller when no reallocation took place (lines
shorter than `INIT_LINE_SIZE`) or when `realloc` resized the block where it was. When a
reallocation moves the block, the pointer of the caller is left on the released block and the
behaviour of the program is undefined: that case is outside this definition, and the theorems
about the driver are stated for lines shorter than `INIT_LINE_SIZE`. -/
def line_process (malloc realloc : Nat → Option (Nat → Char)) (stdin : List Char) :
    LineProcess :=
  match malloc (SIZEOF_CHAR_PTR * INIT_LINE_SIZE) with
  | none => { out := [], result := handle_memory_allocation_failure }
  | some userInput =>
    match get_line realloc stdin userInput with
    | .exited errors stderr status => { out := [], result := .exited errors stderr status }
    | .returned value userInput stdin =>
      if value then
        if IS_END_OF_COMMAND (bufferText userInput (SIZEOF_CHAR_PTR * INIT_LINE_SIZE)) then
          { out := [EMPTY_LINE], result := .returned true userInput stdin }
        else
          { out := [print_input (bufferText userInput (SIZEOF_CHAR_PTR * INIT_LINE_SIZE))],
            result := .returned true userInput stdin }
      else { out := [], result := .returned false userInput stdin }

/-- The state after one iteration of the loop of `program_process`: the outcome of the line
(registers, messages passed to `error_handling`, standard output, exit status), the texts
written to the error stream directly, and the input that remains. -/
structure Iteration (α : Type) where
  outcome : Outcome α
  stderr : List String
  stdin : List Char

/-- One iteration of the loop of `program_process`: `line_process(&userInput)`, whose result is
not looked at, `analyze_input(userInput)`, and the prompt. -/
def program_iteration {α : Type} [Add α] [Sub α] [Mul α] [Zero α]
    (malloc realloc : Nat → Option (Nat → Char)) (strtod : List Char → α × Nat)
    (stdin : List Char) (σ : Heap Reg α) : Iteration α :=
  let lp := line_process malloc realloc stdin
  match lp.result with
  | .exited errors stderr status =>
    { outcome := { regs := σ, errors := errors, out := lp.out.map .text, exit := some status },
      stderr := stderr, stdin := [] }
  | .returned _ userInput stdin =>
    let o := analyze_input strtod (bufferText userInput (SIZEOF_CHAR_PTR * INIT_LINE_SIZE)) σ
    { outcome :=
        { regs := o.regs, errors := o.errors,
          out := lp.out.map .text ++ o.out ++
            (match o.exit with
             | none => [.text "\nPlease enter a command.\n"]
             | some _ => []),
          exit := o.exit },
      stderr := [], stdin := stdin }

/-- The buffer after the characters `chars` have been stored from index `0` on. -/
def written (chars : List Char) (line : Nat → Char) : Nat → Char :=
  fun j => if j < chars.length then chars.getD j NUL else line j

/-! ## The word index (`mmn_23`) -/

def HASH_SIZE : Nat := 100

/-- The loop of `hash`, on the variable `hash`. An `unsigned int` has 32 bits. The conversion
`(int) ch` of a character is the parameter `toInt`: its values on the characters beyond the
basic set depend on whether `char` is signed. The `int` is converted to `unsigned int` by
the addition. -/
def hash_loop (toInt : Char → Int) : List Char → Nat → Nat
  | [], hash => hash
  | ch :: str, hash =>
    let c := toInt ch
    if c = 0 then hash
    else
      hash_loop toInt str ((((hash * 2 ^ 5) % 2 ^ 32 + hash) % 2 ^ 32 + (c % 2 ^ 32).toNat) % 2 ^ 32)

/-- The function `hash` of `hash_utility.c`. -/
def hash (toInt : Char → Int) (str : List Char) : Nat := hash_loop toInt str 5381 % HASH_SIZE

/-- The structure `WordEntry` of `globals.h`: `word` is `none` for the null pointer, and
`lines` is the list of the line numbers of the nodes reached from the pointer `lines`, in the
order of the `next` pointers. -/
structure WordEntry where
  word : Option (List Char)
  lines : List Int

/-- The test `strcmp(s1, s2) == 0`: the strings are the same up to their terminators. -/
def strcmp_eq (s1 s2 : List Char) : Bool := lineText s1 == lineText s2

/-- The function `strdup`: a copy of the string. -/
def strdup (s : List Char) : List Char := lineText s

/-- The function `word_compare` of `utility.c`. It is called only on an entry whose list is
not empty, and such an entry has a word. -/
def word_compare (index : Nat → WordEntry) (word : List Char) (hash_value : Nat) : Bool :=
  match (index hash_value).word with
  | none => false
  | some w => strcmp_eq w word

/-- The loop of `addWordToIndex`: `before` holds the nodes already passed, the second list
begins at `curr`. The result is the list of the entry after the insertion behind `curr`, or
`none` when the loop ends with `curr == NULL`. -/
def addWordToIndex_loop (index : Nat → WordEntry) (word : List Char) (hash_value : Nat)
    (line_number : Int) : List Int → List Int → Option (List Int)
  | _, [] => none
  | before, n :: next =>
    let word_exist := word_compare index word hash_value
    if word_exist then some (before ++ n :: line_number :: next)
    else addWordToIndex_loop index word hash_value line_number (before ++ [n]) next

/-- The function `addWordToIndex` of `hash_utility.c`. The parameter `malloc` says whether the
allocation of the node succeeds; when it fails `validated_memory_allocation` terminates the
process and the result is `none`. -/
def addWordToIndex (toInt : Char → Int) (malloc : Bool) (index : Nat → WordEntry)
    (word : List Char) (line_number : Int) : Option (Nat → WordEntry) :=
  let hash_value := hash toInt word
  match addWordToIndex_loop index word hash_value line_number [] (index hash_value).lines with
  | some lines =>
    if malloc then some (Function.update index hash_value { index hash_value with lines := lines })
    else none
  | none =>
    let index := Function.update index hash_value
      { index hash_value with word := some (strdup word) }
    if malloc then
      some (Function.update index hash_value { index hash_value with lines := [line_number] })
    else none

/-- The function `print_word_entry` of `utility.c`, as the text it writes. -/
def print_word_entry (toInt : Char → Int) (index : Nat → WordEntry) (word : List Char) :
    String :=
  let hash_value := hash toInt word
  (index hash_value).lines.foldl (fun out line_number => out ++ " " ++ toString line_number)
    (String.mk (lineText word) ++ " - appears in line") ++ "\n"

/-- The index after `main` has initialised it: no word and no line in any entry. -/
def emptyIndex : Nat → WordEntry := fun _ => { word := none, lines := [] }

/-- The index after a word has been added on each of the lines `lines`, in that order. -/
def addOccurrences (toInt : Char → Int) (word : List Char) :
    List Int → (Nat → WordEntry) → Option (Nat → WordEntry)
  | [], index => some index
  | l :: ls, index =>
    match addWordToIndex toInt true index word l with
    | none => none
    | some index => addOccurrences toInt word ls index

/-- The conversion of a character to `int` on a platform where it is the code of the
character. -/
def codeOf (c : Char) : Int := c.toNat

/-- The fold that the formula `hash * 33 + c` describes, on 32 bits. -/
def hashFold (toInt : Char → Int) (s : List Char) : Int :=
  s.foldl (fun h c => (h * 33 + toInt c) % 2 ^ 32) 5381

/-! ## The list of names (`mmn_12`) -/

/-- The function `tolower` of the C locale. -/
def tolower (c : Char) : Char :=
  if 'A' ≤ c ∧ c ≤ 'Z' then Char.ofNat (c.toNat + 32) else c

/-- The test `strcasecmp(s1, s2) == 0`: the strings agree, character by character after
`tolower`, up to their terminators. -/
def strcasecmp_eq : List Char → List Char → Bool
  | [], s2 => deref s2 == NUL
  | c :: s1, s2 =>
    if tolower c != tolower (deref s2) then false
    else if c == NUL then true
    else strcasecmp_eq s1 s2.tail

/-- The `do ... while (0 < index)` loop of `is_duplicate`, entered with `index` at least `1`. -/
def is_duplicate_loop (nameList : Nat → List Char) (newName : List Char) : Nat → Bool
  | 0 => false
  | index + 1 =>
    if strcasecmp_eq (nameList index) newName then true
    else if 0 < index then is_duplicate_loop nameList newName index
    else false

/-- The function `is_duplicate` of `get_name_util.c`, for an `index` that is not negative. The
global array `nameList` is a parameter. -/
def is_duplicate (nameList : Nat → List Char) (newName : List Char) (index : Nat) : Bool :=
  if index = 0 then false
  else is_duplicate_loop nameList newName index

/-- Two characters are the same letter when case is ignored: they are equal, or one is a
capital letter and the other is the small letter that corresponds to it. -/
def SameIgnoringCase (c d : Char) : Prop :=
  c = d ∨ ('A' ≤ c ∧ c ≤ 'Z' ∧ d.toNat = c.toNat + 32) ∨
    ('A' ≤ d ∧ d ≤ 'Z' ∧ c.toNat = d.toNat + 32)

/-- Two strings are equal when case is ignored: they have the same length and their
characters correspond. -/
def EqualIgnoringCase (s1 s2 : List Char) : Prop :=
  List.Forall₂ SameIgnoringCase (lineText s1) (lineText s2)


/-- An index in which the word `aa`, whose hash is `7`, has been added on the lines `1` and
`2`. -/
def indexWithAa : Nat → WordEntry := fun k =>
  if k = 7 then { word := some "aa".toList, lines := [1, 2] } else { word := none, lines := [] }


/-- The seventeenth item of the line `read_mat MAT_A, 1,2,...,16,17`. -/
def seventeenthItem : ValueItem Int := ⟨[], ['1', '7'], 17⟩

/-- Registers of integers: `MAT_A` holds `r + 2 c` in its cell `(r, c)`, the others hold
`3 r - c`. -/
def integerRegs : Heap Reg Int := fun q r c =>
  if q = Reg.MAT_A then (r.val : Int) + 2 * c.val else 3 * r.val - c.val

/-! ## Facts about the matrix engine -/

section EngineFacts

variable {ι α : Type} [DecidableEq ι]

theorem finRange_four : List.finRange 4 = [0, 1, 2, 3] := by decide

theorem setCell_other (h : Heap ι α) (p q : ι) (row col : Fin 4) (v : α) (hq : q ≠ p) :
    setCell h p row col v q = h q := by
  simp [setCell, hq]

theorem setCell_same (h : Heap ι α) (p : ι) (row col : Fin 4) (v : α) :
    setCell h p row col v p row col = v := by
  simp [setCell]

theorem setCell_cell_ne (h : Heap ι α) (p : ι) (row col r c : Fin 4) (v : α)
    (hne : (r, c) ≠ (row, col)) : setCell h p row col v p r c = h p r c := by
  have : ¬ (r = row ∧ c = col) := fun hh => hne (by rw [hh.1, hh.2])
  simp [setCell, this]

theorem setCell_setCell (h : Heap ι α) (p : ι) (row col : Fin 4) (v w : α) :
    setCell (setCell h p row col v) p row col w = setCell h p row col w := by
  funext q r c
  by_cases hq : q = p
  · subst hq
    by_cases hrc : r = row ∧ c = col <;> simp [setCell, hrc]
  · simp [setCell, hq]

theorem mem_cellOrder (rc : Fin 4 × Fin 4) : rc ∈ cellOrder := by
  revert rc; decide

theorem nodup_cellOrder : cellOrder.Nodup := by decide

theorem nested_loop {σ : Type} (body : Fin 4 → Fin 4 → σ → σ) (s : σ) :
    FOR_RANGE 4 (fun row s => FOR_RANGE 4 (fun col s => body row col s) s) s
      = cellOrder.foldl (fun s rc => body rc.1 rc.2 s) s := by
  simp only [FOR_RANGE, finRange_four, List.foldl, cellOrder]
  rfl

/-- A loop that stores `f r c` into cell `(r, c)` of `dest`, for the cells of a duplicate-free
list: when `f r c` reads `dest` at most at cell `(r, c)`, every stored value is the one
computed from the initial memory, and nothing else changes. -/
theorem cell_loop_spec (dest : ι) (f : Fin 4 → Fin 4 → Heap ι α → α)
    (hf : ∀ r c (h k : Heap ι α), (∀ q, q ≠ dest → h q = k q) → h dest r c = k dest r c →
      f r c h = f r c k)
    (l : List (Fin 4 × Fin 4)) (hl : l.Nodup) (h : Heap ι α) :
    (∀ q, q ≠ dest → l.foldl (fun s rc => setCell s dest rc.1 rc.2 (f rc.1 rc.2 s)) h q = h q) ∧
    (∀ r c, (r, c) ∉ l →
      l.foldl (fun s rc => setCell s dest rc.1 rc.2 (f rc.1 rc.2 s)) h dest r c = h dest r c) ∧
    (∀ r c, (r, c) ∈ l →
      l.foldl (fun s rc => setCell s dest rc.1 rc.2 (f rc.1 rc.2 s)) h dest r c = f r c h) := by
  induction l generalizing h with
  | nil => simp
  | cons rc t ih =>
    obtain ⟨hnot, ht⟩ := List.nodup_cons.mp hl
    obtain ⟨ih1, ih2, ih3⟩ := ih ht (setCell h dest rc.1 rc.2 (f rc.1 rc.2 h))
    refine ⟨?_, ?_, ?_⟩
    · intro q hq
      rw [List.foldl_cons, ih1 q hq, setCell_other _ _ _ _ _ _ hq]
    · intro r c hrc
      have hne : (r, c) ≠ (rc.1, rc.2) := fun e => hrc (by rw [e]; exact List.mem_cons_self _ _)
      have hnt : (r, c) ∉ t := fun e => hrc (List.mem_cons_of_mem _ e)
      rw [List.foldl_cons, ih2 r c hnt, setCell_cell_ne _ _ _ _ _ _ _ hne]
    · intro r c hrc
      rw [List.foldl_cons]
      rcases List.mem_cons.mp hrc with e | e
      · have e1 : rc.1 = r := by rw [← e]
        have e2 : rc.2 = c := by rw [← e]
        have hnt : (r, c) ∉ t := by rw [e]; exact hnot
        rw [ih2 r c hnt, e1, e2, setCell_same]
      · have hne : (r, c) ≠ (rc.1, rc.2) := fun e3 => hnot (by
          have e4 : rc = (r, c) := by rw [e3]
          rw [e4]; exact e)
        rw [ih3 r c e]
        apply hf
        · intro q hq
          exact setCell_other _ _ _ _ _ _ hq
        · exact setCell_cell_ne _ _ _ _ _ _ _ hne

/-- The closed form of a full row-by-column store loop. -/
theorem cell_loop_full (dest : ι) (f : Fin 4 → Fin 4 → Heap ι α → α)
    (hf : ∀ r c (h k : Heap ι α), (∀ q, q ≠ dest → h q = k q) → h dest r c = k dest r c →
      f r c h = f r c k) (h : Heap ι α) :
    FOR_RANGE 4 (fun row s => FOR_RANGE 4 (fun col s => setCell s dest row col (f row col s)) s) h
      = fun q => if q = dest then fun r c => f r c h else h q := by
  rw [nested_loop (fun row col s => setCell s dest row col (f row col s))]
  obtain ⟨h1, -, h3⟩ := cell_loop_spec dest f hf cellOrder nodup_cellOrder h
  funext q
  by_cases hq : q = dest
  · subst hq
    funext r c
    simp only [if_true]
    exact h3 r c (mem_cellOrder _)
  · simp only [hq, if_false]
    exact h1 q hq

theorem add_mat_eq [Add α] (A B C : ι) (h : Heap ι α) :
    add_mat A B C h = fun q => if q = C then fun r c => h A r c + h B r c else h q := by
  unfold add_mat
  apply cell_loop_full C (fun r c s => s A r c + s B r c)
  intro r c h k hoth hcell
  have hA : h A r c = k A r c := by
    by_cases e : A = C
    · rw [e]; exact hcell
    · rw [hoth A e]
  have hB : h B r c = k B r c := by
    by_cases e : B = C
    · rw [e]; exact hcell
    · rw [hoth B e]
  simp only [hA, hB]

theorem sub_mat_eq [Sub α] (A B C : ι) (h : Heap ι α) :
    sub_mat A B C h = fun q => if q = C then fun r c => h A r c - h B r c else h q := by
  unfold sub_mat
  apply cell_loop_full C (fun r c s => s A r c - s B r c)
  intro r c h k hoth hcell
  have hA : h A r c = k A r c := by
    by_cases e : A = C
    · rw [e]; exact hcell
    · rw [hoth A e]
  have hB : h B r c = k B r c := by
    by_cases e : B = C
    · rw [e]; exact hcell
    · rw [hoth B e]
  simp only [hA, hB]

theorem mul_scalar_eq [Mul α] (A : ι) (x : α) (B : ι) (h : Heap ι α) :
    mul_scalar A x B h = fun q => if q = B then fun r c => h A r c * x else h q := by
  unfold mul_scalar
  apply cell_loop_full B (fun r c s => s A r c * x)
  intro r c h k hoth hcell
  have hA : h A r c = k A r c := by
    by_cases e : A = B
    · rw [e]; exact hcell
    · rw [hoth A e]
  simp only [hA]

theorem copy_mat_eq (src dst : ι) (h : Heap ι α) :
    copy_mat src dst h = fun q => if q = dst then h src else h q := by
  unfold copy_mat
  rw [cell_loop_full dst (fun r c s => s src r c)]
  intro r c h k hoth hcell
  by_cases e : src = dst
  · simp only [e]; exact hcell
  · simp only [hoth src e]

theorem trans_mat_eq [Zero α] (A B : ι) (h : Heap ι α) :
    trans_mat A B h = fun q => if q = B then fun r c => h A c r else h q := by
  unfold trans_mat
  simp only [NUM_OF_ROWS, NUM_OF_COLUMNS]
  rw [cell_loop_full none (fun r c (s : Heap (Option ι) α) => s (some A) c r), copy_mat_eq]
  · funext q
    by_cases e : q = B <;> simp [e, withTemp]
  · intro r c h k hoth _
    simp only [hoth (some A) (by simp)]

theorem mul_mat_eq [Add α] [Mul α] [Zero α] (A B C : ι) (h : Heap ι α) :
    mul_mat A B C h = fun q => if q = C then fun r c => dot (h A) (h B) r c else h q := by
  unfold mul_mat
  simp only [NUM_OF_ROWS, NUM_OF_COLUMNS]
  have hbody : ∀ (row col : Fin 4) (s : Heap (Option ι) α),
      FOR_RANGE 4 (fun k s =>
          setCell s none row col (s none row col + s (some A) row k * s (some B) k col))
        (setCell s none row col 0)
      = setCell s none row col (dot (s (some A)) (s (some B)) row col) := by
    intro row col s
    have hn : ∀ x : ι, (some x : Option ι) ≠ none := fun x => by simp
    simp only [FOR_RANGE, finRange_four, List.foldl, setCell_setCell, setCell_same,
      setCell_other _ _ _ _ _ _ (hn _), dot]
    rfl
  simp only [hbody]
  rw [cell_loop_full none
    (fun r c (s : Heap (Option ι) α) => dot (s (some A)) (s (some B)) r c), copy_mat_eq]
  · funext q
    by_cases e : q = C <;> simp [e, withTemp]
  · intro r c h k hoth _
    simp only [hoth (some A) (by simp), hoth (some B) (by simp)]

theorem FOR_RANGE_val {σ : Type} (n : Nat) (body : Nat → σ → σ) (s : σ) :
    FOR_RANGE n (fun index acc => body index.val acc) s
      = (List.range n).foldl (fun acc index => body index acc) s := by
  unfold FOR_RANGE
  rw [← List.map_coe_finRange, List.foldl_map]

theorem read_mat_cell_store [Zero α] (m : ι) (val : List α) (size row : Nat) (col : Fin 4)
    (st : ReadState ι α) (hb : st.broke = false) (hi : st.i < 16) (hr : row < 4) :
    read_mat_cell m val size row col st
      = { heap := setCell st.heap m ⟨row, hr⟩ col (if st.i < size then val.getD st.i 0 else 0),
          i := st.i + 1, broke := false } := by
  unfold read_mat_cell
  by_cases h1 : st.i < size <;> simp [hb, h1, hi, hr]

theorem read_mat_cell_break [Zero α] (m : ι) (val : List α) (size row : Nat) (col : Fin 4)
    (st : ReadState ι α) (hsz : size ≤ 16) (hi : 16 ≤ st.i) :
    read_mat_cell m val size row col st = { st with broke := true } := by
  unfold read_mat_cell
  have h1 : ¬ st.i < size := by omega
  have h2 : ¬ st.i < 16 := by omega
  by_cases hb : st.broke = true
  · cases st; simp_all
  · simp [hb, h1, h2]

theorem read_mat_row_lt [Zero α] (m : ι) (val : List α) (size row : Nat) (h : Heap ι α)
    (hr : row < 4) :
    read_mat_row m val size row (h, 4 * row)
      = (fun q => if q = m then fun r c => if r.val = row then loadRule val size r c else h q r c
          else h q, 4 * (row + 1)) := by
  unfold read_mat_row
  simp only [NUM_OF_COLUMNS, FOR_RANGE, finRange_four, List.foldl]
  rw [read_mat_cell_store m val size row ⟨0, by omega⟩
    { heap := h, i := 4 * row, broke := false } rfl (by simp; omega) hr]
  dsimp only
  rw [read_mat_cell_store m val size row ⟨1, by omega⟩ _ rfl (by dsimp only; omega) hr]
  dsimp only
  rw [read_mat_cell_store m val size row ⟨2, by omega⟩ _ rfl (by dsimp only; omega) hr]
  dsimp only
  rw [read_mat_cell_store m val size row ⟨3, by omega⟩ _ rfl (by dsimp only; omega) hr]
  dsimp only
  refine Prod.ext ?_ (by dsimp only; omega)
  dsimp only
  funext q r c
  by_cases hq : q = m
  · subst hq
    by_cases hrow : r.val = row
    · obtain rfl : r = ⟨row, hr⟩ := Fin.ext hrow
      fin_cases c <;> simp [setCell, loadRule, Fin.ext_iff, Nat.add_assoc]
      all_goals (intro h0; exact absurd h0 (by decide))
    · have hr' : r ≠ ⟨row, hr⟩ := fun e => hrow (by rw [e])
      simp [setCell, hrow, hr']
  · simp [setCell, hq]

theorem read_mat_row_ge [Zero α] (m : ι) (val : List α) (size row : Nat) (h : Heap ι α)
    (hsz : size ≤ 16) : read_mat_row m val size row (h, 16) = (h, 16) := by
  unfold read_mat_row
  simp only [NUM_OF_COLUMNS, FOR_RANGE, finRange_four, List.foldl]
  rw [read_mat_cell_break m val size row ⟨0, by omega⟩
    { heap := h, i := 16, broke := false } hsz (by simp)]
  simp [read_mat_cell]

/-- The rows `0 .. n-1` of the outer loop of `read_mat` store the load rule into the rows
below `min n 4` and leave the other rows as they were. -/
theorem read_mat_rows [Zero α] (m : ι) (val : List α) (size : Nat) (h : Heap ι α)
    (hsz : size ≤ 16) (n : Nat) :
    (List.range n).foldl (fun s row => read_mat_row m val size row s) (h, 0)
      = (fun q => if q = m then fun r c => if r.val < n then loadRule val size r c else h q r c
          else h q, min (4 * n) 16) := by
  induction n with
  | zero =>
    refine Prod.ext ?_ (by simp)
    funext q
    by_cases hq : q = m <;> simp [hq]
  | succ n ih =>
    rw [List.range_succ, List.foldl_append, ih]
    simp only [List.foldl_cons, List.foldl_nil]
    by_cases hn : n < 4
    · have e1 : min (4 * n) 16 = 4 * n := by omega
      have e2 : min (4 * (n + 1)) 16 = 4 * (n + 1) := by omega
      rw [e1, e2, read_mat_row_lt m val size n _ hn]
      refine Prod.ext ?_ rfl
      funext q r c
      by_cases hq : q = m
      · simp only [hq, if_true]
        by_cases h1 : r.val = n
        · simp [h1]
        · by_cases h2 : r.val < n
          · have h3 : r.val < n + 1 := by omega
            simp [h1, h2, h3]
          · have h3 : ¬ r.val < n + 1 := by omega
            simp [h1, h2, h3]
      · simp [hq]
    · have e1 : min (4 * n) 16 = 16 := by omega
      have e2 : min (4 * (n + 1)) 16 = 16 := by omega
      rw [e1, e2, read_mat_row_ge m val size n _ hsz]
      refine Prod.ext ?_ rfl
      funext q r c
      by_cases hq : q = m
      · have h2 : r.val < n := by have := r.isLt; omega
        have h3 : r.val < n + 1 := by omega
        simp [hq, h2, h3]
      · simp [hq]

/-- What `read_mat` computes: the load rule in the rows below `size`, the old content in
the rows from `size` on (there are such rows when `size < 4`). -/
theorem read_mat_eq [Zero α] (m : ι) (val : List α) (size : Nat) (h : Heap ι α) :
    read_mat m val size h
      = fun q => if q = m then fun r c =>
          if r.val < size then loadRule val (min size 16) r c else h q r c
        else h q := by
  have hsz : (if size > 16 then 16 else size) = min size 16 := by
    by_cases hs : size > 16
    · simp [hs]; omega
    · simp [hs]; omega
  have key : ∀ n, n = min size 16 →
      (FOR_RANGE n (fun row s => read_mat_row m val n row.val s) (h, 0)).1
        = fun q => if q = m then fun r c =>
            if r.val < size then loadRule val (min size 16) r c else h q r c
          else h q := by
    intro n hn
    subst hn
    rw [FOR_RANGE_val (min size 16) (fun row s => read_mat_row m val (min size 16) row s),
      read_mat_rows m val (min size 16) h (by omega) (min size 16)]
    funext q r c
    by_cases hq : q = m
    · have := r.isLt
      by_cases h1 : r.val < size
      · have h2 : r.val < min size 16 := by omega
        simp [hq, h1, h2]
      · have h2 : ¬ r.val < min size 16 := by omega
        simp [hq, h1, h2]
    · simp [hq]
  exact key _ hsz

end EngineFacts

/-! ## Facts about the scanner -/

theorem isspace_ne_NUL (c : Char) (h : isspace c = true) : c ≠ NUL := by
  rintro rfl
  exact absurd h (by decide)

theorem Reached.refl (line : List Char) : Reached line line := ⟨[], rfl, by simp⟩

theorem Reached.dropWhile {line cur : List Char} (h : Reached line cur) (p : Char → Bool) :
    Reached line (cur.dropWhile (fun c => c != NUL && p c)) := by
  obtain ⟨pre, rfl, hpre⟩ := h
  refine ⟨pre ++ cur.takeWhile (fun c => c != NUL && p c), ?_, ?_⟩
  · rw [List.append_assoc, List.takeWhile_append_dropWhile]
  · intro c hc
    rcases List.mem_append.mp hc with h1 | h1
    · exact hpre c h1
    · have := List.mem_takeWhile_imp h1
      simp only [Bool.and_eq_true, bne_iff_ne, ne_eq] at this
      exact this.1

theorem Reached.move {line cur : List Char} (h : Reached line cur) :
    Reached line (MOVE_TO_NON_WHITE cur) := h.dropWhile isspace

theorem Reached.nextWord {line cur : List Char} (h : Reached line cur) :
    Reached line (MOVE_TO_NEXT_WORD cur) := (h.dropWhile isspace).dropWhile (fun c => !isspace c)

theorem Reached.drop {line cur : List Char} (h : Reached line cur) (n : Nat)
    (hn : ∀ c ∈ cur.take n, c ≠ NUL) : Reached line (cur.drop n) := by
  obtain ⟨pre, rfl, hpre⟩ := h
  refine ⟨pre ++ cur.take n, ?_, ?_⟩
  · rw [List.append_assoc, List.take_append_drop]
  · intro c hc
    rcases List.mem_append.mp hc with h1 | h1
    · exact hpre c h1
    · exact hn c h1

theorem Reached.tail {line cur : List Char} (h : Reached line cur) (hc : deref cur ≠ NUL) :
    Reached line cur.tail := by
  have := h.drop 1 (by
    intro c hmem
    cases cur with
    | nil => simp at hmem
    | cons a t =>
      simp at hmem
      subst hmem
      exact hc)
  rwa [List.drop_one] at this

theorem strncmp_eq_name (name p : List Char) (hname : ∀ c ∈ name, c ≠ NUL) :
    strncmp_eq p name name.length = true ↔ ∃ tl, p = name ++ tl := by
  induction name generalizing p with
  | nil => simp [strncmp_eq]
  | cons a t ih =>
    have ha : a ≠ NUL := hname a (List.mem_cons_self _ _)
    have ht : ∀ c ∈ t, c ≠ NUL := fun c hc => hname c (List.mem_cons_of_mem _ hc)
    cases p with
    | nil =>
      simp [strncmp_eq, deref, Ne.symm ha]
    | cons b q =>
      simp only [List.length_cons, strncmp_eq, deref, List.headD_cons, List.tail_cons,
        bne_iff_ne, ne_eq, ite_not, beq_iff_eq, List.cons_append, List.cons.injEq]
      by_cases hba : b = a
      · subst hba
        simp [ha, ih q ht]
      · simp [hba]

theorem getMatrix_unfold (p : List Char) :
    getMatrix p =
      if strncmp_eq p "MAT_A".toList 5 = true then .MATRIX_A
      else if strncmp_eq p "MAT_B".toList 5 = true then .MATRIX_B
      else if strncmp_eq p "MAT_C".toList 5 = true then .MATRIX_C
      else if strncmp_eq p "MAT_D".toList 5 = true then .MATRIX_D
      else if strncmp_eq p "MAT_E".toList 5 = true then .MATRIX_E
      else if strncmp_eq p "MAT_F".toList 5 = true then .MATRIX_F
      else .NONE_MATRIX := by
  have hr : List.range NUM_OF_MATRICES = [0, 1, 2, 3, 4, 5] := by decide
  unfold getMatrix
  rw [hr]
  simp only [List.find?, matrices, MAX_MAT_NAME, List.getD_cons_zero, List.getD_cons_succ]
  generalize strncmp_eq p "MAT_A".toList 5 = b0
  generalize strncmp_eq p "MAT_B".toList 5 = b1
  generalize strncmp_eq p "MAT_C".toList 5 = b2
  generalize strncmp_eq p "MAT_D".toList 5 = b3
  generalize strncmp_eq p "MAT_E".toList 5 = b4
  generalize strncmp_eq p "MAT_F".toList 5 = b5
  cases b0 <;> cases b1 <;> cases b2 <;> cases b3 <;> cases b4 <;> cases b5 <;> rfl

theorem whichMatrix_eq_some (p : List Char) (R : Reg) :
    whichMatrix p = some R ↔ ∃ tl, p = R.name ++ tl := by
  have key : ∀ name : List Char, name ∈ matrices →
      (strncmp_eq p name 5 = true ↔ ∃ tl, p = name ++ tl) := by
    intro name hname
    have h5 : name.length = 5 := by
      revert name; decide
    have hn : ∀ c ∈ name, c ≠ NUL := by
      revert name; decide
    rw [← h5]
    exact strncmp_eq_name name p hn
  constructor
  · intro h
    unfold whichMatrix at h
    rw [getMatrix_unfold] at h
    split_ifs at h with h0 h1 h2 h3 h4 h5
    · cases h; exact (key _ (by decide)).mp h0
    · cases h; exact (key _ (by decide)).mp h1
    · cases h; exact (key _ (by decide)).mp h2
    · cases h; exact (key _ (by decide)).mp h3
    · cases h; exact (key _ (by decide)).mp h4
    · cases h; exact (key _ (by decide)).mp h5
  · rintro ⟨tl, rfl⟩
    cases R <;> rfl

theorem deref_eq_NUL (l : List Char) (h : deref l = NUL) : l = [] ∨ ∃ t, l = NUL :: t := by
  cases l with
  | nil => exact Or.inl rfl
  | cons a t => exact Or.inr ⟨t, by simp [deref] at h; rw [h]⟩

theorem lineText_of_end (pre rest : List Char) (hpre : ∀ c ∈ pre, c ≠ NUL)
    (hrest : deref rest = NUL) : lineText (pre ++ rest) = pre := by
  unfold lineText
  rw [List.takeWhile_append_of_pos (by simpa using hpre)]
  rcases deref_eq_NUL rest hrest with rfl | ⟨t, rfl⟩
  · simp
  · simp

theorem lastOperand_of_reached (line cur : List Char) (R : Reg) (h : Reached line cur)
    (hw : whichMatrix cur = some R)
    (hend : deref (MOVE_TO_NON_WHITE (MOVE_AFTER_MAT cur)) = NUL) :
    lastOperand line = some R := by
  obtain ⟨pre, rfl, hpre⟩ := h
  obtain ⟨tl, rfl⟩ := (whichMatrix_eq_some _ R).mp hw
  have hdrop : MOVE_AFTER_MAT (R.name ++ tl) = tl := by cases R <;> rfl
  rw [hdrop] at hend
  have hname : ∀ c ∈ R.name, c ≠ NUL := by cases R <;> decide
  have hsplit : tl = tl.takeWhile (fun c => c != NUL && isspace c) ++ MOVE_TO_NON_WHITE tl :=
    (List.takeWhile_append_dropWhile _ _).symm
  have hws : ∀ c ∈ tl.takeWhile (fun c => c != NUL && isspace c), c ≠ NUL ∧ isspace c = true := by
    intro c hc
    have := List.mem_takeWhile_imp hc
    simpa using this
  generalize tl.takeWhile (fun c => c != NUL && isspace c) = ws at hsplit hws
  have htext : lineText (pre ++ (R.name ++ tl)) = pre ++ R.name ++ ws := by
    rw [hsplit, ← List.append_assoc, ← List.append_assoc]
    apply lineText_of_end _ _ _ hend
    intro c hc
    rcases List.mem_append.mp hc with h1 | h1
    · rcases List.mem_append.mp h1 with h2 | h2
      · exact hpre c h2
      · exact hname c h2
    · exact (hws c h1).1
  unfold lastOperand
  rw [htext, List.reverse_append, List.reverse_append,
    List.dropWhile_append_of_pos (by
      intro c hc
      exact (hws c (List.mem_reverse.mp hc)).2)]
  cases R <;> rfl

/-! ## Facts about the command analyser -/

section AnalyserFacts

variable {α : Type}

theorem EXTRANEOUS_TEXT_eq (ch : List Char) (σ : Heap Reg α) (k : Outcome α) :
    EXTRANEOUS_TEXT ch σ k
      = if deref ch = NUL ∨ deref ch = '\n' then k else fault σ EXT_TXT_ERR := by
  unfold EXTRANEOUS_TEXT
  by_cases h1 : deref ch = NUL <;> by_cases h2 : deref ch = '\n' <;> simp [h1, h2]

theorem deref_MOVE_TO_NON_WHITE (l : List Char) :
    deref (MOVE_TO_NON_WHITE l) = NUL ∨ isspace (deref (MOVE_TO_NON_WHITE l)) = false := by
  induction l with
  | nil => exact Or.inl rfl
  | cons a t ih =>
    unfold MOVE_TO_NON_WHITE at *
    rw [List.dropWhile_cons]
    by_cases h : (a != NUL && isspace a) = true
    · rw [if_pos h]; exact ih
    · rw [if_neg h]
      simp only [Bool.and_eq_true, bne_iff_ne, ne_eq, not_and, Bool.not_eq_true] at h
      by_cases ha : a = NUL
      · exact Or.inl (by simp [deref, ha])
      · exact Or.inr (by simpa [deref] using h ha)

theorem deref_MOVE_end (l : List Char)
    (h : deref (MOVE_TO_NON_WHITE l) = NUL ∨ deref (MOVE_TO_NON_WHITE l) = '\n') :
    deref (MOVE_TO_NON_WHITE l) = NUL := by
  rcases h with h | h
  · exact h
  · rcases deref_MOVE_TO_NON_WHITE l with h1 | h1
    · exact h1
    · rw [h] at h1; exact absurd h1 (by decide)

theorem Reached.afterMat {line cur : List Char} (h : Reached line cur) (R : Reg)
    (hw : whichMatrix cur = some R) : Reached line (MOVE_AFTER_MAT cur) := by
  obtain ⟨tl, rfl⟩ := (whichMatrix_eq_some _ R).mp hw
  refine h.drop MAX_MAT_NAME ?_
  have h1 : List.take MAX_MAT_NAME (R.name ++ tl) = R.name := by cases R <;> rfl
  rw [h1]
  cases R <;> decide

theorem comma_ne_NUL : (',' : Char) ≠ NUL := by decide

theorem handle_trans_mat_cases [Zero α] (line u : List Char) (m : Reg) (σ : Heap Reg α)
    (hu : Reached line u) :
    (∃ msg, handle_trans_mat u m σ = fault σ msg) ∨
    (∃ second, lastOperand line = some second ∧
      handle_trans_mat u m σ = done (trans_mat m second σ)) := by
  unfold handle_trans_mat MISSING_COMMA MULTIPLE_CONSECUTIVE_COMMAS
  simp only [EXTRANEOUS_TEXT_eq, bne_iff_ne, ne_eq, beq_iff_eq, ite_not]
  by_cases h1 : deref u = ','
  · rw [if_pos h1]
    have r1 : Reached line (MOVE_TO_NON_WHITE u.tail) :=
      (hu.tail (by rw [h1]; exact comma_ne_NUL)).move
    by_cases h2 : deref (MOVE_TO_NON_WHITE u.tail) = ','
    · rw [if_pos h2]; exact Or.inl ⟨_, rfl⟩
    · rw [if_neg h2]
      cases h3 : whichMatrix (MOVE_TO_NON_WHITE u.tail) with
      | none => exact Or.inl ⟨_, rfl⟩
      | some second =>
        by_cases h4 :
            deref (MOVE_TO_NON_WHITE (MOVE_AFTER_MAT (MOVE_TO_NON_WHITE u.tail))) = NUL ∨
            deref (MOVE_TO_NON_WHITE (MOVE_AFTER_MAT (MOVE_TO_NON_WHITE u.tail))) = '\n'
        · exact Or.inr ⟨second, lastOperand_of_reached _ _ _ r1 h3 (deref_MOVE_end _ h4),
            if_pos h4⟩
        · exact Or.inl ⟨_, if_neg h4⟩
  · rw [if_neg h1]; exact Or.inl ⟨_, rfl⟩

theorem handle_add_sub_mul_cases [Add α] [Sub α] [Mul α] [Zero α] (line u : List Char)
    (m : Reg) (cmdType : CommandType) (σ : Heap Reg α) (hu : Reached line u) :
    (∃ msg, handle_add_sub_mul u m cmdType σ = fault σ msg) ∨
    handle_add_sub_mul u m cmdType σ = done σ ∨
    (∃ second third, lastOperand line = some third ∧
      (handle_add_sub_mul u m cmdType σ = done (add_mat m second third σ) ∨
       handle_add_sub_mul u m cmdType σ = done (sub_mat m second third σ) ∨
       handle_add_sub_mul u m cmdType σ = done (mul_mat m second third σ))) := by
  unfold handle_add_sub_mul MISSING_COMMA MULTIPLE_CONSECUTIVE_COMMAS
  simp only [EXTRANEOUS_TEXT_eq, bne_iff_ne, ne_eq, beq_iff_eq, ite_not]
  by_cases h1 : deref u = ','
  · rw [if_pos h1]
    have r1 : Reached line (MOVE_TO_NON_WHITE u.tail) :=
      (hu.tail (by rw [h1]; exact comma_ne_NUL)).move
    by_cases h2 : deref (MOVE_TO_NON_WHITE u.tail) = ','
    · rw [if_pos h2]; exact Or.inl ⟨_, rfl⟩
    · rw [if_neg h2]
      cases h3 : whichMatrix (MOVE_TO_NON_WHITE u.tail) with
      | none => exact Or.inl ⟨_, rfl⟩
      | some second =>
        simp only []
        have r2 : Reached line (MOVE_TO_NON_WHITE (MOVE_AFTER_MAT (MOVE_TO_NON_WHITE u.tail))) :=
          (r1.afterMat second h3).move
        generalize MOVE_TO_NON_WHITE (MOVE_AFTER_MAT (MOVE_TO_NON_WHITE u.tail)) = u3 at r2
        by_cases h4 : deref u3 = ','
        · rw [if_pos h4]
          have r3 : Reached line (MOVE_TO_NON_WHITE u3.tail) :=
            (r2.tail (by rw [h4]; exact comma_ne_NUL)).move
          cases h5 : whichMatrix (MOVE_TO_NON_WHITE u3.tail) with
          | none => exact Or.inl ⟨_, rfl⟩
          | some third =>
            simp only []
            by_cases h6 :
                deref (MOVE_TO_NON_WHITE (MOVE_AFTER_MAT (MOVE_TO_NON_WHITE u3.tail))) = NUL ∨
                deref (MOVE_TO_NON_WHITE (MOVE_AFTER_MAT (MOVE_TO_NON_WHITE u3.tail))) = '\n'
            · rw [if_pos h6]
              have hl := lastOperand_of_reached _ _ _ r3 h5 (deref_MOVE_end _ h6)
              cases cmdType with
              | ADD_MAT => exact Or.inr (Or.inr ⟨second, third, hl, Or.inl rfl⟩)
              | SUB_MAT => exact Or.inr (Or.inr ⟨second, third, hl, Or.inr (Or.inl rfl)⟩)
              | MUL_MAT => exact Or.inr (Or.inr ⟨second, third, hl, Or.inr (Or.inr rfl)⟩)
              | _ => exact Or.inr (Or.inl rfl)
            · rw [if_neg h6]; exact Or.inl ⟨_, rfl⟩
        · rw [if_neg h4]; exact Or.inl ⟨_, rfl⟩
  · rw [if_neg h1]; exact Or.inl ⟨_, rfl⟩

theorem handle_mul_scalar_cases [Mul α] (strtod : List Char → α × Nat) (line u : List Char)
    (m : Reg) (σ : Heap Reg α) (hu : Reached line u) :
    (∃ msg, handle_mul_scalar strtod u m σ = fault σ msg) ∨
    (∃ second x, (StaysInText strtod → lastOperand line = some second) ∧
      handle_mul_scalar strtod u m σ = done (mul_scalar m x second σ)) := by
  unfold handle_mul_scalar MISSING_COMMA MULTIPLE_CONSECUTIVE_COMMAS
  simp only [EXTRANEOUS_TEXT_eq, bne_iff_ne, ne_eq, beq_iff_eq, ite_not]
  have r0 : Reached line (MOVE_TO_NON_WHITE u) := hu.move
  generalize MOVE_TO_NON_WHITE u = u0 at r0
  by_cases h1 : deref u0 = ','
  · rw [if_pos h1]
    have r1 : Reached line (MOVE_TO_NON_WHITE u0.tail) :=
      (r0.tail (by rw [h1]; exact comma_ne_NUL)).move
    generalize MOVE_TO_NON_WHITE u0.tail = u1 at r1
    by_cases h2 : deref u1 = ','
    · rw [if_pos h2]; exact Or.inl ⟨_, rfl⟩
    · rw [if_neg h2]
      by_cases h3 : (strtod u1).2 = 0
      · rw [if_pos h3]; exact Or.inl ⟨_, rfl⟩
      · rw [if_neg h3]
        have r2 : StaysInText strtod →
            Reached line (MOVE_TO_NON_WHITE (List.drop (strtod u1).2 u1)) :=
          fun hs => (r1.drop _ (hs u1)).move
        generalize MOVE_TO_NON_WHITE (List.drop (strtod u1).2 u1) = u2 at r2
        by_cases h4 : deref u2 = ','
        · rw [if_pos h4]
          have r3 : StaysInText strtod → Reached line (MOVE_TO_NON_WHITE u2.tail) :=
            fun hs => ((r2 hs).tail (by rw [h4]; exact comma_ne_NUL)).move
          generalize MOVE_TO_NON_WHITE u2.tail = u3 at r3
          by_cases h5 : deref u3 = ','
          · rw [if_pos h5]; exact Or.inl ⟨_, rfl⟩
          · rw [if_neg h5]
            cases h6 : whichMatrix u3 with
            | none => exact Or.inl ⟨_, rfl⟩
            | some second =>
              simp only []
              by_cases h7 : deref (MOVE_TO_NON_WHITE (MOVE_AFTER_MAT u3)) = NUL ∨
                  deref (MOVE_TO_NON_WHITE (MOVE_AFTER_MAT u3)) = '\n'
              · rw [if_pos h7]
                exact Or.inr ⟨second, _, fun hs =>
                  lastOperand_of_reached _ _ _ (r3 hs) h6 (deref_MOVE_end _ h7), rfl⟩
              · rw [if_neg h7]; exact Or.inl ⟨_, rfl⟩
        · rw [if_neg h4]; exact Or.inl ⟨_, rfl⟩
  · rw [if_neg h1]; exact Or.inl ⟨_, rfl⟩

theorem handle_read_mat_cases [Zero α] (strtod : List Char → α × Nat) (u : List Char)
    (m : Reg) (σ : Heap Reg α) :
    (∃ msg, handle_read_mat strtod u m σ = fault σ msg) ∨
    (∃ values, handle_read_mat strtod u m σ = done (read_mat m values 16 σ)) := by
  unfold handle_read_mat MISSING_COMMA MULTIPLE_CONSECUTIVE_COMMAS MISSING_ARGUMENT
  simp only [bne_iff_ne, ne_eq, beq_iff_eq, ite_not]
  by_cases h1 : deref u = NUL
  · rw [if_pos h1]; exact Or.inl ⟨_, rfl⟩
  · rw [if_neg h1]
    by_cases h2 : deref u = ','
    · rw [if_pos h2]
      by_cases h3 : deref (MOVE_TO_NON_WHITE u.tail) = ','
      · rw [if_pos h3]; exact Or.inl ⟨_, rfl⟩
      · rw [if_neg h3]
        by_cases h4 : deref (MOVE_TO_NON_WHITE u.tail) = NUL
        · rw [if_pos h4]; exact Or.inl ⟨_, rfl⟩
        · rw [if_neg h4]
          cases read_values strtod (MOVE_TO_NON_WHITE u.tail) 0 (List.replicate 16 0) with
          | returned msg => exact Or.inl ⟨_, rfl⟩
          | finished u' values =>
            simp only []
            by_cases h5 : IS_NOT_END_OF_COMMAND u' = true
            · rw [if_pos h5]
              by_cases h6 : deref u' = ','
              · rw [if_pos h6]; exact Or.inr ⟨_, rfl⟩
              · rw [if_neg h6]; exact Or.inl ⟨_, rfl⟩
            · rw [if_neg h5]; exact Or.inr ⟨_, rfl⟩
    · rw [if_neg h2]; exact Or.inl ⟨_, rfl⟩

theorem handle_print_mat_regs (u : List Char) (m : Reg) (σ : Heap Reg α) :
    (handle_print_mat u m σ).regs = σ := by
  unfold handle_print_mat
  rw [EXTRANEOUS_TEXT_eq]
  split <;> rfl

theorem handle_stop_regs (u : List Char) (σ : Heap Reg α) : (handle_stop u σ).regs = σ := by
  unfold handle_stop
  simp only [EXTRANEOUS_TEXT_eq]
  split <;> rfl

theorem done_andThen (σ : Heap Reg α) (k : Heap Reg α → Outcome α) :
    (done σ).andThen k = k σ := by
  simp [Outcome.andThen, done]

theorem fault_regs (σ : Heap Reg α) (msg : String) : (fault σ msg).regs = σ := rfl

theorem MISSING_ARGUMENT_eq (ch : List Char) (σ : Heap Reg α) (k : Outcome α) :
    MISSING_ARGUMENT ch σ k = if deref ch = NUL then fault σ NO_ARGS_ERR else k := by
  unfold MISSING_ARGUMENT
  by_cases h : deref ch = NUL <;> simp [h]

theorem ILLEGAL_COMMA_eq (ch : List Char) (σ : Heap Reg α) (k : Outcome α) :
    ILLEGAL_COMMA ch σ k = if deref ch = ',' then fault σ COMMA_ERR else k := by
  unfold ILLEGAL_COMMA
  by_cases h : deref ch = ',' <;> simp [h]

/-- The shape of every result of `analyze_input`: either the registers are untouched, or
no fault was reported and one register, the destination of the command, was written. -/
theorem analyze_input_shape [Add α] [Sub α] [Mul α] [Zero α] (strtod : List Char → α × Nat)
    (line : List Char) (σ : Heap Reg α) :
    (analyze_input strtod line σ).regs = σ ∨
    ((analyze_input strtod line σ).errors = [] ∧
      ∃ d, (StaysInText strtod → destination line = some d) ∧
        ∀ q, q ≠ d → (analyze_input strtod line σ).regs q = σ q) := by
  unfold analyze_input destination firstOperand
  simp only [ILLEGAL_COMMA_eq, MISSING_ARGUMENT_eq]
  have r0 : Reached line (MOVE_TO_NON_WHITE line) := (Reached.refl line).move
  generalize MOVE_TO_NON_WHITE line = u0 at r0
  by_cases hend : IS_END_OF_COMMAND u0 = true
  · rw [if_pos hend]; exact Or.inl rfl
  rw [if_neg hend]
  have r1 : Reached line (MOVE_TO_NON_WHITE (MOVE_TO_NEXT_WORD u0)) := r0.nextWord.move
  generalize MOVE_TO_NON_WHITE (MOVE_TO_NEXT_WORD u0) = u1 at r1
  generalize first_Word_analysis u0 = cmd
  by_cases hnone : cmd = .NONE_FUNC
  · rw [if_pos hnone]; exact Or.inl rfl
  rw [if_neg hnone]
  by_cases hcomma : deref u1 = ','
  · rw [if_pos hcomma]; exact Or.inl rfl
  rw [if_neg hcomma]
  by_cases hstop : cmd = .STOP
  · subst hstop
    left
    simp only [if_true, Outcome.andThen]
    split
    · exact handle_stop_regs u1 σ
    · simp only [handle_stop_regs]
      split
      · rfl
      · split <;> rfl
  rw [if_neg hstop, done_andThen]
  by_cases harg : deref u1 = NUL
  · rw [if_pos harg]; exact Or.inl rfl
  rw [if_neg harg]
  cases hfirst : whichMatrix u1 with
  | none => exact Or.inl rfl
  | some first =>
    simp only []
    have r2 : Reached line (MOVE_TO_NON_WHITE (MOVE_AFTER_MAT u1)) :=
      (r1.afterMat first hfirst).move
    generalize MOVE_TO_NON_WHITE (MOVE_AFTER_MAT u1) = u2 at r2
    cases cmd with
    | NONE_FUNC => exact absurd rfl hnone
    | STOP => exact absurd rfl hstop
    | PRINT_MAT => exact Or.inl (handle_print_mat_regs u2 first σ)
    | READ_MAT =>
      simp only []
      rcases handle_read_mat_cases strtod u2 first σ with ⟨msg, h⟩ | ⟨values, h⟩
      · rw [h]; exact Or.inl rfl
      · rw [h]
        refine Or.inr ⟨rfl, first, fun _ => rfl, ?_⟩
        intro q hq
        simp [done, read_mat_eq, hq]
    | TRANS_MAT =>
      simp only []
      rcases handle_trans_mat_cases line u2 first σ r2 with ⟨msg, h⟩ | ⟨d, hd, h⟩
      · rw [h]; exact Or.inl rfl
      · rw [h]
        refine Or.inr ⟨rfl, d, fun _ => hd, ?_⟩
        intro q hq
        simp [done, trans_mat_eq, hq]
    | MUL_SCALAR =>
      simp only []
      rcases handle_mul_scalar_cases strtod line u2 first σ r2 with ⟨msg, h⟩ | ⟨d, x, hd, h⟩
      · rw [h]; exact Or.inl rfl
      · rw [h]
        refine Or.inr ⟨rfl, d, hd, ?_⟩
        intro q hq
        simp [done, mul_scalar_eq, hq]
    | ADD_MAT =>
      simp only []
      rcases handle_add_sub_mul_cases line u2 first .ADD_MAT σ r2 with
        ⟨msg, h⟩ | h | ⟨s, d, hd, h | h | h⟩
      · rw [h]; exact Or.inl rfl
      · rw [h]; exact Or.inl rfl
      all_goals
        rw [h]
        refine Or.inr ⟨rfl, d, fun _ => hd, ?_⟩
        intro q hq
        simp [done, add_mat_eq, sub_mat_eq, mul_mat_eq, hq]
    | SUB_MAT =>
      simp only []
      rcases handle_add_sub_mul_cases line u2 first .SUB_MAT σ r2 with
        ⟨msg, h⟩ | h | ⟨s, d, hd, h | h | h⟩
      · rw [h]; exact Or.inl rfl
      · rw [h]; exact Or.inl rfl
      all_goals
        rw [h]
        refine Or.inr ⟨rfl, d, fun _ => hd, ?_⟩
        intro q hq
        simp [done, add_mat_eq, sub_mat_eq, mul_mat_eq, hq]
    | MUL_MAT =>
      simp only []
      rcases handle_add_sub_mul_cases line u2 first .MUL_MAT σ r2 with
        ⟨msg, h⟩ | h | ⟨s, d, hd, h | h | h⟩
      · rw [h]; exact Or.inl rfl
      · rw [h]; exact Or.inl rfl
      all_goals
        rw [h]
        refine Or.inr ⟨rfl, d, fun _ => hd, ?_⟩
        intro q hq
        simp [done, add_mat_eq, sub_mat_eq, mul_mat_eq, hq]

end AnalyserFacts


/-! ## Facts about `read_mat` lines -/

section ReadFacts

variable {α : Type}

theorem read_values_last (strtod : List Char → α × Nat) (u : List Char) (i : Nat)
    (values : List α) (h1 : IS_NOT_END_OF_COMMAND u = true) (h2 : (strtod u).2 ≠ 0)
    (h3 : MOVE_TO_NON_WHITE (u.drop (strtod u).2) = []) :
    read_values strtod u i values
      = .finished [] (if i < 16 then values.set i (strtod u).1 else values) := by
  rw [read_values, dif_pos h1, dif_neg h2]
  simp only [h3]
  rfl

theorem read_values_step (strtod : List Char → α × Nat) (u T : List Char) (i : Nat)
    (values : List α) (h1 : IS_NOT_END_OF_COMMAND u = true) (h2 : (strtod u).2 ≠ 0)
    (h3 : MOVE_TO_NON_WHITE (u.drop (strtod u).2) = ',' :: T)
    (h4 : IS_END_OF_COMMAND (MOVE_TO_NON_WHITE T) = false)
    (h5 : deref (MOVE_TO_NON_WHITE T) ≠ ',') :
    read_values strtod u i values
      = read_values strtod (MOVE_TO_NON_WHITE T) (if i < 16 then i + 1 else i)
          (if i < 16 then values.set i (strtod u).1 else values) := by
  rw [read_values, dif_pos h1, dif_neg h2]
  simp only [h3]
  have e1 : IS_END_OF_COMMAND (',' :: T) = false := rfl
  have e2 : IS_NOT_END_OF_COMMAND (',' :: T) = true := rfl
  have e3 : deref (',' :: T) = ',' := rfl
  simp [e1, e2, e3, List.tail_cons, h4, h5]

theorem MOVE_ws_lit (ws lit X : List Char) (hws : ∀ c ∈ ws, isspace c = true)
    (hlit : ∃ c t, lit = c :: t ∧ isspace c = false ∧ c ≠ ',' ∧ c ≠ NUL) :
    MOVE_TO_NON_WHITE (ws ++ lit ++ X) = lit ++ X := by
  obtain ⟨c, t, rfl, hc, -, -⟩ := hlit
  unfold MOVE_TO_NON_WHITE
  rw [List.append_assoc, List.dropWhile_append_of_pos (by
    intro a ha
    simp [hws a ha, isspace_ne_NUL a (hws a ha)])]
  rw [List.cons_append, List.dropWhile_cons]
  simp [hc]

theorem MOVE_valuesText (strtod : List Char → α × Nat) (it : ValueItem α)
    (rest : List (ValueItem α)) (hit : IsLiteral strtod it) :
    MOVE_TO_NON_WHITE (valuesText (it :: rest))
      = it.lit ++ (match rest with | [] => [] | _ :: _ => ',' :: valuesText rest) := by
  cases rest with
  | nil =>
    have := MOVE_ws_lit it.ws it.lit [] hit.1 hit.2.1
    simpa [valuesText] using this
  | cons it' rest' =>
    exact MOVE_ws_lit it.ws it.lit _ hit.1 hit.2.1

theorem literal_start (strtod : List Char → α × Nat) (it : ValueItem α) (X : List Char)
    (hit : IsLiteral strtod it) :
    IS_NOT_END_OF_COMMAND (it.lit ++ X) = true ∧ IS_END_OF_COMMAND (it.lit ++ X) = false ∧
      deref (it.lit ++ X) ≠ ',' ∧ deref (it.lit ++ X) ≠ NUL := by
  obtain ⟨c, t, hl, hc, hcomma, hnul⟩ := hit.2.1
  have hnl : c ≠ '\n' := by
    rintro rfl
    exact absurd hc (by decide)
  rw [hl]
  simp [IS_NOT_END_OF_COMMAND, IS_END_OF_COMMAND, deref, hcomma, hnul, hnl]

/-- The loop of `handle_read_mat` on the values of a well-formed line: it runs to the end of
the line and stores the values in order. -/
theorem read_values_items (strtod : List Char → α × Nat) (items : List (ValueItem α))
    (hne : items ≠ []) (hlit : ∀ it ∈ items, IsLiteral strtod it) (i : Nat) (values : List α) :
    read_values strtod (MOVE_TO_NON_WHITE (valuesText items)) i values
      = .finished [] (storeValues i values (items.map (fun it => it.val))) := by
  induction items generalizing i values with
  | nil => exact absurd rfl hne
  | cons it rest ih =>
    have hit : IsLiteral strtod it := hlit it (List.mem_cons_self _ _)
    have hlen : it.lit.length ≠ 0 := by
      obtain ⟨c, t, hl, -⟩ := hit.2.1
      rw [hl]; simp
    rw [MOVE_valuesText strtod it rest hit]
    cases rest with
    | nil =>
      have hs := hit.2.2 [] (Or.inl rfl)
      have hstart := literal_start strtod it [] hit
      rw [read_values_last strtod _ i values hstart.1 (by rw [hs]; exact hlen)
        (by rw [hs]; simp [MOVE_TO_NON_WHITE])]
      rw [hs]
      rfl
    | cons it' rest' =>
      have hs := hit.2.2 (',' :: valuesText (it' :: rest')) (Or.inr ⟨_, rfl⟩)
      have hstart := literal_start strtod it (',' :: valuesText (it' :: rest')) hit
      have hit' : IsLiteral strtod it' :=
        hlit it' (List.mem_cons_of_mem _ (List.mem_cons_self _ _))
      have hnext := MOVE_valuesText strtod it' rest' hit'
      have hmove : MOVE_TO_NON_WHITE
          ((it.lit ++ ',' :: valuesText (it' :: rest')).drop
            (strtod (it.lit ++ ',' :: valuesText (it' :: rest'))).2)
          = ',' :: valuesText (it' :: rest') := by
        rw [hs]
        simp only [List.drop_left']
        rfl
      rw [read_values_step strtod _ (valuesText (it' :: rest')) i values hstart.1
        (by rw [hs]; exact hlen) hmove
        (by rw [hnext]; exact (literal_start strtod it' _ hit').2.1)
        (by rw [hnext]; exact (literal_start strtod it' _ hit').2.2.1)]
      rw [ih (by simp) (fun x hx => hlit x (List.mem_cons_of_mem _ hx)), hs]
      rfl

theorem storeValues_getD (d : α) (vs : List α) (i : Nat) (values : List α)
    (hlen : values.length = 16) (k : Nat) :
    (storeValues i values vs).getD k d
      = if i ≤ k ∧ k < i + vs.length ∧ k < 16 then vs.getD (k - i) d else values.getD k d := by
  induction vs generalizing i values with
  | nil =>
    have : ¬ (i ≤ k ∧ k < i + ([] : List α).length ∧ k < 16) := by
      simp only [List.length_nil]; omega
    rw [if_neg this]; rfl
  | cons v vs ih =>
    unfold storeValues
    by_cases hi : i < 16
    · simp only [hi, if_true]
      rw [ih (i + 1) (values.set i v) (by rw [List.length_set]; exact hlen)]
      by_cases hk : k = i
      · subst hk
        have c1 : ¬ (k + 1 ≤ k ∧ k < k + 1 + vs.length ∧ k < 16) := by omega
        have c2 : k ≤ k ∧ k < k + (v :: vs).length ∧ k < 16 := by
          simp only [List.length_cons]; omega
        rw [if_neg c1, if_pos c2]
        simp [List.getD_eq_getElem?_getD, List.getElem?_set, hlen, hi]
      · have hset : (values.set i v).getD k d = values.getD k d := by
          simp [List.getD_eq_getElem?_getD, List.getElem?_set, Ne.symm hk]
        rw [hset]
        by_cases c1 : i + 1 ≤ k ∧ k < i + 1 + vs.length ∧ k < 16
        · have c2 : i ≤ k ∧ k < i + (v :: vs).length ∧ k < 16 := by
            simp only [List.length_cons]; omega
          rw [if_pos c1, if_pos c2]
          have e : k - i = (k - (i + 1)) + 1 := by omega
          rw [e, List.getD_cons_succ]
        · have c2 : ¬ (i ≤ k ∧ k < i + (v :: vs).length ∧ k < 16) := by
            simp only [List.length_cons]; omega
          rw [if_neg c1, if_neg c2]
    · simp only [hi, if_false]
      rw [ih i values hlen]
      have c1 : ¬ (i ≤ k ∧ k < i + vs.length ∧ k < 16) := by omega
      have c2 : ¬ (i ≤ k ∧ k < i + (v :: vs).length ∧ k < 16) := by omega
      rw [if_neg c1, if_neg c2]

theorem analyze_read_mat_head [Add α] [Sub α] [Mul α] [Zero α] (strtod : List Char → α × Nat)
    (R : Reg) (tl : List Char) (σ : Heap Reg α) :
    analyze_input strtod ("read_mat ".toList ++ R.name ++ ',' :: tl) σ
      = handle_read_mat strtod (',' :: tl) R σ := by
  have h1 : ∀ tl', first_Word_analysis ("read_mat ".toList ++ tl') = .READ_MAT := fun _ => rfl
  have h2 : ∀ tl', MOVE_TO_NON_WHITE ("read_mat ".toList ++ tl') = "read_mat ".toList ++ tl' :=
    fun _ => rfl
  have h3 : MOVE_TO_NON_WHITE (MOVE_TO_NEXT_WORD ("read_mat ".toList ++ (R.name ++ ',' :: tl)))
      = R.name ++ ',' :: tl := by
    cases R <;> rfl
  have h4 : whichMatrix (R.name ++ ',' :: tl) = some R := by cases R <;> rfl
  have h5 : MOVE_TO_NON_WHITE (MOVE_AFTER_MAT (R.name ++ ',' :: tl)) = ',' :: tl := by
    cases R <;> rfl
  have h6 : deref (R.name ++ ',' :: tl) = 'M' := by cases R <;> rfl
  have h7 : ∀ tl', IS_END_OF_COMMAND ("read_mat ".toList ++ tl') = false := fun _ => rfl
  unfold analyze_input
  simp only [List.append_assoc, h2, h1, h3, h4, h5, h7, ILLEGAL_COMMA_eq, MISSING_ARGUMENT_eq,
    h6]
  simp [done_andThen]
  intro h
  exact absurd h (by decide)

end ReadFacts


/-! ## Facts about the example scan -/

theorem take_takeWhile_length (p : Char → Bool) (l : List Char) :
    l.take (l.takeWhile p).length = l.takeWhile p := by
  induction l with
  | nil => rfl
  | cons a t ih =>
    rw [List.takeWhile_cons]
    by_cases h : p a = true
    · simp [h, ih]
    · simp [h]

theorem strtodDigits_staysInText : StaysInText strtodDigits := by
  intro l c hc
  unfold strtodDigits at hc
  simp only [take_takeWhile_length] at hc
  have := List.mem_takeWhile_imp hc
  rintro rfl
  exact absurd this (by decide)

theorem sixteenItems_literal : ∀ it ∈ sixteenItems, IsLiteral strtodDigits it := by
  intro it hit
  simp only [sixteenItems, List.mem_cons, List.mem_singleton, List.not_mem_nil, or_false] at hit
  rcases hit with h | h | h | h | h | h | h | h | h | h | h | h | h | h | h | h
  all_goals
    subst h
    refine ⟨by decide, ⟨_, _, rfl, by decide, by decide, by decide⟩, ?_⟩
    rintro rest (rfl | ⟨t, rfl⟩) <;> rfl


/-- The line `read_mat MAT_A, 1, x`: the first value is scanned, the second is not a number,
and the line is rejected as a whole. -/
theorem analyze_bad_second_value :
    analyze_input strtodDigits "read_mat MAT_A, 1, x".toList (fun _ _ _ => 5)
      = fault (fun _ _ _ => 5) ARG_IS_NOT_DOUBLE := by
  have hline : "read_mat MAT_A, 1, x".toList
      = "read_mat ".toList ++ Reg.MAT_A.name ++ ',' :: " 1, x".toList := rfl
  have h1 : read_values strtodDigits "x".toList 1 ((List.replicate 16 (0 : Int)).set 0 1)
      = .returned ARG_IS_NOT_DOUBLE := by
    rw [read_values]
    rfl
  have h0 : read_values strtodDigits "1, x".toList 0 (List.replicate 16 (0 : Int))
      = .returned ARG_IS_NOT_DOUBLE := by
    rw [read_values_step strtodDigits "1, x".toList " x".toList 0 _ rfl (by decide) rfl rfl
      (by decide)]
    exact h1
  rw [hline, analyze_read_mat_head]
  unfold handle_read_mat
  have h2 : MOVE_TO_NON_WHITE (',' :: " 1, x".toList).tail = "1, x".toList := rfl
  simp only [h2, h0]
  rfl

/-! ## Facts about `add_mat` and `sub_mat` lines -/

set_option maxHeartbeats 1000000 in
theorem analyze_add_line {α : Type} [Add α] [Sub α] [Mul α] [Zero α]
    (strtod : List Char → α × Nat) (R1 R2 R3 : Reg) (σ : Heap Reg α) :
    analyze_input strtod
        ("add_mat ".toList ++ R1.name ++ ", ".toList ++ R2.name ++ ", ".toList ++ R3.name) σ
      = done (add_mat R1 R2 R3 σ) := by
  cases R1 <;> cases R2 <;> cases R3 <;> rfl

set_option maxHeartbeats 1000000 in
theorem analyze_sub_line {α : Type} [Add α] [Sub α] [Mul α] [Zero α]
    (strtod : List Char → α × Nat) (R1 R2 R3 : Reg) (σ : Heap Reg α) :
    analyze_input strtod
        ("sub_mat ".toList ++ R1.name ++ ", ".toList ++ R2.name ++ ", ".toList ++ R3.name) σ
      = done (sub_mat R1 R2 R3 σ) := by
  cases R1 <;> cases R2 <;> cases R3 <;> rfl

/-! ## Facts about command words and operands -/

theorem wordLength_eq (p : List Char) : wordLength p = (wordAt p).length := by
  induction p with
  | nil => rfl
  | cons c t ih =>
    have hc : ((c != NUL && c != '\n') && !isspace c) = (c != NUL && !isspace c) := by
      by_cases h : c = '\n'
      · subst h; decide
      · have h1 : (c != '\n') = true := bne_iff_ne.mpr h
        rw [h1, Bool.and_true]
    unfold wordLength wordAt
    rw [List.takeWhile_cons, hc]
    by_cases h : (c != NUL && !isspace c) = true
    · rw [if_pos h, if_pos h, List.length_cons, ih]; rfl
    · rw [if_neg h, if_neg h]; rfl

theorem strncmp_eq_comm (a b : List Char) (n : Nat) : strncmp_eq a b n = strncmp_eq b a n := by
  induction n generalizing a b with
  | zero => rfl
  | succ n ih =>
    unfold strncmp_eq
    by_cases h : deref a = deref b
    · simp [h, ih a.tail b.tail]
    · have h' : ¬ deref b = deref a := fun e => h e.symm
      simp [h, h']

theorem wordAt_append_name (name tl : List Char)
    (hname : ∀ c ∈ name, (c != NUL && !isspace c) = true) :
    wordAt (name ++ tl) = name ++ wordAt tl := by
  unfold wordAt
  exact List.takeWhile_append_of_pos hname

theorem command_test (p name : List Char) (hname : name ∈ funcNames) :
    (strlen name == wordLength p && strncmp_eq name p (wordLength p)) = true
      ↔ wordAt p = name := by
  have hgood : ∀ c ∈ name, (c != NUL && !isspace c) = true := by
    revert name; decide
  have hnul : ∀ c ∈ name, c ≠ NUL := by
    intro c hc
    have := hgood c hc
    simp only [Bool.and_eq_true, bne_iff_ne, ne_eq] at this
    exact this.1
  have hlen : strlen name = name.length := by
    revert name; decide
  rw [Bool.and_eq_true, beq_iff_eq, hlen, wordLength_eq]
  constructor
  · rintro ⟨h1, h2⟩
    rw [← h1, strncmp_eq_comm, strncmp_eq_name name p hnul] at h2
    obtain ⟨tl, rfl⟩ := h2
    rw [wordAt_append_name name tl hgood, List.length_append] at h1
    have h0 : wordAt tl = [] := List.length_eq_zero.mp (by omega)
    rw [wordAt_append_name name tl hgood, h0, List.append_nil]
  · intro h
    refine ⟨by rw [h], ?_⟩
    rw [h, strncmp_eq_comm, strncmp_eq_name name p hnul]
    refine ⟨p.dropWhile (fun c => c != NUL && !isspace c), ?_⟩
    rw [← h]
    exact (List.takeWhile_append_dropWhile _ _).symm

/-- The function `first_Word_analysis` as a chain of comparisons of the word at the cursor
with the command names. -/
theorem first_Word_analysis_eq (p : List Char) :
    first_Word_analysis p =
      if wordAt p = "read_mat".toList then .READ_MAT
      else if wordAt p = "print_mat".toList then .PRINT_MAT
      else if wordAt p = "add_mat".toList then .ADD_MAT
      else if wordAt p = "sub_mat".toList then .SUB_MAT
      else if wordAt p = "mul_mat".toList then .MUL_MAT
      else if wordAt p = "mul_scalar".toList then .MUL_SCALAR
      else if wordAt p = "trans_mat".toList then .TRANS_MAT
      else if wordAt p = "stop".toList then .STOP
      else .NONE_FUNC := by
  have hr : List.range FUNC_COUNT = [0, 1, 2, 3, 4, 5, 6, 7] := by decide
  unfold first_Word_analysis
  rw [hr]
  simp only [List.find?, funcNames, List.getD_cons_zero, List.getD_cons_succ]
  have k0 := command_test p "read_mat".toList (by decide)
  have k1 := command_test p "print_mat".toList (by decide)
  have k2 := command_test p "add_mat".toList (by decide)
  have k3 := command_test p "sub_mat".toList (by decide)
  have k4 := command_test p "mul_mat".toList (by decide)
  have k5 := command_test p "mul_scalar".toList (by decide)
  have k6 := command_test p "trans_mat".toList (by decide)
  have k7 := command_test p "stop".toList (by decide)
  generalize (strlen "read_mat".toList == wordLength p
    && strncmp_eq "read_mat".toList p (wordLength p)) = b0 at k0
  generalize (strlen "print_mat".toList == wordLength p
    && strncmp_eq "print_mat".toList p (wordLength p)) = b1 at k1
  generalize (strlen "add_mat".toList == wordLength p
    && strncmp_eq "add_mat".toList p (wordLength p)) = b2 at k2
  generalize (strlen "sub_mat".toList == wordLength p
    && strncmp_eq "sub_mat".toList p (wordLength p)) = b3 at k3
  generalize (strlen "mul_mat".toList == wordLength p
    && strncmp_eq "mul_mat".toList p (wordLength p)) = b4 at k4
  generalize (strlen "mul_scalar".toList == wordLength p
    && strncmp_eq "mul_scalar".toList p (wordLength p)) = b5 at k5
  generalize (strlen "trans_mat".toList == wordLength p
    && strncmp_eq "trans_mat".toList p (wordLength p)) = b6 at k6
  generalize (strlen "stop".toList == wordLength p
    && strncmp_eq "stop".toList p (wordLength p)) = b7 at k7
  generalize wordAt p = w at *
  cases b0 <;> cases b1 <;> cases b2 <;> cases b3 <;> cases b4 <;> cases b5 <;> cases b6 <;>
    cases b7 <;> simp_all [CommandType.ofIndex]

theorem take_eq_name_iff (p name : List Char) :
    (∃ tl, p = name ++ tl) ↔ p.take name.length = name := by
  constructor
  · rintro ⟨tl, rfl⟩
    simp
  · intro h
    have h1 := List.take_append_drop name.length p
    rw [h] at h1
    exact ⟨p.drop name.length, h1.symm⟩

/-- The function `getMatrix` as a chain of comparisons of the five characters at the cursor
with the register names. -/
theorem getMatrix_eq (p : List Char) :
    getMatrix p =
      if p.take 5 = "MAT_A".toList then .MATRIX_A
      else if p.take 5 = "MAT_B".toList then .MATRIX_B
      else if p.take 5 = "MAT_C".toList then .MATRIX_C
      else if p.take 5 = "MAT_D".toList then .MATRIX_D
      else if p.take 5 = "MAT_E".toList then .MATRIX_E
      else if p.take 5 = "MAT_F".toList then .MATRIX_F
      else .NONE_MATRIX := by
  have key : ∀ name : List Char, name ∈ matrices →
      (strncmp_eq p name 5 = true ↔ p.take 5 = name) := by
    intro name hname
    have h5 : name.length = 5 := by
      revert name; decide
    have hn : ∀ c ∈ name, c ≠ NUL := by
      revert name; decide
    rw [← h5, strncmp_eq_name name p hn, take_eq_name_iff]
  rw [getMatrix_unfold]
  have k0 := key "MAT_A".toList (by decide)
  have k1 := key "MAT_B".toList (by decide)
  have k2 := key "MAT_C".toList (by decide)
  have k3 := key "MAT_D".toList (by decide)
  have k4 := key "MAT_E".toList (by decide)
  have k5 := key "MAT_F".toList (by decide)
  simp only [k0, k1, k2, k3, k4, k5]

theorem whichMatrix_eq_none (p : List Char) :
    whichMatrix p = none ↔ ∀ R : Reg, p.take 5 ≠ R.name := by
  constructor
  · intro h R hR
    have : whichMatrix p = some R := (whichMatrix_eq_some p R).mpr
      ((take_eq_name_iff p R.name).mpr (by
        have h5 : R.name.length = 5 := by cases R <;> rfl
        rw [h5]; exact hR))
    rw [h] at this
    cases this
  · intro h
    cases hw : whichMatrix p with
    | none => rfl
    | some R =>
      have h5 : R.name.length = 5 := by cases R <;> rfl
      have := (take_eq_name_iff p R.name).mp ((whichMatrix_eq_some p R).mp hw)
      rw [h5] at this
      exact absurd this (h R)

section LineFacts

variable {α : Type}

theorem analyze_input_eq [Add α] [Sub α] [Mul α] [Zero α] (strtod : List Char → α × Nat)
    (line : List Char) (σ : Heap Reg α) :
    analyze_input strtod line σ =
      if IS_END_OF_COMMAND (MOVE_TO_NON_WHITE line) = true then done σ
      else if first_Word_analysis (MOVE_TO_NON_WHITE line) = .NONE_FUNC then
        (fault σ UNDEFINED_CMD).andThen (free (line.length - (MOVE_TO_NON_WHITE line).length))
      else analyze_operands strtod (first_Word_analysis (MOVE_TO_NON_WHITE line))
        (firstOperandText line) σ := rfl

theorem MOVE_ws (ws X : List Char) (hws : ∀ c ∈ ws, isspace c = true)
    (hX : isspace (deref X) = false) : MOVE_TO_NON_WHITE (ws ++ X) = X := by
  unfold MOVE_TO_NON_WHITE
  rw [List.dropWhile_append_of_pos (by
    intro a ha
    simp [hws a ha, isspace_ne_NUL a (hws a ha)])]
  cases X with
  | nil => rfl
  | cons c t =>
    have hc : isspace c = false := hX
    rw [List.dropWhile_cons]
    simp [hc]

theorem MOVE_self (X : List Char) (hX : isspace (deref X) = false) :
    MOVE_TO_NON_WHITE X = X := MOVE_ws [] X (by simp) hX

/-- The characters of a word: neither the terminator nor white space. -/
theorem skip_word (name rest : List Char)
    (hname : ∀ c ∈ name, (c != NUL && !isspace c) = true)
    (hrest : deref rest = NUL ∨ isspace (deref rest) = true) :
    (name ++ rest).dropWhile (fun c => c != NUL && !isspace c) = rest ∧
    wordAt (name ++ rest) = name := by
  have hstop : rest.dropWhile (fun c => c != NUL && !isspace c) = rest ∧
      rest.takeWhile (fun c => c != NUL && !isspace c) = [] := by
    cases rest with
    | nil => exact ⟨rfl, rfl⟩
    | cons c t =>
      have hc : ¬ (c != NUL && !isspace c) = true := by
        rcases hrest with h | h
        · have : c = NUL := h
          simp [this]
        · have : isspace c = true := h
          simp [this]
      exact ⟨by rw [List.dropWhile_cons, if_neg hc], by rw [List.takeWhile_cons, if_neg hc]⟩
  constructor
  · rw [List.dropWhile_append_of_pos hname, hstop.1]
  · unfold wordAt
    rw [List.takeWhile_append_of_pos hname, hstop.2, List.append_nil]

theorem first_Word_analysis_congr (p q : List Char) (h : wordAt p = wordAt q) :
    first_Word_analysis p = first_Word_analysis q := by
  rw [first_Word_analysis_eq, first_Word_analysis_eq, h]

/-- A line made of white space, a command name, white space and a rest that begins with no
white space: the analysis continues at the rest, with the tag of the name. -/
theorem analyze_line [Add α] [Sub α] [Mul α] [Zero α] (strtod : List Char → α × Nat)
    (ws1 name ws2 tl : List Char) (σ : Heap Reg α) (hname : name ∈ funcNames)
    (hws1 : ∀ c ∈ ws1, isspace c = true) (hws2 : ∀ c ∈ ws2, isspace c = true)
    (hsep : ws2 ≠ [] ∨ deref tl = NUL) (htl : isspace (deref tl) = false) :
    analyze_input strtod (ws1 ++ name ++ ws2 ++ tl) σ
      = analyze_operands strtod (first_Word_analysis name) tl σ := by
  have hgood : ∀ c ∈ name, (c != NUL && !isspace c) = true := by
    revert name; decide
  have hne : name ≠ [] := by
    revert name; decide
  have hcmd : first_Word_analysis name ≠ .NONE_FUNC := by
    revert name; decide
  obtain ⟨c0, t0, hct⟩ := List.exists_cons_of_ne_nil hne
  have hc0 : (c0 != NUL && !isspace c0) = true := hgood c0 (by rw [hct]; exact List.mem_cons_self _ _)
  simp only [Bool.and_eq_true, bne_iff_ne, ne_eq, Bool.not_eq_true'] at hc0
  have hhead : deref (name ++ (ws2 ++ tl)) = c0 := by rw [hct]; rfl
  have hrest : deref (ws2 ++ tl) = NUL ∨ isspace (deref (ws2 ++ tl)) = true := by
    cases ws2 with
    | nil =>
      rcases hsep with h | h
      · exact absurd rfl h
      · exact Or.inl h
    | cons a t => exact Or.inr (hws2 a (List.mem_cons_self _ _))
  have h0 : MOVE_TO_NON_WHITE (ws1 ++ name ++ ws2 ++ tl) = name ++ (ws2 ++ tl) := by
    rw [List.append_assoc, List.append_assoc]
    exact MOVE_ws ws1 _ hws1 (by rw [hhead]; exact hc0.2)
  have hskip := skip_word name (ws2 ++ tl) hgood hrest
  have h1 : firstOperandText (ws1 ++ name ++ ws2 ++ tl) = tl := by
    unfold firstOperandText
    rw [h0]
    unfold MOVE_TO_NEXT_WORD
    have e : (name ++ (ws2 ++ tl)).dropWhile (fun c => c != NUL && isspace c)
        = name ++ (ws2 ++ tl) := MOVE_self _ (by rw [hhead]; exact hc0.2)
    rw [e, hskip.1]
    exact MOVE_ws ws2 tl hws2 htl
  have h2 : first_Word_analysis (name ++ (ws2 ++ tl)) = first_Word_analysis name := by
    apply first_Word_analysis_congr
    rw [hskip.2]
    have := (skip_word name [] hgood (Or.inl rfl)).2
    rw [List.append_nil] at this
    exact this.symm
  have h3 : IS_END_OF_COMMAND (name ++ (ws2 ++ tl)) = false := by
    have hnl : c0 ≠ '\n' := by
      rintro rfl
      exact absurd hc0.2 (by decide)
    simp [IS_END_OF_COMMAND, hhead, hc0.1, hnl]
  rw [analyze_input_eq, h1, h0, h2, h3]
  simp [hcmd]

end LineFacts

section DispatchFacts

variable {α : Type}

theorem first_Word_analysis_stop_iff (p : List Char) :
    first_Word_analysis p = .STOP ↔ wordAt p = "stop".toList := by
  rw [first_Word_analysis_eq]
  generalize wordAt p = w
  by_cases e0 : w = "read_mat".toList
  · subst e0; decide
  by_cases e1 : w = "print_mat".toList
  · subst e1; decide
  by_cases e2 : w = "add_mat".toList
  · subst e2; decide
  by_cases e3 : w = "sub_mat".toList
  · subst e3; decide
  by_cases e4 : w = "mul_mat".toList
  · subst e4; decide
  by_cases e5 : w = "mul_scalar".toList
  · subst e5; decide
  by_cases e6 : w = "trans_mat".toList
  · subst e6; decide
  by_cases e7 : w = "stop".toList
  · subst e7; decide
  rw [if_neg e0, if_neg e1, if_neg e2, if_neg e3, if_neg e4, if_neg e5, if_neg e6, if_neg e7]
  exact ⟨fun h => (by cases h), fun h => absurd h e7⟩

theorem first_Word_analysis_none_iff (p : List Char) :
    first_Word_analysis p = .NONE_FUNC ↔ wordAt p ∉ funcNames := by
  rw [first_Word_analysis_eq]
  generalize wordAt p = w
  by_cases e0 : w = "read_mat".toList
  · subst e0; decide
  by_cases e1 : w = "print_mat".toList
  · subst e1; decide
  by_cases e2 : w = "add_mat".toList
  · subst e2; decide
  by_cases e3 : w = "sub_mat".toList
  · subst e3; decide
  by_cases e4 : w = "mul_mat".toList
  · subst e4; decide
  by_cases e5 : w = "mul_scalar".toList
  · subst e5; decide
  by_cases e6 : w = "trans_mat".toList
  · subst e6; decide
  by_cases e7 : w = "stop".toList
  · subst e7; decide
  rw [if_neg e0, if_neg e1, if_neg e2, if_neg e3, if_neg e4, if_neg e5, if_neg e6, if_neg e7]
  simp only [funcNames, List.mem_cons, List.mem_singleton, List.not_mem_nil, or_false, true_iff]
  intro h
  rcases h with h | h | h | h | h | h | h | h
  · exact e0 h
  · exact e1 h
  · exact e2 h
  · exact e3 h
  · exact e4 h
  · exact e5 h
  · exact e6 h
  · exact e7 h

theorem wordAt_of_end (p : List Char) (h : IS_END_OF_COMMAND p = true) : wordAt p = [] := by
  cases p with
  | nil => rfl
  | cons c t =>
    have hc : c = NUL ∨ c = '\n' := by
      simpa [IS_END_OF_COMMAND, deref] using h
    unfold wordAt
    rw [List.takeWhile_cons]
    rcases hc with rfl | rfl <;> rfl

theorem not_end_of_command_word (p : List Char) (h : wordAt p ∈ funcNames) :
    IS_END_OF_COMMAND p = false := by
  cases he : IS_END_OF_COMMAND p with
  | false => rfl
  | true =>
    rw [wordAt_of_end p he] at h
    exact absurd h (by decide)

theorem handle_print_mat_cases (u : List Char) (m : Reg) (σ : Heap Reg α) :
    (∃ msg, handle_print_mat u m σ = fault σ msg) ∨
    handle_print_mat u m σ
      = { regs := σ, errors := [], out := [print_mat m σ], exit := none } := by
  unfold handle_print_mat
  rw [EXTRANEOUS_TEXT_eq]
  split
  · exact Or.inr rfl
  · exact Or.inl ⟨_, rfl⟩

/-- A line whose command is not `stop`: the process goes on, and at most one fault is
reported. -/
theorem analyze_operands_not_stop [Add α] [Sub α] [Mul α] [Zero α]
    (strtod : List Char → α × Nat) (cmd : CommandType) (u : List Char) (σ : Heap Reg α)
    (hstop : cmd ≠ .STOP) :
    (analyze_operands strtod cmd u σ).exit = none ∧
    (analyze_operands strtod cmd u σ).errors.length ≤ 1 := by
  unfold analyze_operands
  simp only [ILLEGAL_COMMA_eq, MISSING_ARGUMENT_eq]
  by_cases hcomma : deref u = ','
  · rw [if_pos hcomma]; exact ⟨rfl, Nat.le_refl _⟩
  rw [if_neg hcomma, if_neg hstop, done_andThen]
  by_cases harg : deref u = NUL
  · rw [if_pos harg]; exact ⟨rfl, Nat.le_refl _⟩
  rw [if_neg harg]
  cases whichMatrix u with
  | none => exact ⟨rfl, Nat.le_refl _⟩
  | some first =>
    simp only []
    generalize MOVE_TO_NON_WHITE (MOVE_AFTER_MAT u) = u2
    cases cmd with
    | NONE_FUNC => exact ⟨rfl, Nat.zero_le _⟩
    | STOP => exact absurd rfl hstop
    | PRINT_MAT =>
      simp only []
      rcases handle_print_mat_cases u2 first σ with ⟨msg, h⟩ | h
      · rw [h]; exact ⟨rfl, Nat.le_refl _⟩
      · rw [h]; exact ⟨rfl, Nat.zero_le _⟩
    | READ_MAT =>
      simp only []
      rcases handle_read_mat_cases strtod u2 first σ with ⟨msg, h⟩ | ⟨values, h⟩
      · rw [h]; exact ⟨rfl, Nat.le_refl _⟩
      · rw [h]; exact ⟨rfl, Nat.zero_le _⟩
    | TRANS_MAT =>
      simp only []
      rcases handle_trans_mat_cases u2 u2 first σ (Reached.refl u2) with ⟨msg, h⟩ | ⟨d, -, h⟩
      · rw [h]; exact ⟨rfl, Nat.le_refl _⟩
      · rw [h]; exact ⟨rfl, Nat.zero_le _⟩
    | MUL_SCALAR =>
      simp only []
      rcases handle_mul_scalar_cases strtod u2 u2 first σ (Reached.refl u2) with
        ⟨msg, h⟩ | ⟨d, x, -, h⟩
      · rw [h]; exact ⟨rfl, Nat.le_refl _⟩
      · rw [h]; exact ⟨rfl, Nat.zero_le _⟩
    | ADD_MAT =>
      simp only []
      rcases handle_add_sub_mul_cases u2 u2 first .ADD_MAT σ (Reached.refl u2) with
        ⟨msg, h⟩ | h | ⟨s, d, -, h | h | h⟩
      · rw [h]; exact ⟨rfl, Nat.le_refl _⟩
      all_goals rw [h]; exact ⟨rfl, Nat.zero_le _⟩
    | SUB_MAT =>
      simp only []
      rcases handle_add_sub_mul_cases u2 u2 first .SUB_MAT σ (Reached.refl u2) with
        ⟨msg, h⟩ | h | ⟨s, d, -, h | h | h⟩
      · rw [h]; exact ⟨rfl, Nat.le_refl _⟩
      all_goals rw [h]; exact ⟨rfl, Nat.zero_le _⟩
    | MUL_MAT =>
      simp only []
      rcases handle_add_sub_mul_cases u2 u2 first .MUL_MAT σ (Reached.refl u2) with
        ⟨msg, h⟩ | h | ⟨s, d, -, h | h | h⟩
      · rw [h]; exact ⟨rfl, Nat.le_refl _⟩
      all_goals rw [h]; exact ⟨rfl, Nat.zero_le _⟩

/-- The cursor after `MOVE_TO_NON_WHITE` is at the start of the line exactly when its distance
from the start is `0`. -/
theorem skipped_eq_zero_iff (line : List Char) :
    line.length - (MOVE_TO_NON_WHITE line).length = 0 ↔ MOVE_TO_NON_WHITE line = line := by
  unfold MOVE_TO_NON_WHITE
  have hs : List.IsSuffix (line.dropWhile (fun c => c != NUL && isspace c)) line :=
    List.dropWhile_suffix _
  constructor
  · intro h
    have hle := hs.length_le
    exact hs.eq_of_length (by omega)
  · intro h
    rw [h]
    exact Nat.sub_self _

/-- The undefined-command path: the fault, then `free` on the cursor. -/
theorem undefined_command_outcome (σ : Heap Reg α) (skipped : Nat) :
    (fault σ UNDEFINED_CMD).andThen (free skipped)
      = { regs := σ, errors := [UNDEFINED_CMD], out := [],
          exit := if skipped = 0 then none else some ABORTED } := rfl

/-- A line whose first word is not `stop`: at most one fault is reported, and the process is
ended exactly when the line is an undefined command that begins with white space, by the
call of `free` on the moved cursor. -/
theorem analyze_input_not_stop [Add α] [Sub α] [Mul α] [Zero α]
    (strtod : List Char → α × Nat) (line : List Char) (σ : Heap Reg α)
    (hstop : wordAt (MOVE_TO_NON_WHITE line) ≠ "stop".toList) :
    (analyze_input strtod line σ).errors.length ≤ 1 ∧
    ((analyze_input strtod line σ).exit = some ABORTED ↔
      deref (MOVE_TO_NON_WHITE line) ≠ NUL ∧ wordAt (MOVE_TO_NON_WHITE line) ∉ funcNames ∧
      MOVE_TO_NON_WHITE line ≠ line) ∧
    ((analyze_input strtod line σ).exit ≠ some ABORTED →
      (analyze_input strtod line σ).exit = none) ∧
    ((analyze_input strtod line σ).exit = some ABORTED →
      (analyze_input strtod line σ).errors = [UNDEFINED_CMD] ∧
      (analyze_input strtod line σ).regs = σ) := by
  have hcmd : first_Word_analysis (MOVE_TO_NON_WHITE line) ≠ .STOP :=
    fun h => hstop ((first_Word_analysis_stop_iff _).mp h)
  have hab : (none : Option Nat) ≠ some ABORTED := by simp
  rw [analyze_input_eq]
  by_cases hend : IS_END_OF_COMMAND (MOVE_TO_NON_WHITE line) = true
  · rw [if_pos hend]
    have hnul : deref (MOVE_TO_NON_WHITE line) = NUL :=
      deref_MOVE_end line (by simpa [IS_END_OF_COMMAND] using hend)
    exact ⟨Nat.zero_le _, ⟨fun h => absurd h hab, fun h => absurd hnul h.1⟩, fun _ => rfl,
      fun h => absurd h hab⟩
  rw [if_neg hend]
  have hpresent : deref (MOVE_TO_NON_WHITE line) ≠ NUL := by
    intro h
    exact hend (by simp [IS_END_OF_COMMAND, h])
  by_cases hnone : first_Word_analysis (MOVE_TO_NON_WHITE line) = .NONE_FUNC
  · rw [if_pos hnone, undefined_command_outcome]
    have hword := (first_Word_analysis_none_iff _).mp hnone
    by_cases hz : line.length - (MOVE_TO_NON_WHITE line).length = 0
    · have hsame := (skipped_eq_zero_iff line).mp hz
      rw [if_pos hz]
      exact ⟨Nat.le_refl _, ⟨fun h => absurd h hab, fun h => absurd hsame h.2.2⟩, fun _ => rfl,
        fun h => absurd h hab⟩
    · have hmoved : MOVE_TO_NON_WHITE line ≠ line := fun h => hz ((skipped_eq_zero_iff line).mpr h)
      rw [if_neg hz]
      exact ⟨Nat.le_refl _, ⟨fun _ => ⟨hpresent, hword, hmoved⟩, fun _ => rfl⟩,
        fun h => absurd rfl h, fun _ => ⟨rfl, rfl⟩⟩
  · rw [if_neg hnone]
    have hword : ¬ wordAt (MOVE_TO_NON_WHITE line) ∉ funcNames :=
      fun h => hnone ((first_Word_analysis_none_iff _).mpr h)
    obtain ⟨h1, h2⟩ := analyze_operands_not_stop strtod
      (first_Word_analysis (MOVE_TO_NON_WHITE line)) (firstOperandText line) σ hcmd
    rw [h1]
    exact ⟨h2, ⟨fun h => absurd h hab, fun h => absurd h.2.1 hword⟩, fun _ => rfl,
      fun h => absurd h hab⟩

end DispatchFacts


section OperandFacts

variable {α : Type}

theorem Reg.name_eq (R : Reg) : ∃ t, R.name = 'M' :: t ∧ t.length = 4 := by
  cases R <;> exact ⟨_, rfl, rfl⟩

/-- A register name followed by white space and a rest that begins with no white space: the
name resolves to the register and the cursor moves to the rest. -/
theorem operand_step (R : Reg) (ws Y : List Char) (hws : ∀ c ∈ ws, isspace c = true)
    (hY : isspace (deref Y) = false) :
    whichMatrix (R.name ++ ws ++ Y) = some R ∧
    MOVE_TO_NON_WHITE (MOVE_AFTER_MAT (R.name ++ ws ++ Y)) = Y ∧
    deref (R.name ++ ws ++ Y) = 'M' := by
  refine ⟨(whichMatrix_eq_some _ R).mpr ⟨ws ++ Y, by rw [List.append_assoc]⟩, ?_, ?_⟩
  · have h5 : R.name.length = 5 := by cases R <;> rfl
    unfold MOVE_AFTER_MAT MAX_MAT_NAME
    rw [List.append_assoc, ← h5, List.drop_left]
    exact MOVE_ws ws Y hws hY
  · obtain ⟨t, ht, -⟩ := Reg.name_eq R
    rw [ht]
    rfl

/-- A separator comma followed by white space and a rest that begins with no white space. -/
theorem comma_step (ws X : List Char) (hws : ∀ c ∈ ws, isspace c = true)
    (hX : isspace (deref X) = false) :
    MOVE_TO_NON_WHITE (',' :: (ws ++ X)).tail = X ∧ deref (',' :: (ws ++ X)) = ',' :=
  ⟨MOVE_ws ws X hws hX, rfl⟩

theorem MISSING_COMMA_eq (ch : List Char) (σ : Heap Reg α) (k : Outcome α) :
    MISSING_COMMA ch σ k = if deref ch = ',' then k else fault σ NO_COMMA_ERR := by
  unfold MISSING_COMMA
  by_cases h : deref ch = ',' <;> simp [h]

theorem MULTIPLE_CONSECUTIVE_COMMAS_eq (ch : List Char) (σ : Heap Reg α) (k : Outcome α) :
    MULTIPLE_CONSECUTIVE_COMMAS ch σ k
      = if deref ch = ',' then fault σ UNNECESSARY_COMMA_ERR else k := by
  unfold MULTIPLE_CONSECUTIVE_COMMAS
  by_cases h : deref ch = ',' <;> simp [h]

/-- The analysis of a line whose first operand is a register name: the handler of the
command runs at the text after the name. -/
theorem analyze_operands_first [Add α] [Sub α] [Mul α] [Zero α]
    (strtod : List Char → α × Nat) (cmd : CommandType) (R : Reg) (ws Y : List Char)
    (σ : Heap Reg α) (hcmd : cmd ≠ .STOP) (hws : ∀ c ∈ ws, isspace c = true)
    (hY : isspace (deref Y) = false) :
    analyze_operands strtod cmd (R.name ++ ws ++ Y) σ =
      match cmd with
      | .PRINT_MAT => handle_print_mat Y R σ
      | .TRANS_MAT => handle_trans_mat Y R σ
      | .MUL_SCALAR => handle_mul_scalar strtod Y R σ
      | .ADD_MAT => handle_add_sub_mul Y R cmd σ
      | .SUB_MAT => handle_add_sub_mul Y R cmd σ
      | .MUL_MAT => handle_add_sub_mul Y R cmd σ
      | .READ_MAT => handle_read_mat strtod Y R σ
      | _ => done σ := by
  obtain ⟨h1, h2, h3⟩ := operand_step R ws Y hws hY
  unfold analyze_operands
  rw [ILLEGAL_COMMA_eq, h3, if_neg (by decide), if_neg hcmd, done_andThen, MISSING_ARGUMENT_eq,
    h3, if_neg (by decide), h1]
  simp only [h2]
  cases cmd <;> rfl

/-- The second operand of `trans_mat`: a text that names no register is reported as a missing
argument. -/
theorem handle_trans_mat_second [Zero α] (ws X : List Char) (R : Reg) (σ : Heap Reg α)
    (hws : ∀ c ∈ ws, isspace c = true) (hX : isspace (deref X) = false)
    (hcomma : deref X ≠ ',') (hnone : whichMatrix X = none) :
    handle_trans_mat (',' :: (ws ++ X)) R σ = fault σ MISSING_ARG_ERR := by
  obtain ⟨h1, h2⟩ := comma_step ws X hws hX
  unfold handle_trans_mat
  rw [MISSING_COMMA_eq, h2, if_pos rfl]
  simp only [h1]
  rw [MULTIPLE_CONSECUTIVE_COMMAS_eq, if_neg hcomma, hnone]

/-- The second operand of `add_mat`, `sub_mat` and `mul_mat`. -/
theorem handle_add_sub_mul_second [Add α] [Sub α] [Mul α] [Zero α] (ws X : List Char)
    (R : Reg) (cmd : CommandType) (σ : Heap Reg α)
    (hws : ∀ c ∈ ws, isspace c = true) (hX : isspace (deref X) = false)
    (hcomma : deref X ≠ ',') (hnone : whichMatrix X = none) :
    handle_add_sub_mul (',' :: (ws ++ X)) R cmd σ = fault σ MISSING_ARG_ERR := by
  obtain ⟨h1, h2⟩ := comma_step ws X hws hX
  unfold handle_add_sub_mul
  rw [MISSING_COMMA_eq, h2, if_pos rfl]
  simp only [h1]
  rw [MULTIPLE_CONSECUTIVE_COMMAS_eq, if_neg hcomma, hnone]

/-- The third operand of `add_mat`, `sub_mat` and `mul_mat`: no test for a second comma
precedes the resolution of the register. -/
theorem handle_add_sub_mul_third [Add α] [Sub α] [Mul α] [Zero α]
    (ws4 ws5 ws6 X : List Char) (R R2 : Reg) (cmd : CommandType) (σ : Heap Reg α)
    (hws4 : ∀ c ∈ ws4, isspace c = true) (hws5 : ∀ c ∈ ws5, isspace c = true)
    (hws6 : ∀ c ∈ ws6, isspace c = true) (hX : isspace (deref X) = false)
    (hnone : whichMatrix X = none) :
    handle_add_sub_mul (',' :: (ws4 ++ (R2.name ++ ws5 ++ ',' :: (ws6 ++ X)))) R cmd σ
      = fault σ MISSING_ARG_ERR := by
  have hc : isspace (deref (',' :: (ws6 ++ X))) = false := rfl
  obtain ⟨a1, a2, a3⟩ := operand_step R2 ws5 (',' :: (ws6 ++ X)) hws5 hc
  have hM : isspace (deref (R2.name ++ ws5 ++ ',' :: (ws6 ++ X))) = false := by
    rw [a3]; rfl
  obtain ⟨h1, h2⟩ := comma_step ws4 _ hws4 hM
  obtain ⟨b1, b2⟩ := comma_step ws6 X hws6 hX
  unfold handle_add_sub_mul
  rw [MISSING_COMMA_eq, h2, if_pos rfl]
  simp only [h1]
  rw [MULTIPLE_CONSECUTIVE_COMMAS_eq, a3, if_neg (by decide), a1]
  simp only [a2]
  rw [MISSING_COMMA_eq, b2, if_pos rfl]
  simp only [b1]
  rw [hnone]

/-- The register operand of `mul_scalar`, after the scalar. -/
theorem handle_mul_scalar_third [Mul α] (strtod : List Char → α × Nat)
    (ws4 lit ws5 ws6 X : List Char) (R : Reg) (σ : Heap Reg α)
    (hws4 : ∀ c ∈ ws4, isspace c = true) (hws5 : ∀ c ∈ ws5, isspace c = true)
    (hws6 : ∀ c ∈ ws6, isspace c = true) (hX : isspace (deref X) = false)
    (hcomma : deref X ≠ ',') (hnone : whichMatrix X = none)
    (hlit : ∃ c t, lit = c :: t ∧ isspace c = false ∧ c ≠ ',' ∧ c ≠ NUL)
    (hscan : (strtod (lit ++ ws5 ++ ',' :: (ws6 ++ X))).2 = lit.length) :
    handle_mul_scalar strtod (',' :: (ws4 ++ (lit ++ ws5 ++ ',' :: (ws6 ++ X)))) R σ
      = fault σ MISSING_ARG_ERR := by
  obtain ⟨c, t, hl, hc, hcc, -⟩ := hlit
  have hL : deref (lit ++ ws5 ++ ',' :: (ws6 ++ X)) = c := by rw [hl]; rfl
  have hLs : isspace (deref (lit ++ ws5 ++ ',' :: (ws6 ++ X))) = false := by rw [hL]; exact hc
  obtain ⟨h1, h2⟩ := comma_step ws4 _ hws4 hLs
  obtain ⟨b1, b2⟩ := comma_step ws6 X hws6 hX
  have hne : lit.length ≠ 0 := by rw [hl]; simp
  have hdrop : MOVE_TO_NON_WHITE ((lit ++ ws5 ++ ',' :: (ws6 ++ X)).drop lit.length)
      = ',' :: (ws6 ++ X) := by
    rw [List.append_assoc, List.drop_left]
    exact MOVE_ws ws5 _ hws5 rfl
  have h0 : MOVE_TO_NON_WHITE (',' :: (ws4 ++ (lit ++ ws5 ++ ',' :: (ws6 ++ X))))
      = ',' :: (ws4 ++ (lit ++ ws5 ++ ',' :: (ws6 ++ X))) := MOVE_self _ rfl
  unfold handle_mul_scalar
  simp only [h0]
  rw [MISSING_COMMA_eq, h2, if_pos rfl]
  simp only [h1]
  rw [MULTIPLE_CONSECUTIVE_COMMAS_eq, hL, if_neg hcc, hscan, if_neg hne]
  simp only [hdrop]
  rw [MISSING_COMMA_eq, b2, if_pos rfl]
  simp only [b1]
  rw [MULTIPLE_CONSECUTIVE_COMMAS_eq, if_neg hcomma, hnone]

end OperandFacts

/-! ## Facts about `get_line` -/

/-- An input without a line feed, when no reallocation fails: the loop of `get_line` reaches
the end of the input. -/
theorem get_line_loop_eof (realloc : Nat → Option (Nat → Char)) (stdin : List Char)
    (hnl : '\n' ∉ stdin) (hmem : ∀ n, realloc n ≠ none) (i : Nat) (line : Nat → Char)
    (lineLength : Nat) :
    get_line_loop realloc stdin i line lineLength = .exited [EOF_ERR] [] 0 := by
  induction stdin generalizing i line lineLength with
  | nil => rfl
  | cons ch t ih =>
    have hch : ch ≠ '\n' := fun h => hnl (by simp [h])
    have ht : '\n' ∉ t := fun h => hnl (List.mem_cons_of_mem _ h)
    unfold get_line_loop
    rw [if_neg hch]
    dsimp only
    split
    · cases hr : realloc ((lineLength * 2 + 1) * 1) with
      | none => exact absurd hr (hmem _)
      | some fresh => exact ih ht _ _ _
    · exact ih ht _ _ _

/-! ## Facts about `getScalar` -/

theorem isdigit_facts (d : Char) (hd : isdigit d = true) :
    isspace d = false ∧ d ≠ NUL ∧ d ≠ '-' ∧ d ≠ '+' := by
  refine ⟨?_, ?_, ?_, ?_⟩
  · cases hs : isspace d with
    | false => rfl
    | true =>
      simp only [isspace, Bool.or_eq_true, beq_iff_eq] at hs
      rcases hs with ((((h | h) | h) | h) | h) | h <;> subst h <;> exact absurd hd (by decide)
  all_goals
    rintro rfl
    exact absurd hd (by decide)

/-- A numeral without a sign: `getScalar` steps over its first digit as if it were a sign. -/
theorem getScalar_unsigned {α : Type} [Zero α] [Add α] [Mul α] [Div α] [NatCast α] [IntCast α]
    (d : Char) (rest : List Char) (hd : isdigit d = true) (h0 : d ≠ '0') :
    (getScalar (d :: rest) : Option α) = getScalar ('+' :: rest) := by
  obtain ⟨h1, h2, h3, h4⟩ := isdigit_facts d hd
  have e1 : (d :: rest).dropWhile isspace = d :: rest := by
    rw [List.dropWhile_cons, h1]; rfl
  have e2 : ('+' :: rest).dropWhile isspace = '+' :: rest := rfl
  unfold getScalar
  simp only [e1, e2]
  have d1 : deref (d :: rest) = d := rfl
  have d2 : deref ('+' :: rest) = '+' := rfl
  simp only [d1, d2, List.tail_cons]
  have hp : ('+' : Char) ≠ NUL := by decide
  simp [hd, h0, h2, h3, hp]

theorem getScalar_value (α : Type) [Zero α] [Add α] [Mul α] [Div α] [NatCast α] [IntCast α] :
    (getScalar "123.45".toList : Option α)
      = some ((((((0 * ((10 : Nat) : α) + ((2 : Nat) : α)) * ((10 : Nat) : α) + ((3 : Nat) : α))
          * ((10 : Nat) : α) + ((4 : Nat) : α)) * ((10 : Nat) : α) + ((5 : Nat) : α))
          / ((10 : Nat) : α) / ((10 : Nat) : α)) * ((1 : Int) : α)) ∧
    (getScalar "+123.45".toList : Option α)
      = some (((((((0 * ((10 : Nat) : α) + ((1 : Nat) : α)) * ((10 : Nat) : α) + ((2 : Nat) : α))
          * ((10 : Nat) : α) + ((3 : Nat) : α))
          * ((10 : Nat) : α) + ((4 : Nat) : α)) * ((10 : Nat) : α) + ((5 : Nat) : α))
          / ((10 : Nat) : α) / ((10 : Nat) : α)) * ((1 : Int) : α)) :=
  ⟨rfl, rfl⟩
/-! ## Facts about `print_mat` -/

section PrintingFacts

variable {α : Type} [LT α] [DecidableRel (fun a b : α => a < b)] [Neg α] [Zero α] [OfNat α 1000]

theorem print_mat_scan_row_eq (m : mat α) (row : Fin 4) (u : Bool) :
    print_mat_scan_row m row (u, false)
      = (u || (List.finRange 4).any (fun col => decide ((1000 : α) < fabs (m row col))),
         u || (List.finRange 4).any (fun col => decide ((1000 : α) < fabs (m row col)))) := by
  unfold print_mat_scan_row FOR_RANGE NUM_OF_COLUMNS
  simp only [finRange_four, List.foldl_cons, List.foldl_nil, print_mat_scan_cell, List.any_cons,
    List.any_nil]
  by_cases h0 : (1000 : α) < fabs (m row 0) <;>
  by_cases h1 : (1000 : α) < fabs (m row 1) <;>
  by_cases h2 : (1000 : α) < fabs (m row 2) <;>
  by_cases h3 : (1000 : α) < fabs (m row 3) <;>
  cases u <;> simp [h0, h1, h2, h3]

theorem useScientific_eq (m : mat α) :
    useScientific m = (List.finRange 4).any (fun row =>
      (List.finRange 4).any (fun col => decide ((1000 : α) < fabs (m row col)))) := by
  have step : ∀ (row : Fin 4) (st : Bool × Bool), st.2 = st.1 →
      print_mat_scan_row m row st
        = (st.1 || (List.finRange 4).any
              (fun col => decide ((1000 : α) < fabs (m row col))),
           st.1 || (List.finRange 4).any
              (fun col => decide ((1000 : α) < fabs (m row col)))) := by
    rintro row ⟨u, k⟩ hk
    dsimp only at hk
    subst hk
    cases k
    · exact print_mat_scan_row_eq m row false
    · simp [print_mat_scan_row]
  unfold useScientific FOR_RANGE NUM_OF_ROWS
  simp only [finRange_four, List.foldl_cons, List.foldl_nil]
  rw [step 0 _ rfl, step 1 _ rfl, step 2 _ rfl, step 3 _ rfl]
  simp [finRange_four, Bool.or_assoc]

theorem useScientific_iff (m : mat α) :
    useScientific m = true ↔ ∃ row col, (1000 : α) < fabs (m row col) := by
  rw [useScientific_eq]
  simp [List.any_eq_true]

theorem print_mat_items_eq (m : mat α) :
    print_mat_items m
      = (List.finRange 4).flatMap (fun row => PrintItem.newline ::
          (List.finRange 4).map (fun col =>
            PrintItem.cell (if useScientific m = true then "%10.2e\t" else "%7.2f\t")
              (m row col)))
        ++ [PrintItem.newline] := by
  unfold print_mat_items FOR_RANGE NUM_OF_ROWS NUM_OF_COLUMNS
  cases useScientific m <;>
    simp [finRange_four, List.flatMap_cons, List.flatMap_nil]

end PrintingFacts
/-! ## Facts about lines that are well formed up to their last register -/

section TailFacts

variable {α : Type}

/-- Text that begins with a character other than white space and the terminator is reported
as extraneous. -/
theorem EXTRANEOUS_TEXT_char (c : Char) (rest : List Char) (σ : Heap Reg α) (k : Outcome α)
    (hc : isspace c = false) (hnul : c ≠ NUL) :
    EXTRANEOUS_TEXT (c :: rest) σ k = fault σ EXT_TXT_ERR := by
  have hnl : c ≠ '\n' := by
    rintro rfl
    exact absurd hc (by decide)
  rw [EXTRANEOUS_TEXT_eq, if_neg]
  rintro (h | h)
  · exact hnul h
  · exact hnl h

theorem handle_trans_mat_tail [Zero α] (ws4 ws5 X : List Char) (R1 R2 : Reg) (σ : Heap Reg α)
    (hws4 : ∀ c ∈ ws4, isspace c = true) (hws5 : ∀ c ∈ ws5, isspace c = true)
    (hX : isspace (deref X) = false) :
    handle_trans_mat (',' :: (ws4 ++ (R2.name ++ ws5 ++ X))) R1 σ
      = EXTRANEOUS_TEXT X σ (done (trans_mat R1 R2 σ)) := by
  obtain ⟨a1, a2, a3⟩ := operand_step R2 ws5 X hws5 hX
  have hM : isspace (deref (R2.name ++ ws5 ++ X)) = false := by rw [a3]; rfl
  obtain ⟨h1, h2⟩ := comma_step ws4 _ hws4 hM
  unfold handle_trans_mat
  rw [MISSING_COMMA_eq, h2, if_pos rfl]
  simp only [h1]
  rw [MULTIPLE_CONSECUTIVE_COMMAS_eq, a3, if_neg (by decide), a1]
  simp only [a2]

theorem handle_add_sub_mul_tail [Add α] [Sub α] [Mul α] [Zero α]
    (ws4 ws5 ws6 ws7 X : List Char) (R1 R2 R3 : Reg) (cmd : CommandType) (σ : Heap Reg α)
    (hws4 : ∀ c ∈ ws4, isspace c = true) (hws5 : ∀ c ∈ ws5, isspace c = true)
    (hws6 : ∀ c ∈ ws6, isspace c = true) (hws7 : ∀ c ∈ ws7, isspace c = true)
    (hX : isspace (deref X) = false) :
    handle_add_sub_mul
        (',' :: (ws4 ++ (R2.name ++ ws5 ++ ',' :: (ws6 ++ (R3.name ++ ws7 ++ X))))) R1 cmd σ
      = EXTRANEOUS_TEXT X σ
          (match cmd with
           | .ADD_MAT => done (add_mat R1 R2 R3 σ)
           | .SUB_MAT => done (sub_mat R1 R2 R3 σ)
           | .MUL_MAT => done (mul_mat R1 R2 R3 σ)
           | _ => done σ) := by
  obtain ⟨b1, b2, b3⟩ := operand_step R3 ws7 X hws7 hX
  have hM3 : isspace (deref (R3.name ++ ws7 ++ X)) = false := by rw [b3]; rfl
  obtain ⟨c1, c2⟩ := comma_step ws6 _ hws6 hM3
  obtain ⟨a1, a2, a3⟩ := operand_step R2 ws5 (',' :: (ws6 ++ (R3.name ++ ws7 ++ X))) hws5 rfl
  have hM2 : isspace (deref (R2.name ++ ws5 ++ ',' :: (ws6 ++ (R3.name ++ ws7 ++ X)))) = false := by
    rw [a3]; rfl
  obtain ⟨h1, h2⟩ := comma_step ws4 _ hws4 hM2
  unfold handle_add_sub_mul
  rw [MISSING_COMMA_eq, h2, if_pos rfl]
  simp only [h1]
  rw [MULTIPLE_CONSECUTIVE_COMMAS_eq, a3, if_neg (by decide), a1]
  simp only [a2]
  rw [MISSING_COMMA_eq, c2, if_pos rfl]
  simp only [c1]
  rw [b1]
  simp only [b2]

theorem handle_mul_scalar_tail [Mul α] (strtod : List Char → α × Nat)
    (ws4 lit ws5 ws6 ws7 X : List Char) (R1 R2 : Reg) (σ : Heap Reg α)
    (hws4 : ∀ c ∈ ws4, isspace c = true) (hws5 : ∀ c ∈ ws5, isspace c = true)
    (hws6 : ∀ c ∈ ws6, isspace c = true) (hws7 : ∀ c ∈ ws7, isspace c = true)
    (hX : isspace (deref X) = false)
    (hlit : ∃ c t, lit = c :: t ∧ isspace c = false ∧ c ≠ ',' ∧ c ≠ NUL)
    (hscan : (strtod (lit ++ ws5 ++ ',' :: (ws6 ++ (R2.name ++ ws7 ++ X)))).2 = lit.length) :
    handle_mul_scalar strtod
        (',' :: (ws4 ++ (lit ++ ws5 ++ ',' :: (ws6 ++ (R2.name ++ ws7 ++ X))))) R1 σ
      = EXTRANEOUS_TEXT X σ
          (done (mul_scalar R1
            (strtod (lit ++ ws5 ++ ',' :: (ws6 ++ (R2.name ++ ws7 ++ X)))).1 R2 σ)) := by
  obtain ⟨c, t, hl, hc, hcc, -⟩ := hlit
  obtain ⟨b1, b2, b3⟩ := operand_step R2 ws7 X hws7 hX
  have hM : isspace (deref (R2.name ++ ws7 ++ X)) = false := by rw [b3]; rfl
  obtain ⟨c1, c2⟩ := comma_step ws6 _ hws6 hM
  have hL : deref (lit ++ ws5 ++ ',' :: (ws6 ++ (R2.name ++ ws7 ++ X))) = c := by rw [hl]; rfl
  have hLs : isspace (deref (lit ++ ws5 ++ ',' :: (ws6 ++ (R2.name ++ ws7 ++ X)))) = false := by
    rw [hL]; exact hc
  obtain ⟨h1, h2⟩ := comma_step ws4 _ hws4 hLs
  have hne : lit.length ≠ 0 := by rw [hl]; simp
  have hdrop : MOVE_TO_NON_WHITE
      ((lit ++ ws5 ++ ',' :: (ws6 ++ (R2.name ++ ws7 ++ X))).drop lit.length)
      = ',' :: (ws6 ++ (R2.name ++ ws7 ++ X)) := by
    rw [List.append_assoc, List.drop_left]
    exact MOVE_ws ws5 _ hws5 rfl
  have h0 : MOVE_TO_NON_WHITE
      (',' :: (ws4 ++ (lit ++ ws5 ++ ',' :: (ws6 ++ (R2.name ++ ws7 ++ X)))))
      = ',' :: (ws4 ++ (lit ++ ws5 ++ ',' :: (ws6 ++ (R2.name ++ ws7 ++ X)))) := MOVE_self _ rfl
  unfold handle_mul_scalar
  simp only [h0]
  rw [MISSING_COMMA_eq, h2, if_pos rfl]
  simp only [h1]
  rw [MULTIPLE_CONSECUTIVE_COMMAS_eq, hL, if_neg hcc, hscan, if_neg hne]
  simp only [hdrop]
  rw [MISSING_COMMA_eq, c2, if_pos rfl]
  simp only [c1]
  rw [MULTIPLE_CONSECUTIVE_COMMAS_eq, b3, if_neg (by decide), b1]
  simp only [b2]

end TailFacts
/-! ## Facts about the values of `read_mat` lines -/

section ValueFacts

variable {α : Type}

theorem end_of_command_iff (X : List Char) (hX : isspace (deref X) = false) :
    (IS_END_OF_COMMAND X = true ↔ deref X = NUL) ∧
    (IS_NOT_END_OF_COMMAND X = true ↔ deref X ≠ NUL) := by
  have hnl : deref X ≠ '\n' := by
    intro h
    rw [h] at hX
    exact absurd hX (by decide)
  simp [IS_END_OF_COMMAND, IS_NOT_END_OF_COMMAND, hnl]

theorem isspace_deref_MOVE (l : List Char) : isspace (deref (MOVE_TO_NON_WHITE l)) = false := by
  unfold MOVE_TO_NON_WHITE
  induction l with
  | nil => rfl
  | cons c t ih =>
    rw [List.dropWhile_cons]
    by_cases h : (c != NUL && isspace c) = true
    · rw [if_pos h]; exact ih
    · rw [if_neg h]
      show isspace c = false
      by_cases hc : c = NUL
      · subst hc; rfl
      · simpa [hc] using h

/-- One iteration of the loop of `handle_read_mat` that scans a value and finds a further
character `c` behind it. -/
theorem read_values_next (strtod : List Char → α × Nat) (u rest : List Char) (c : Char)
    (i : Nat) (values : List α) (h1 : IS_NOT_END_OF_COMMAND u = true) (h2 : (strtod u).2 ≠ 0)
    (h3 : MOVE_TO_NON_WHITE (u.drop (strtod u).2) = c :: rest) (hc : c ≠ NUL) :
    read_values strtod u i values
      = if deref (MOVE_TO_NON_WHITE rest) = NUL then .returned EXT_TXT_ERR
        else if c ≠ ',' then .returned NO_COMMA_ERR
        else if deref (MOVE_TO_NON_WHITE rest) = ',' then .returned UNNECESSARY_COMMA_ERR
        else read_values strtod (MOVE_TO_NON_WHITE rest) (if i < 16 then i + 1 else i)
          (if i < 16 then values.set i (strtod u).1 else values) := by
  have hsp : isspace c = false := by
    have := isspace_deref_MOVE (u.drop (strtod u).2)
    rw [h3] at this
    exact this
  have hnl : c ≠ '\n' := by
    rintro rfl
    exact absurd hsp (by decide)
  have e1 : IS_END_OF_COMMAND (c :: rest) = false := by
    simp [IS_END_OF_COMMAND, deref, hc, hnl]
  have e2 : IS_NOT_END_OF_COMMAND (c :: rest) = true := by
    simp [IS_NOT_END_OF_COMMAND, deref, hc, hnl]
  have e3 : deref (c :: rest) = c := rfl
  have e4 := (end_of_command_iff (MOVE_TO_NON_WHITE rest) (isspace_deref_MOVE rest)).1
  rw [read_values, dif_pos h1, dif_neg h2]
  simp only [h3]
  by_cases hend : deref (MOVE_TO_NON_WHITE rest) = NUL
  · have : IS_END_OF_COMMAND (MOVE_TO_NON_WHITE rest) = true := e4.mpr hend
    simp [e1, e2, e3, List.tail_cons, this, hend, hc, hnl]
  · have : IS_END_OF_COMMAND (MOVE_TO_NON_WHITE rest) = false := by
      cases h : IS_END_OF_COMMAND (MOVE_TO_NON_WHITE rest) with
      | false => rfl
      | true => exact absurd (e4.mp h) hend
    by_cases hcc : c = ','
    · subst hcc
      by_cases h5 : deref (MOVE_TO_NON_WHITE rest) = ','
      · simp [e1, e2, e3, List.tail_cons, this, hend, h5, comma_ne_NUL]
      · simp [e1, e2, e3, List.tail_cons, this, hend, h5]
    · simp [e1, e2, e3, List.tail_cons, this, hend, hcc]

/-- The loop of `handle_read_mat` at a text on which the scan consumes nothing. -/
theorem read_values_not_number (strtod : List Char → α × Nat) (u : List Char) (i : Nat)
    (values : List α) (h1 : IS_NOT_END_OF_COMMAND u = true) (h2 : (strtod u).2 = 0) :
    read_values strtod u i values = .returned ARG_IS_NOT_DOUBLE := by
  rw [read_values, dif_pos h1, dif_pos h2]

theorem valuesBefore_start (strtod : List Char → α × Nat) (items : List (ValueItem α))
    (T : List Char) (hlit : ∀ it ∈ items, IsLiteral strtod it)
    (hend : deref (MOVE_TO_NON_WHITE T) ≠ NUL) (hcomma : deref (MOVE_TO_NON_WHITE T) ≠ ',') :
    deref (MOVE_TO_NON_WHITE (valuesBefore items T)) ≠ NUL ∧
    deref (MOVE_TO_NON_WHITE (valuesBefore items T)) ≠ ',' := by
  cases items with
  | nil => exact ⟨hend, hcomma⟩
  | cons it rest =>
    have hit := hlit it (List.mem_cons_self _ _)
    have hm : MOVE_TO_NON_WHITE (valuesBefore (it :: rest) T)
        = it.lit ++ ',' :: valuesBefore rest T := MOVE_ws_lit it.ws it.lit _ hit.1 hit.2.1
    rw [hm]
    have := literal_start strtod it (',' :: valuesBefore rest T) hit
    exact ⟨this.2.2.2, this.2.2.1⟩

/-- The loop of `handle_read_mat` runs through values that are each followed by a comma and
arrives at the text behind them. -/
theorem read_values_before (strtod : List Char → α × Nat) (items : List (ValueItem α))
    (T : List Char) (hlit : ∀ it ∈ items, IsLiteral strtod it)
    (hend : deref (MOVE_TO_NON_WHITE T) ≠ NUL) (hcomma : deref (MOVE_TO_NON_WHITE T) ≠ ',')
    (i : Nat) (values : List α) :
    ∃ i1 values1, read_values strtod (MOVE_TO_NON_WHITE (valuesBefore items T)) i values
      = read_values strtod (MOVE_TO_NON_WHITE T) i1 values1 := by
  induction items generalizing i values with
  | nil => exact ⟨i, values, rfl⟩
  | cons it rest ih =>
    have hit := hlit it (List.mem_cons_self _ _)
    have hrest : ∀ x ∈ rest, IsLiteral strtod x := fun x hx => hlit x (List.mem_cons_of_mem _ hx)
    have hm : MOVE_TO_NON_WHITE (valuesBefore (it :: rest) T)
        = it.lit ++ ',' :: valuesBefore rest T := MOVE_ws_lit it.ws it.lit _ hit.1 hit.2.1
    have hs := hit.2.2 (',' :: valuesBefore rest T) (Or.inr ⟨_, rfl⟩)
    have hstart := literal_start strtod it (',' :: valuesBefore rest T) hit
    have hlen : it.lit.length ≠ 0 := by
      obtain ⟨c, t, hl, -⟩ := hit.2.1
      rw [hl]; simp
    have hmove : MOVE_TO_NON_WHITE ((it.lit ++ ',' :: valuesBefore rest T).drop
        (strtod (it.lit ++ ',' :: valuesBefore rest T)).2) = ',' :: valuesBefore rest T := by
      rw [hs]
      simp only [List.drop_left']
      rfl
    obtain ⟨n1, n2⟩ := valuesBefore_start strtod rest T hrest hend hcomma
    rw [hm, read_values_next strtod _ (valuesBefore rest T) ',' i values hstart.1
      (by rw [hs]; exact hlen) hmove (by decide), if_neg n1, if_neg (by simp), if_neg n2]
    exact ih hrest _ _

/-- A `read_mat` line whose values are well formed up to a text at which the loop of
`handle_read_mat` returns with a message: the line reports that message. -/
theorem analyze_read_mat_returned [Add α] [Sub α] [Mul α] [Zero α]
    (strtod : List Char → α × Nat) (ws1 ws2 ws3 T : List Char) (R : Reg)
    (items : List (ValueItem α)) (msg : String) (σ : Heap Reg α)
    (hws1 : ∀ c ∈ ws1, isspace c = true) (hws2 : ∀ c ∈ ws2, isspace c = true)
    (hws3 : ∀ c ∈ ws3, isspace c = true) (hne : ws2 ≠ [])
    (hlit : ∀ it ∈ items, IsLiteral strtod it)
    (hend : deref (MOVE_TO_NON_WHITE T) ≠ NUL) (hcomma : deref (MOVE_TO_NON_WHITE T) ≠ ',')
    (hret : ∀ i values, read_values strtod (MOVE_TO_NON_WHITE T) i values = .returned msg) :
    analyze_input strtod
        (ws1 ++ "read_mat".toList ++ ws2 ++ (R.name ++ ws3 ++ ',' :: valuesBefore items T)) σ
      = fault σ msg := by
  have hM : isspace (deref (R.name ++ ws3 ++ ',' :: valuesBefore items T)) = false := by
    obtain ⟨t, ht, -⟩ := Reg.name_eq R
    rw [ht]
    rfl
  obtain ⟨n1, n2⟩ := valuesBefore_start strtod items T hlit hend hcomma
  obtain ⟨i1, v1, hrun⟩ := read_values_before strtod items T hlit hend hcomma 0
    (List.replicate 16 0)
  rw [analyze_line strtod ws1 _ ws2 _ σ (by decide) hws1 hws2 (Or.inl hne) hM,
    analyze_operands_first strtod _ R ws3 (',' :: valuesBefore items T) σ (by decide) hws3 rfl]
  show handle_read_mat strtod _ R σ = _
  unfold handle_read_mat
  have d1 : deref (',' :: valuesBefore items T) = ',' := rfl
  rw [MISSING_ARGUMENT_eq, d1, if_neg (by decide), MISSING_COMMA_eq, d1, if_pos rfl]
  simp only [List.tail_cons]
  rw [MULTIPLE_CONSECUTIVE_COMMAS_eq, if_neg n2, MISSING_ARGUMENT_eq, if_neg n1, hrun, hret]

end ValueFacts

section EndFacts

variable {α : Type}

/-- At the end of the line no register is named. -/
theorem whichMatrix_of_end (tl : List Char) (h : deref tl = NUL) :
    whichMatrix tl = none ∧ isspace (deref tl) = false ∧ deref tl ≠ ',' := by
  refine ⟨(whichMatrix_eq_none tl).mpr ?_, by rw [h]; rfl, by rw [h]; decide⟩
  intro R hR
  obtain ⟨t, ht, -⟩ := Reg.name_eq R
  rw [ht] at hR
  rcases deref_eq_NUL tl h with rfl | ⟨t2, rfl⟩
  · simp at hR
  · simp only [List.take_succ_cons, List.cons.injEq] at hR
    exact absurd hR.1 (by decide)

theorem handle_read_mat_end [Zero α] (strtod : List Char → α × Nat) (ws4 tl : List Char)
    (R : Reg) (σ : Heap Reg α) (hws4 : ∀ c ∈ ws4, isspace c = true) (hend : deref tl = NUL) :
    handle_read_mat strtod (',' :: (ws4 ++ tl)) R σ = fault σ NO_ARGS_ERR := by
  obtain ⟨-, e2, e3⟩ := whichMatrix_of_end tl hend
  obtain ⟨h1, h2⟩ := comma_step ws4 tl hws4 e2
  unfold handle_read_mat
  rw [MISSING_ARGUMENT_eq, h2, if_neg (by decide), MISSING_COMMA_eq, h2, if_pos rfl]
  simp only [h1]
  rw [MULTIPLE_CONSECUTIVE_COMMAS_eq, if_neg e3, MISSING_ARGUMENT_eq, if_pos hend]

/-- The scalar position of `mul_scalar`: a text on which the scan consumes nothing. -/
theorem handle_mul_scalar_not_number [Mul α] (strtod : List Char → α × Nat)
    (ws4 X : List Char) (R : Reg) (σ : Heap Reg α) (hws4 : ∀ c ∈ ws4, isspace c = true)
    (hX : isspace (deref X) = false) (hcomma : deref X ≠ ',') (hzero : (strtod X).2 = 0) :
    handle_mul_scalar strtod (',' :: (ws4 ++ X)) R σ = fault σ MISSING_SCALAR_ERR := by
  obtain ⟨h1, h2⟩ := comma_step ws4 X hws4 hX
  have h0 : MOVE_TO_NON_WHITE (',' :: (ws4 ++ X)) = ',' :: (ws4 ++ X) := MOVE_self _ rfl
  unfold handle_mul_scalar
  simp only [h0]
  rw [MISSING_COMMA_eq, h2, if_pos rfl]
  simp only [h1]
  rw [MULTIPLE_CONSECUTIVE_COMMAS_eq, if_neg hcomma, if_pos hzero]

end EndFacts
/-! ## Facts about the driver -/

/-- The loop of `get_line` on a line of any length, when no reallocation fails: it returns at
the line feed with the characters of the line stored in order from index `i` on, whatever was
stored below `i` kept, and the result is whether the position after the last character holds a
terminator. -/
theorem get_line_loop_stores (realloc : Nat → Option (Nat → Char)) (chars rest : List Char)
    (hnl : '\n' ∉ chars) (hmem : ∀ n, realloc n ≠ none) (i : Nat) (line : Nat → Char)
    (lineLength : Nat) :
    ∃ line1, get_line_loop realloc (chars ++ '\n' :: rest) i line lineLength
        = .returned (line1 (i + chars.length) == NUL) line1 rest ∧
      (∀ j, j < i → line1 j = line j) ∧
      (∀ j, j < chars.length → line1 (i + j) = chars.getD j NUL) := by
  induction chars generalizing i line lineLength with
  | nil =>
    refine ⟨line, ?_, fun _ _ => rfl, fun j hj => absurd hj (by simp)⟩
    simp [get_line_loop]
  | cons ch t ih =>
    have hch : ch ≠ '\n' := fun h => hnl (by simp [h])
    have ht : '\n' ∉ t := fun h => hnl (List.mem_cons_of_mem _ h)
    have fin : ∀ line2 : Nat → Char, (∀ j, j ≤ i → line2 j = Function.update line i ch j) →
        ∀ len, ∃ line1, get_line_loop realloc (t ++ '\n' :: rest) (i + 1) line2 len
          = .returned (line1 (i + (ch :: t).length) == NUL) line1 rest ∧
        (∀ j, j < i → line1 j = line j) ∧
        (∀ j, j < (ch :: t).length → line1 (i + j) = (ch :: t).getD j NUL) := by
      intro line2 h2 len
      obtain ⟨line1, e1, e2, e3⟩ := ih ht (i + 1) line2 len
      refine ⟨line1, ?_, ?_, ?_⟩
      · rw [e1]
        simp only [List.length_cons]
        rw [show i + (t.length + 1) = i + 1 + t.length by omega]
      · intro j hj
        rw [e2 j (by omega), h2 j (by omega), Function.update_noteq (by omega)]
      · intro j hj
        cases j with
        | zero =>
          rw [Nat.add_zero, e2 i (by omega), h2 i (le_refl _), Function.update_same]
          rfl
        | succ k =>
          simp only [List.length_cons] at hj
          rw [show i + (k + 1) = i + 1 + k by omega, e3 k (by omega)]
          rfl
    rw [List.cons_append]
    unfold get_line_loop
    rw [if_neg hch]
    dsimp only
    split
    · cases hr : realloc ((lineLength * 2 + 1) * 1) with
      | none => exact absurd hr (hmem _)
      | some fresh =>
        exact fin _ (fun j hj => by simp [hj]) _
    · exact fin _ (fun j _ => rfl) _

/-- The loop of `get_line` on a line that fits below `lineLength - 1`: no reallocation takes
place, and every position other than those of the characters of the line is left as it was. -/
theorem get_line_loop_short (realloc : Nat → Option (Nat → Char)) (chars rest : List Char)
    (hnl : '\n' ∉ chars) (i : Nat) (line : Nat → Char) (lineLength : Nat)
    (hlen : i + chars.length < lineLength) :
    get_line_loop realloc (chars ++ '\n' :: rest) i line lineLength
      = .returned (line (i + chars.length) == NUL)
          (fun j => if i ≤ j ∧ j < i + chars.length then chars.getD (j - i) NUL else line j)
          rest := by
  induction chars generalizing i line with
  | nil =>
    have : (fun j => if i ≤ j ∧ j < i + ([] : List Char).length
        then ([] : List Char).getD (j - i) NUL else line j) = line := by
      funext j
      simp
    rw [this]
    simp [get_line_loop]
  | cons ch t ih =>
    have hch : ch ≠ '\n' := fun h => hnl (by simp [h])
    have ht : '\n' ∉ t := fun h => hnl (List.mem_cons_of_mem _ h)
    simp only [List.length_cons] at hlen
    have hi : i ≠ lineLength - 1 := by omega
    rw [List.cons_append]
    unfold get_line_loop
    rw [if_neg hch]
    dsimp only
    rw [if_neg hi, ih ht (i + 1) _ (by omega)]
    have e1 : Function.update line i ch (i + 1 + t.length) = line (i + (ch :: t).length) := by
      rw [Function.update_noteq (by omega)]
      simp only [List.length_cons]
      rw [show i + 1 + t.length = i + (t.length + 1) by omega]
    rw [e1]
    congr 1
    funext j
    simp only [List.length_cons]
    by_cases h1 : i + 1 ≤ j ∧ j < i + 1 + t.length
    · rw [if_pos h1, if_pos (by omega)]
      rw [show j - i = (j - (i + 1)) + 1 by omega]
      rfl
    · rw [if_neg h1]
      by_cases h2 : j = i
      · subst h2
        rw [Function.update_same, if_pos (by omega), Nat.sub_self]
        rfl
      · rw [Function.update_noteq h2, if_neg (by omega)]

/-- The function `get_line` on a line shorter than `INIT_LINE_SIZE`: the characters are stored
and nothing else is written; no terminator is stored after them. -/
theorem get_line_short (realloc : Nat → Option (Nat → Char)) (chars rest : List Char)
    (line : Nat → Char) (hnl : '\n' ∉ chars) (hlen : chars.length < INIT_LINE_SIZE) :
    get_line realloc (chars ++ '\n' :: rest) line
      = .returned (line chars.length == NUL) (written chars line) rest := by
  unfold get_line
  rw [get_line_loop_short realloc chars rest hnl 0 line INIT_LINE_SIZE (by omega)]
  simp only [Nat.zero_add, Nat.zero_le, true_and, Nat.sub_zero]
  rfl

theorem bufferText_written (chars : List Char) (line : Nat → Char) (size : Nat)
    (hsize : chars.length ≤ size) :
    bufferText (written chars line) size
      = chars ++ (List.range (size - chars.length)).map (fun k => line (chars.length + k)) := by
  unfold bufferText
  obtain ⟨d, rfl⟩ : ∃ d, size = chars.length + d := ⟨size - chars.length, by omega⟩
  rw [List.range_add, List.map_append, List.map_map, Nat.add_sub_cancel_left]
  congr 1
  · apply List.ext_getElem
    · simp
    · intro n h1 h2
      simp only [List.length_map, List.length_range] at h1
      simp [written, h1, List.getD_eq_getElem?_getD, List.getElem?_eq_getElem h1]
  · apply List.map_congr_left
    intro k _
    simp [written]

/-- The text of a buffer that holds the characters of a line shorter than the buffer: the
characters, then what the memory held at the position after them, then more of the memory. -/
theorem bufferText_written_cons (chars : List Char) (line : Nat → Char) (size : Nat)
    (hsize : chars.length < size) :
    ∃ junk, bufferText (written chars line) size = chars ++ line chars.length :: junk := by
  rw [bufferText_written chars line size (by omega)]
  obtain ⟨d, hd⟩ : ∃ d, size - chars.length = d + 1 := ⟨size - chars.length - 1, by omega⟩
  rw [hd, List.range_succ_eq_map, List.map_cons]
  exact ⟨_, rfl⟩

section DriverFacts

variable {α : Type}

/-- A text of white space up to its end is an empty command. -/
theorem analyze_blank [Add α] [Sub α] [Mul α] [Zero α] (strtod : List Char → α × Nat)
    (ws tl : List Char) (σ : Heap Reg α) (hws : ∀ c ∈ ws, isspace c = true)
    (hend : deref tl = NUL) : analyze_input strtod (ws ++ tl) σ = done σ := by
  have hm : MOVE_TO_NON_WHITE (ws ++ tl) = tl := MOVE_ws ws tl hws (by rw [hend]; rfl)
  have he : IS_END_OF_COMMAND tl = true := by simp [IS_END_OF_COMMAND, hend]
  rw [analyze_input_eq, hm, he, if_pos rfl]

end DriverFacts

section IterationFacts

variable {α : Type}

/-- One iteration of the driver on a line shorter than `INIT_LINE_SIZE`: the analyser is given
the characters of the line followed by what the memory of the buffer held after them. -/
theorem program_iteration_short [Add α] [Sub α] [Mul α] [Zero α]
    (malloc realloc : Nat → Option (Nat → Char)) (strtod : List Char → α × Nat)
    (chars rest : List Char) (mem : Nat → Char) (σ : Heap Reg α)
    (hmalloc : malloc (SIZEOF_CHAR_PTR * INIT_LINE_SIZE) = some mem)
    (hnl : '\n' ∉ chars) (hlen : chars.length < INIT_LINE_SIZE) :
    ∃ junk,
      bufferText (written chars mem) (SIZEOF_CHAR_PTR * INIT_LINE_SIZE)
        = chars ++ mem chars.length :: junk ∧
      line_process malloc realloc (chars ++ '\n' :: rest)
        = (if mem chars.length = NUL then
            { out := [if IS_END_OF_COMMAND (chars ++ mem chars.length :: junk) = true
                then EMPTY_LINE else print_input (chars ++ mem chars.length :: junk)],
              result := .returned true (written chars mem) rest }
          else { out := [], result := .returned false (written chars mem) rest }) ∧
      (program_iteration malloc realloc strtod (chars ++ '\n' :: rest) σ).outcome.regs
        = (analyze_input strtod (chars ++ mem chars.length :: junk) σ).regs ∧
      (program_iteration malloc realloc strtod (chars ++ '\n' :: rest) σ).outcome.errors
        = (analyze_input strtod (chars ++ mem chars.length :: junk) σ).errors ∧
      (program_iteration malloc realloc strtod (chars ++ '\n' :: rest) σ).outcome.exit
        = (analyze_input strtod (chars ++ mem chars.length :: junk) σ).exit ∧
      (program_iteration malloc realloc strtod (chars ++ '\n' :: rest) σ).outcome.out
        = (line_process malloc realloc (chars ++ '\n' :: rest)).out.map Out.text ++
          (analyze_input strtod (chars ++ mem chars.length :: junk) σ).out ++
          (match (analyze_input strtod (chars ++ mem chars.length :: junk) σ).exit with
           | none => [Out.text "\nPlease enter a command.\n"]
           | some _ => []) ∧
      (program_iteration malloc realloc strtod (chars ++ '\n' :: rest) σ).stdin = rest := by
  have hsz : chars.length < SIZEOF_CHAR_PTR * INIT_LINE_SIZE := by
    have : INIT_LINE_SIZE ≤ SIZEOF_CHAR_PTR * INIT_LINE_SIZE := by decide
    omega
  obtain ⟨junk, hj⟩ := bufferText_written_cons chars mem _ hsz
  have hg := get_line_short realloc chars rest mem hnl hlen
  have hlp : line_process malloc realloc (chars ++ '\n' :: rest)
        = (if mem chars.length = NUL then
            { out := [if IS_END_OF_COMMAND (chars ++ mem chars.length :: junk) = true
                then EMPTY_LINE else print_input (chars ++ mem chars.length :: junk)],
              result := .returned true (written chars mem) rest }
          else { out := [], result := .returned false (written chars mem) rest }) := by
    unfold line_process
    rw [hmalloc]
    dsimp only
    rw [hg]
    dsimp only
    rw [hj]
    by_cases hterm : mem chars.length = NUL
    · simp only [hterm, beq_self_eq_true, if_true]
      split <;> rfl
    · have : (mem chars.length == NUL) = false := by simpa using hterm
      simp only [this, hterm, if_false]
      rfl
  have hres : (line_process malloc realloc (chars ++ '\n' :: rest)).result
      = .returned (mem chars.length == NUL) (written chars mem) rest := by
    rw [hlp]
    by_cases hterm : mem chars.length = NUL
    · simp [hterm]
    · have : (mem chars.length == NUL) = false := by simpa using hterm
      simp [hterm]
  refine ⟨junk, hj, hlp, ?_, ?_, ?_, ?_, ?_⟩
  all_goals
    unfold program_iteration
    simp only [hres, hj]

end IterationFacts

/-! ## Facts about the word index -/

theorem hash_loop_step (c : Int) (h : Nat) :
    (((((h * 2 ^ 5) % 2 ^ 32 + h) % 2 ^ 32 + (c % 2 ^ 32).toNat) % 2 ^ 32 : Nat) : Int)
      = ((h : Int) * 33 + c) % 2 ^ 32 := by
  have hk : (((c % 2 ^ 32).toNat : Nat) : Int) = c % 2 ^ 32 :=
    Int.toNat_of_nonneg (Int.emod_nonneg _ (by norm_num))
  generalize (c % 2 ^ 32).toNat = k at hk
  norm_num at hk ⊢
  omega

theorem hash_loop_eq (toInt : Char → Int) (s : List Char) (z : Char) (rest : List Char)
    (hs : ∀ c ∈ s, toInt c ≠ 0) (hz : toInt z = 0) (h : Nat) :
    ((hash_loop toInt (s ++ z :: rest) h : Nat) : Int)
        = s.foldl (fun h c => (h * 33 + toInt c) % 2 ^ 32) (h : Int) ∧
    hash_loop toInt s h = hash_loop toInt (s ++ z :: rest) h := by
  induction s generalizing h with
  | nil =>
    simp [hash_loop, hz]
  | cons c t ih =>
    have hc : toInt c ≠ 0 := hs c (List.mem_cons_self _ _)
    have ht : ∀ x ∈ t, toInt x ≠ 0 := fun x hx => hs x (List.mem_cons_of_mem _ hx)
    simp only [List.cons_append, hash_loop, hc, if_false, List.foldl_cons]
    obtain ⟨e1, e2⟩ := ih ht
      ((((h * 2 ^ 5) % 2 ^ 32 + h) % 2 ^ 32 + (toInt c % 2 ^ 32).toNat) % 2 ^ 32)
    rw [hash_loop_step] at e1
    exact ⟨e1, e2⟩

theorem lineText_lineText (s : List Char) : lineText (lineText s) = lineText s := by
  unfold lineText
  induction s with
  | nil => rfl
  | cons c t ih =>
    by_cases h : (c != NUL) = true
    · simp only [List.takeWhile_cons, h, if_true]
      rw [ih]
    · simp only [List.takeWhile_cons, h, if_false]
      rfl

theorem addWordToIndex_loop_absent (index : Nat → WordEntry) (word : List Char)
    (hash_value : Nat) (line_number : Int) (before lines : List Int)
    (h : word_compare index word hash_value = false ∨ lines = []) :
    addWordToIndex_loop index word hash_value line_number before lines = none := by
  induction lines generalizing before with
  | nil => rfl
  | cons n next ih =>
    have hw : word_compare index word hash_value = false := by
      rcases h with h | h
      · exact h
      · exact absurd h (List.cons_ne_nil _ _)
    unfold addWordToIndex_loop
    simp only [hw, Bool.false_eq_true, if_false]
    exact ih _ (Or.inl hw)

theorem addWordToIndex_loop_present (index : Nat → WordEntry) (word : List Char)
    (hash_value : Nat) (line_number : Int) (before : List Int) (n : Int) (next : List Int)
    (h : word_compare index word hash_value = true) :
    addWordToIndex_loop index word hash_value line_number before (n :: next)
      = some (before ++ n :: line_number :: next) := by
  unfold addWordToIndex_loop
  simp only [h, if_true]

/-- The branch of `addWordToIndex` for a word that the entry does not hold: the entry gets
the word and a list made of the new line only. -/
theorem addWordToIndex_absent (toInt : Char → Int) (index : Nat → WordEntry)
    (word : List Char) (line_number : Int)
    (h : word_compare index word (hash toInt word) = false ∨
      (index (hash toInt word)).lines = []) :
    addWordToIndex toInt true index word line_number
      = some (Function.update index (hash toInt word)
          { word := some (lineText word), lines := [line_number] }) := by
  unfold addWordToIndex
  simp only [addWordToIndex_loop_absent index word _ line_number [] _ h, if_true,
    Function.update_same, Function.update_idem]
  rfl

/-- The branch of `addWordToIndex` for a word that the entry holds: the new line is inserted
behind the first node of the list. -/
theorem addWordToIndex_present (toInt : Char → Int) (index : Nat → WordEntry)
    (word : List Char) (line_number : Int) (n : Int) (next : List Int)
    (h : word_compare index word (hash toInt word) = true)
    (hl : (index (hash toInt word)).lines = n :: next) :
    addWordToIndex toInt true index word line_number
      = some (Function.update index (hash toInt word)
          { word := (index (hash toInt word)).word, lines := n :: line_number :: next }) := by
  unfold addWordToIndex
  simp only [hl, addWordToIndex_loop_present index word _ line_number [] n next h, if_true,
    List.nil_append]

theorem addOccurrences_present (toInt : Char → Int) (word : List Char) (l1 : Int)
    (ls acc : List Int) (index : Nat → WordEntry)
    (hw : (index (hash toInt word)).word = some (lineText word))
    (hl : (index (hash toInt word)).lines = l1 :: acc) :
    ∃ index1, addOccurrences toInt word ls index = some index1 ∧
      (index1 (hash toInt word)).lines = l1 :: (ls.reverse ++ acc) ∧
      (index1 (hash toInt word)).word = some (lineText word) ∧
      ∀ k, k ≠ hash toInt word → index1 k = index k := by
  induction ls generalizing index acc with
  | nil => exact ⟨index, rfl, by simpa using hl, hw, fun _ _ => rfl⟩
  | cons l t ih =>
    have hc : word_compare index word (hash toInt word) = true := by
      unfold word_compare
      rw [hw]
      simp [strcmp_eq, lineText_lineText]
    unfold addOccurrences
    rw [addWordToIndex_present toInt index word l l1 acc hc hl]
    dsimp only
    obtain ⟨index1, e1, e2, e3, e4⟩ := ih (l :: acc)
      (Function.update index (hash toInt word)
        { word := (index (hash toInt word)).word, lines := l1 :: l :: acc })
      (by rw [Function.update_same]; exact hw) (by rw [Function.update_same])
    refine ⟨index1, e1, ?_, e3, ?_⟩
    · rw [e2]; simp
    · intro k hk
      rw [e4 k hk, Function.update_noteq hk]


/-! ## Facts about the list of names -/

theorem char_eq_of_toNat (c d : Char) (h : c.toNat = d.toNat) : c = d :=
  Char.ext (UInt32.ext h)

theorem toNat_ofNat_small (n : Nat) (h : n < 55296) : (Char.ofNat n).toNat = n := by
  have hv : n.isValidChar := Or.inl h
  unfold Char.ofNat
  rw [dif_pos hv]
  rfl

theorem capital_iff (c : Char) : ('A' ≤ c ∧ c ≤ 'Z') ↔ (65 ≤ c.toNat ∧ c.toNat ≤ 90) := Iff.rfl

theorem tolower_toNat (c : Char) :
    (tolower c).toNat = if 65 ≤ c.toNat ∧ c.toNat ≤ 90 then c.toNat + 32 else c.toNat := by
  unfold tolower
  by_cases h : 'A' ≤ c ∧ c ≤ 'Z'
  · have h2 := (capital_iff c).mp h
    rw [if_pos h, if_pos h2, toNat_ofNat_small _ (by omega)]
  · have h2 : ¬ (65 ≤ c.toNat ∧ c.toNat ≤ 90) := fun x => h ((capital_iff c).mpr x)
    rw [if_neg h, if_neg h2]

theorem tolower_eq_iff (c d : Char) : tolower c = tolower d ↔ SameIgnoringCase c d := by
  show tolower c = tolower d ↔ c = d ∨
    (65 ≤ c.toNat ∧ c.toNat ≤ 90 ∧ d.toNat = c.toNat + 32) ∨
    (65 ≤ d.toNat ∧ d.toNat ≤ 90 ∧ c.toNat = d.toNat + 32)
  constructor
  · intro h
    have h1 := congrArg Char.toNat h
    rw [tolower_toNat, tolower_toNat] at h1
    by_cases hc : 65 ≤ c.toNat ∧ c.toNat ≤ 90 <;> by_cases hd : 65 ≤ d.toNat ∧ d.toNat ≤ 90
    · rw [if_pos hc, if_pos hd] at h1
      exact Or.inl (char_eq_of_toNat c d (by omega))
    · rw [if_pos hc, if_neg hd] at h1
      exact Or.inr (Or.inl ⟨hc.1, hc.2, h1.symm⟩)
    · rw [if_neg hc, if_pos hd] at h1
      exact Or.inr (Or.inr ⟨hd.1, hd.2, h1⟩)
    · rw [if_neg hc, if_neg hd] at h1
      exact Or.inl (char_eq_of_toNat c d h1)
  · rintro (h | ⟨h1, h2, h3⟩ | ⟨h1, h2, h3⟩)
    · rw [h]
    · apply char_eq_of_toNat
      rw [tolower_toNat, tolower_toNat, if_pos ⟨h1, h2⟩, if_neg (by omega), h3]
    · apply char_eq_of_toNat
      rw [tolower_toNat, tolower_toNat, if_neg (by omega), if_pos ⟨h1, h2⟩, h3]

theorem tolower_eq_NUL (d : Char) : tolower NUL = tolower d ↔ d = NUL := by
  constructor
  · intro h
    have h1 := congrArg Char.toNat h
    rw [tolower_toNat, tolower_toNat] at h1
    have h0 : NUL.toNat = 0 := rfl
    rw [h0] at h1
    apply char_eq_of_toNat
    rw [h0]
    split at h1 <;> split at h1 <;> omega
  · rintro rfl
    rfl

theorem lineText_eq_nil (s : List Char) : lineText s = [] ↔ deref s = NUL := by
  cases s with
  | nil => simp [lineText, deref]
  | cons c t =>
    by_cases h : c = NUL <;> simp [lineText, deref, h]

theorem lineText_cons (c : Char) (t : List Char) (h : c ≠ NUL) :
    lineText (c :: t) = c :: lineText t := by
  simp [lineText, h]

theorem strcasecmp_eq_iff (s1 s2 : List Char) :
    strcasecmp_eq s1 s2 = true ↔ EqualIgnoringCase s1 s2 := by
  unfold EqualIgnoringCase
  induction s1 generalizing s2 with
  | nil =>
    have : lineText ([] : List Char) = [] := rfl
    rw [this, List.forall₂_nil_left_iff, lineText_eq_nil]
    simp [strcasecmp_eq]
  | cons c t ih =>
    unfold strcasecmp_eq
    by_cases hc : c = NUL
    · subst hc
      have : lineText (NUL :: t) = [] := rfl
      rw [this, List.forall₂_nil_left_iff, lineText_eq_nil]
      by_cases hd : deref s2 = NUL
      · simp [hd]
      · have : tolower NUL ≠ tolower (deref s2) := fun h => hd ((tolower_eq_NUL _).mp h)
        simp [hd, this]
    · rw [lineText_cons c t hc]
      cases s2 with
      | nil =>
        have h1 : deref ([] : List Char) = NUL := rfl
        have h2 : tolower c ≠ tolower NUL := fun h => hc ((tolower_eq_NUL c).mp h.symm)
        have h3 : lineText ([] : List Char) = [] := rfl
        rw [h1, h3]
        simp [h2]
      | cons d t2 =>
        have h1 : deref (d :: t2) = d := rfl
        rw [h1, List.tail_cons]
        by_cases hd : d = NUL
        · subst hd
          have h2 : tolower c ≠ tolower NUL := fun h => hc ((tolower_eq_NUL c).mp h.symm)
          have h3 : lineText (NUL :: t2) = [] := rfl
          rw [h3]
          simp [h2]
        · rw [lineText_cons d t2 hd, List.forall₂_cons, ← ih t2, ← tolower_eq_iff]
          by_cases he : tolower c = tolower d
          · simp [he, hc]
          · simp [he]

theorem is_duplicate_loop_iff (nameList : Nat → List Char) (newName : List Char) (n : Nat) :
    is_duplicate_loop nameList newName n = true
      ↔ ∃ k, k < n ∧ strcasecmp_eq (nameList k) newName = true := by
  induction n with
  | zero => simp [is_duplicate_loop]
  | succ n ih =>
    unfold is_duplicate_loop
    by_cases h : strcasecmp_eq (nameList n) newName = true
    · rw [if_pos h]
      exact ⟨fun _ => ⟨n, Nat.lt_succ_self n, h⟩, fun _ => rfl⟩
    · rw [if_neg h]
      have hstep : (∃ k, k < n + 1 ∧ strcasecmp_eq (nameList k) newName = true)
          ↔ ∃ k, k < n ∧ strcasecmp_eq (nameList k) newName = true := by
        constructor
        · rintro ⟨k, hk, hm⟩
          have : k ≠ n := fun e => h (e ▸ hm)
          exact ⟨k, by omega, hm⟩
        · rintro ⟨k, hk, hm⟩
          exact ⟨k, by omega, hm⟩
      rw [hstep, ← ih]
      by_cases hn : 0 < n
      · rw [if_pos hn]
      · have : n = 0 := by omega
        subst this
        simp [is_duplicate_loop]

/-! ## Facts about long `read_mat` lines -/

section LongLineFacts

variable {α : Type}

theorem valuesText_append (items : List (ValueItem α)) (extra : ValueItem α) :
    valuesText (items ++ [extra]) = valuesBefore items (extra.ws ++ extra.lit) := by
  induction items with
  | nil => rfl
  | cons it rest ih =>
    cases rest with
    | nil => rfl
    | cons it2 rest2 =>
      have h : valuesText (it :: ((it2 :: rest2) ++ [extra]))
          = it.ws ++ it.lit ++ ',' :: valuesText ((it2 :: rest2) ++ [extra]) := rfl
      rw [List.cons_append, h, ih]
      rfl

/-- A `read_mat` line made of numeric literals: it reports no fault and the register is
loaded with the first sixteen values at most, the cells beyond the values being `0`. -/
theorem analyze_read_mat_values [Add α] [Sub α] [Mul α] [Zero α]
    (strtod : List Char → α × Nat) (R : Reg) (σ : Heap Reg α) (items : List (ValueItem α))
    (hne : items ≠ []) (hlit : ∀ it ∈ items, IsLiteral strtod it) :
    analyze_input strtod (readMatLine R items) σ
      = done (fun q => if q = R then fun r c =>
          if 4 * r.val + c.val < min items.length 16
          then (items.map (fun it => it.val)).getD (4 * r.val + c.val) 0 else 0
        else σ q) := by
  unfold readMatLine
  rw [analyze_read_mat_head]
  obtain ⟨it, rest, rfl⟩ := List.exists_cons_of_ne_nil hne
  have hit : IsLiteral strtod it := hlit it (List.mem_cons_self _ _)
  obtain ⟨X, hmove⟩ : ∃ X, MOVE_TO_NON_WHITE (valuesText (it :: rest)) = it.lit ++ X :=
    ⟨_, MOVE_valuesText strtod it rest hit⟩
  have hstart := literal_start strtod it X hit
  unfold handle_read_mat
  simp only [MISSING_ARGUMENT_eq, MISSING_COMMA, MULTIPLE_CONSECUTIVE_COMMAS, List.tail_cons]
  rw [read_values_items strtod _ hne hlit, hmove]
  have e1 : deref (',' :: valuesText (it :: rest)) = ',' := rfl
  simp only [e1, hstart.2.2.1, hstart.2.2.2, comma_ne_NUL, if_false, bne_self_eq_false,
    beq_iff_eq, Bool.false_eq_true]
  have e2 : IS_NOT_END_OF_COMMAND ([] : List Char) = false := rfl
  simp only [e2, Bool.false_eq_true, if_false]
  refine congrArg done ?_
  rw [read_mat_eq]
  funext q r c
  by_cases hq : q = R
  · have hr : r.val < 16 := by have := r.isLt; omega
    have hc := c.isLt
    have hr4 := r.isLt
    simp only [hq, if_true, hr, loadRule]
    have h16 : 4 * r.val + c.val < min 16 16 := by simp; omega
    rw [if_pos h16, storeValues_getD 0 _ 0 _ (by simp)]
    simp only [List.length_map, Nat.zero_le, Nat.zero_add, true_and, Nat.sub_zero]
    have h16' : 4 * r.val + c.val < 16 := by omega
    by_cases hn : 4 * r.val + c.val < (it :: rest).length
    · have h1 : 4 * r.val + c.val < (it :: rest).length ∧ 4 * r.val + c.val < 16 := ⟨hn, h16'⟩
      have h2 : 4 * r.val + c.val < min (it :: rest).length 16 := by omega
      rw [if_pos h1, if_pos h2]
    · have h1 : ¬ (4 * r.val + c.val < (it :: rest).length ∧ 4 * r.val + c.val < 16) :=
        fun h => hn h.1
      have h2 : ¬ 4 * r.val + c.val < min (it :: rest).length 16 := by omega
      rw [if_neg h1, if_neg h2, List.getD_eq_getElem?_getD, List.getElem?_replicate]
      split <;> rfl
  · simp only [hq, if_false]

end LongLineFacts

/-! ## The claims -/

section Claims

/-- C1: whenever `analyze_input` reports a fault for a line, all six registers hold exactly
the values they held before the line was processed. -/
theorem fault_leaves_registers_unchanged {α : Type} [Add α] [Sub α] [Mul α] [Zero α]
    (strtod : List Char → α × Nat) (line : List Char) (σ : Heap Reg α) :
    (analyze_input strtod line σ).errors ≠ [] → (analyze_input strtod line σ).regs = σ := by
  intro herr
  rcases analyze_input_shape strtod line σ with h | ⟨h, -⟩
  · exact h
  · exact absurd h herr

/-- C1, an instance: on the line `read_mat MAT_A, 1, x` the first value is accepted and the
second is not a number; the fault is reported and no register, `MAT_A` included, has changed. -/
theorem fault_leaves_registers_unchanged_witness :
    (analyze_input strtodDigits "read_mat MAT_A, 1, x".toList (fun _ _ _ => 5)).errors ≠ [] ∧
    (analyze_input strtodDigits "read_mat MAT_A, 1, x".toList (fun _ _ _ => 5)).regs
      = fun _ _ _ => 5 :=
  ⟨by rw [analyze_bad_second_value]; exact List.cons_ne_nil _ _,
    fault_leaves_registers_unchanged strtodDigits _ _
      (by rw [analyze_bad_second_value]; exact List.cons_ne_nil _ _)⟩

/-- C2: for every register `R`, every prior content of the registers and every `n ≥ 1`
numeric literals `v1 .. vn`, the line `read_mat R,w1 v1,...,wn vn` (each `wi` optional white
space) reports no fault and leaves `R` with cell `(r, c)` equal to `v[4r+c]` when
`4r+c < min(n, 16)` and equal to `0` otherwise, whatever `R` held before; the other registers
keep their values. -/
theorem read_mat_line_loads_values {α : Type} [Add α] [Sub α] [Mul α] [Zero α]
    (strtod : List Char → α × Nat) (R : Reg) (σ : Heap Reg α) (items : List (ValueItem α)) (hne : items ≠ [])
    (hlit : ∀ it ∈ items, IsLiteral strtod it) :
    analyze_input strtod (readMatLine R items) σ
      = done (fun q => if q = R then fun r c =>
          if 4 * r.val + c.val < min items.length 16
          then (items.map (fun it => it.val)).getD (4 * r.val + c.val) 0 else 0
        else σ q) := by
  unfold readMatLine
  rw [analyze_read_mat_head]
  obtain ⟨it, rest, rfl⟩ := List.exists_cons_of_ne_nil hne
  have hit : IsLiteral strtod it := hlit it (List.mem_cons_self _ _)
  obtain ⟨X, hmove⟩ : ∃ X, MOVE_TO_NON_WHITE (valuesText (it :: rest)) = it.lit ++ X :=
    ⟨_, MOVE_valuesText strtod it rest hit⟩
  have hstart := literal_start strtod it X hit
  unfold handle_read_mat
  simp only [MISSING_ARGUMENT_eq, MISSING_COMMA, MULTIPLE_CONSECUTIVE_COMMAS, List.tail_cons]
  rw [read_values_items strtod _ hne hlit, hmove]
  have e1 : deref (',' :: valuesText (it :: rest)) = ',' := rfl
  simp only [e1, hstart.2.2.1, hstart.2.2.2, comma_ne_NUL, if_false, bne_self_eq_false,
    beq_iff_eq, Bool.false_eq_true]
  have e2 : IS_NOT_END_OF_COMMAND ([] : List Char) = false := rfl
  simp only [e2, Bool.false_eq_true, if_false]
  refine congrArg done ?_
  rw [read_mat_eq]
  funext q r c
  by_cases hq : q = R
  · have hr : r.val < 16 := by have := r.isLt; omega
    have hc := c.isLt
    have hr4 := r.isLt
    simp only [hq, if_true, hr, loadRule]
    have h16 : 4 * r.val + c.val < min 16 16 := by simp; omega
    rw [if_pos h16, storeValues_getD 0 _ 0 _ (by simp)]
    simp only [List.length_map, Nat.zero_le, Nat.zero_add, true_and, Nat.sub_zero]
    have h16' : 4 * r.val + c.val < 16 := by omega
    by_cases hn : 4 * r.val + c.val < (it :: rest).length
    · have h1 : 4 * r.val + c.val < (it :: rest).length ∧ 4 * r.val + c.val < 16 := ⟨hn, h16'⟩
      have h2 : 4 * r.val + c.val < min (it :: rest).length 16 := by omega
      rw [if_pos h1, if_pos h2]
    · have h1 : ¬ (4 * r.val + c.val < (it :: rest).length ∧ 4 * r.val + c.val < 16) :=
        fun h => hn h.1
      have h2 : ¬ 4 * r.val + c.val < min (it :: rest).length 16 := by omega
      rw [if_neg h1, if_neg h2, List.getD_eq_getElem?_getD, List.getElem?_replicate]
      split <;> rfl
  · simp only [hq, if_false]

/-- C2, an instance: the line `read_mat MAT_A, 1,2,3,4,5,6,7,8,9,10,11,12,13,14,15,16`, read
with a scan of decimal integers into registers that held `7` everywhere, reports no fault and
leaves `MAT_A` with the rows `1 2 3 4`, `5 6 7 8`, `9 10 11 12`, `13 14 15 16`. -/
theorem read_mat_line_loads_values_witness :
    readMatLine .MAT_A sixteenItems
      = "read_mat MAT_A, 1,2,3,4,5,6,7,8,9,10,11,12,13,14,15,16".toList ∧
    sixteenItems ≠ [] ∧ (∀ it ∈ sixteenItems, IsLiteral strtodDigits it) ∧
    analyze_input strtodDigits (readMatLine .MAT_A sixteenItems) (fun _ _ _ => 7)
      = done (fun q => if q = .MAT_A then fun r c =>
          if 4 * r.val + c.val < min sixteenItems.length 16
          then (sixteenItems.map (fun it => it.val)).getD (4 * r.val + c.val) 0 else 0
        else (fun _ _ _ => 7) q) :=
  ⟨by decide, List.cons_ne_nil _ _, sixteenItems_literal,
    read_mat_line_loads_values strtodDigits .MAT_A _ sixteenItems (List.cons_ne_nil _ _)
      sixteenItems_literal⟩

/-- C3: what the code does instead of the load rule when `size < 4`: `read_mat` leaves every
cell of the rows `size .. 3` with the content it had before the call. -/
theorem read_mat_keeps_rows_from_size {ι α : Type} [DecidableEq ι] [Zero α]
    (m : ι) (val : List α) (size : Nat) (h : Heap ι α) (r c : Fin 4) (hr : size ≤ r.val) :
    read_mat m val size h m r c = h m r c := by
  have : ¬ r.val < size := by omega
  simp [read_mat_eq, this]

/-- C3, the failing input: `read_mat(&M, {0}, 1)` on a matrix `M` holding `7` everywhere
leaves `M[1][0] = 7`, where the load rule asks for `0`. -/
theorem read_mat_keeps_rows_from_size_witness :
    1 ≤ (1 : Fin 4).val ∧
    read_mat () [0] 1 (fun _ _ _ => (7 : Int)) () 1 0 = 7 ∧
    loadRule [(0 : Int)] 1 1 0 = 0 :=
  ⟨by decide, read_mat_keeps_rows_from_size () [0] 1 _ 1 0 (by decide), by decide⟩

/-- C4: for any three locations, distinct or not, `mul_mat(A, B, C)` leaves in every cell
`(i, j)` of `C` the sum over `k = 0..3` of `A0[i][k] * B0[k][j]`, accumulated from `0` in that
order, where `A0` and `B0` are the operands before the call; in particular `mul_mat(A, A, A)`
leaves the square of the prior value of `A`. -/
theorem mul_mat_computes_product {ι α : Type} [DecidableEq ι] [Add α] [Mul α] [Zero α]
    (A B C : ι) (h : Heap ι α) (i j : Fin 4) :
    mul_mat A B C h C i j
        = 0 + h A i 0 * h B 0 j + h A i 1 * h B 1 j + h A i 2 * h B 2 j + h A i 3 * h B 3 j ∧
    mul_mat A A A h A i j
        = 0 + h A i 0 * h A 0 j + h A i 1 * h A 1 j + h A i 2 * h A 2 j + h A i 3 * h A 3 j := by
  constructor <;> simp [mul_mat_eq, dot]

/-- C5: for any two locations, also when they are the same, `trans_mat(A, B)` leaves
`B[i][j] = A0[j][i]` for all `i`, `j`, where `A0` is `A` before the call. -/
theorem trans_mat_transposes {ι α : Type} [DecidableEq ι] [Zero α]
    (A B : ι) (h : Heap ι α) (i j : Fin 4) :
    trans_mat A B h B i j = h A j i := by
  simp [trans_mat_eq]

/-- C6: transposing a matrix and then transposing the result yields the matrix one started
from, in every cell, whatever locations hold the argument, the intermediate result and the
final result. -/
theorem trans_mat_twice {ι α : Type} [DecidableEq ι] [Zero α]
    (A B C : ι) (h : Heap ι α) (i j : Fin 4) :
    trans_mat B C (trans_mat A B h) C i j = h A i j := by
  simp [trans_mat_eq]

/-- C7, as stated, fails in double arithmetic: with `1.0` in every cell of `MAT_A` and
`9007199254740992.0` in every cell of `MAT_B`, `add_mat MAT_A, MAT_B, MAT_C` followed by
`sub_mat MAT_C, MAT_B, MAT_C` leaves `0.0` in `MAT_C[0][0]`, not `1.0`. -/
theorem add_then_sub_loses_value :
    (sub_mat Reg.MAT_C Reg.MAT_B Reg.MAT_C
        (add_mat Reg.MAT_A Reg.MAT_B Reg.MAT_C roundingRegs)) Reg.MAT_C 0 0 = ⟨0⟩ ∧
    roundingRegs Reg.MAT_A 0 0 = ⟨1⟩ ∧
    ¬ (∀ i j, (sub_mat Reg.MAT_C Reg.MAT_B Reg.MAT_C
        (add_mat Reg.MAT_A Reg.MAT_B Reg.MAT_C roundingRegs)) Reg.MAT_C i j
          = roundingRegs Reg.MAT_A i j) := by
  have h1 : (sub_mat Reg.MAT_C Reg.MAT_B Reg.MAT_C
      (add_mat Reg.MAT_A Reg.MAT_B Reg.MAT_C roundingRegs)) Reg.MAT_C 0 0 = ⟨0⟩ := by
    rw [sub_mat_eq, add_mat_eq]
    decide
  refine ⟨h1, rfl, fun h => ?_⟩
  have h2 := h 0 0
  rw [h1] at h2
  exact absurd h2 (by decide)

/-- C7, amended: for all matrices `A` and `B` (`B` held at a location other than `C`),
`add_mat(A, B, C)` followed by `sub_mat(C, B, C)` leaves in every cell of `C` the value
`(A0[i][j] + B0[i][j]) - B0[i][j]` computed in the arithmetic of the cells; where that
arithmetic is exact (an additive group) this is `A0[i][j]`. -/
theorem add_then_sub_cells :
    (∀ (ι α : Type) [DecidableEq ι] [Add α] [Sub α] (A B C : ι) (h : Heap ι α) (i j : Fin 4),
      B ≠ C → (sub_mat C B C (add_mat A B C h)) C i j = (h A i j + h B i j) - h B i j) ∧
    (∀ (ι α : Type) [DecidableEq ι] [AddGroup α] (A B C : ι) (h : Heap ι α) (i j : Fin 4),
      B ≠ C → (sub_mat C B C (add_mat A B C h)) C i j = h A i j) := by
  constructor
  · intro ι α _ _ _ A B C h i j hBC
    simp [sub_mat_eq, add_mat_eq, hBC]
  · intro ι α _ _ A B C h i j hBC
    simp [sub_mat_eq, add_mat_eq, hBC]

/-- C7, amended, an instance: integer cells `3` in `MAT_A` and `4` in `MAT_B`. -/
theorem add_then_sub_cells_witness :
    Reg.MAT_B ≠ Reg.MAT_C ∧
    (sub_mat Reg.MAT_C Reg.MAT_B Reg.MAT_C (add_mat Reg.MAT_A Reg.MAT_B Reg.MAT_C
      (fun q _ _ => if q = Reg.MAT_A then (3 : Int) else 4))) Reg.MAT_C 0 0 = 3 :=
  ⟨by decide, add_then_sub_cells.2 Reg Int Reg.MAT_A Reg.MAT_B Reg.MAT_C _ 0 0 (by decide)⟩

/-- C8: for every matrix `A` and scalar `s`, `mul_scalar(A, s, B)` leaves
`B[i][j] = A0[i][j] * s` in all 16 cells; when multiplying by `1` changes no value,
`mul_scalar(A, 1, B)` leaves `B` equal to `A` in every cell. -/
theorem mul_scalar_cells {ι α : Type} [DecidableEq ι] [Mul α] [One α]
    (A B : ι) (h : Heap ι α) (i j : Fin 4) :
    (∀ s : α, mul_scalar A s B h B i j = h A i j * s) ∧
    ((∀ a : α, a * 1 = a) → mul_scalar A 1 B h B i j = h A i j) := by
  constructor
  · intro s
    simp [mul_scalar_eq]
  · intro h1
    simp [mul_scalar_eq, h1]

/-- C8, an instance: integer cells, scalar `1`. -/
theorem mul_scalar_cells_witness :
    (∀ a : Int, a * 1 = a) ∧
    mul_scalar Reg.MAT_A (1 : Int) Reg.MAT_B (fun q _ _ => if q = Reg.MAT_A then 3 else 4)
      Reg.MAT_B 2 1 = 3 :=
  ⟨Int.mul_one, (mul_scalar_cells Reg.MAT_A Reg.MAT_B _ 2 1).2 Int.mul_one⟩

/-- C9: for every choice of registers `R1`, `R2`, `R3`, distinct or not, and every register
state, the line `add_mat R1, R2, R3` reports no fault and sets `R3[i][j] = R1[i][j] + R2[i][j]`,
and the line `sub_mat R1, R2, R3` sets `R3[i][j] = R1[i][j] - R2[i][j]`, both computed from the
values held before the command; when `0 + 0` is `0`, `add_mat MAT_A, MAT_B, MAT_C` on zeroed
registers leaves `MAT_C` all zeros. -/
theorem add_sub_lines {α : Type} [Add α] [Sub α] [Mul α] [Zero α]
    (strtod : List Char → α × Nat) (R1 R2 R3 : Reg) (σ : Heap Reg α) :
    analyze_input strtod
        ("add_mat ".toList ++ R1.name ++ ", ".toList ++ R2.name ++ ", ".toList ++ R3.name) σ
      = done (fun q => if q = R3 then fun i j => σ R1 i j + σ R2 i j else σ q) ∧
    analyze_input strtod
        ("sub_mat ".toList ++ R1.name ++ ", ".toList ++ R2.name ++ ", ".toList ++ R3.name) σ
      = done (fun q => if q = R3 then fun i j => σ R1 i j - σ R2 i j else σ q) ∧
    ((0 : α) + 0 = 0 →
      analyze_input strtod "add_mat MAT_A, MAT_B, MAT_C".toList (fun _ _ _ => 0)
        = done (fun _ _ _ => 0)) := by
  have hadd := analyze_add_line strtod R1 R2 R3 σ
  have hsub := analyze_sub_line strtod R1 R2 R3 σ
  have hzero : analyze_input strtod "add_mat MAT_A, MAT_B, MAT_C".toList (fun _ _ _ => 0)
      = done (add_mat Reg.MAT_A Reg.MAT_B Reg.MAT_C (fun _ _ _ => (0 : α))) := rfl
  refine ⟨?_, ?_, ?_⟩
  · rw [hadd, add_mat_eq]
  · rw [hsub, sub_mat_eq]
  · intro h0
    rw [hzero, add_mat_eq]
    refine congrArg done ?_
    funext q i j
    by_cases hq : q = Reg.MAT_C <;> simp [hq, h0]

/-- C9, an instance: integer registers, where `0 + 0 = 0`. -/
theorem add_sub_lines_witness :
    (0 : Int) + 0 = 0 ∧
    analyze_input strtodDigits "add_mat MAT_A, MAT_B, MAT_C".toList (fun _ _ _ => 0)
      = done (fun _ _ _ => 0) :=
  ⟨rfl, (add_sub_lines strtodDigits Reg.MAT_A Reg.MAT_B Reg.MAT_C (fun _ _ _ => 0)).2.2 rfl⟩

/-- C10: after `analyze_input` every register other than the destination of the command is
unchanged: a register whose content changed is the first operand of a `read_mat` line or the
last operand of a `trans_mat`, `mul_scalar`, `add_mat`, `sub_mat` or `mul_mat` line; no other
line, `print_mat` included, changes a register. -/
theorem only_destination_changes {α : Type} [Add α] [Sub α] [Mul α] [Zero α]
    (strtod : List Char → α × Nat) (hs : StaysInText strtod) (line : List Char)
    (σ : Heap Reg α) (R : Reg) :
    (analyze_input strtod line σ).regs R ≠ σ R → destination line = some R := by
  intro hne
  rcases analyze_input_shape strtod line σ with h | ⟨-, d, hd, hframe⟩
  · exact absurd (by rw [h]) hne
  · by_cases hR : R = d
    · rw [hR]; exact hd hs
    · exact absurd (hframe R hR) hne

/-- C10, an instance: `mul_scalar MAT_A, 2, MAT_B` on registers holding `1` everywhere
changes `MAT_B`, the last operand of the line. -/
theorem only_destination_changes_witness :
    StaysInText strtodDigits ∧
    (analyze_input strtodDigits "mul_scalar MAT_A, 2, MAT_B".toList (fun _ _ _ => 1)).regs
        Reg.MAT_B ≠ (fun _ _ => 1) ∧
    destination "mul_scalar MAT_A, 2, MAT_B".toList = some Reg.MAT_B :=
  ⟨strtodDigits_staysInText,
    fun h => absurd (congrFun (congrFun h 0) 0) (by decide),
    only_destination_changes strtodDigits strtodDigits_staysInText _ (fun _ _ _ => 1) Reg.MAT_B
      (fun h => absurd (congrFun (congrFun h 0) 0) (by decide))⟩

/-- C11, the failing lines: `stop`, white space, then a single character that is neither
white space nor a comma. `handle_stop` steps over that character before it looks for
extraneous text, so no fault is reported and the process ends with status 0. -/
theorem stop_with_one_character_exits {α : Type} [Add α] [Sub α] [Mul α] [Zero α]
    (strtod : List Char → α × Nat) (ws1 ws2 : List Char) (c : Char) (σ : Heap Reg α)
    (hws1 : ∀ a ∈ ws1, isspace a = true) (hws2 : ∀ a ∈ ws2, isspace a = true)
    (hne : ws2 ≠ []) (hc : isspace c = false) (hcomma : c ≠ ',') :
    analyze_input strtod (ws1 ++ "stop".toList ++ ws2 ++ [c]) σ = stop σ := by
  rw [analyze_line strtod ws1 "stop".toList ws2 [c] σ (by decide) hws1 hws2 (Or.inl hne) hc]
  have hcmd : first_Word_analysis "stop".toList = .STOP := by decide
  rw [hcmd]
  unfold analyze_operands
  have h1 : deref [c] = c := rfl
  have h2 : handle_stop [c] σ = stop σ := by
    unfold handle_stop
    rw [EXTRANEOUS_TEXT_eq]
    exact if_pos (Or.inl rfl)
  rw [ILLEGAL_COMMA_eq, h1, if_neg hcomma, if_pos rfl, h2]
  rfl

/-- C11, the failing input: the line `stop x` reports no fault and ends the process with
status 0. -/
theorem stop_with_one_character_exits_witness :
    (∀ a ∈ ([] : List Char), isspace a = true) ∧ (∀ a ∈ [' '], isspace a = true) ∧
    [' '] ≠ [] ∧ isspace 'x' = false ∧ 'x' ≠ ',' ∧
    "stop x".toList = [] ++ "stop".toList ++ [' '] ++ ['x'] ∧
    analyze_input strtodDigits ([] ++ "stop".toList ++ [' '] ++ ['x']) (fun _ _ _ => 0)
      = stop (fun _ _ _ => 0) ∧
    (stop (fun _ _ _ => (0 : Int))).exit = some 0 ∧
    (stop (fun _ _ _ => (0 : Int))).errors = [] :=
  ⟨by decide, by decide, by decide, by decide, by decide, by decide,
    stop_with_one_character_exits strtodDigits [] [' '] 'x' _ (by decide) (by decide)
      (by decide) (by decide) (by decide), rfl, rfl⟩

/-- C12, the failing input and the extent of the defect: the line `stop extra` reports two
faults, extraneous text and then an undefined matrix name, because `analyze_input` goes on
after `handle_stop` has returned; every line whose first word is not `stop` reports at most
one fault. -/
theorem faults_per_line {α : Type} [Add α] [Sub α] [Mul α] [Zero α]
    (strtod : List Char → α × Nat) (σ : Heap Reg α) :
    (analyze_input strtod "stop extra".toList σ).errors = [EXT_TXT_ERR, UNDEFINED_MAT_ERR] ∧
    (analyze_input strtod "stop extra".toList σ).exit = none ∧
    (∀ line : List Char, wordAt (MOVE_TO_NON_WHITE line) ≠ "stop".toList →
      (analyze_input strtod line σ).errors.length ≤ 1) := by
  refine ⟨rfl, rfl, fun line h => (analyze_input_not_stop strtod line σ h).1⟩

/-- C12, an instance of the bound: the line `print_mat MAT_Z` reports one fault. -/
theorem faults_per_line_witness :
    wordAt (MOVE_TO_NON_WHITE "print_mat MAT_Z".toList) ≠ "stop".toList ∧
    (analyze_input strtodDigits "print_mat MAT_Z".toList (fun _ _ _ => 0)).errors.length ≤ 1 ∧
    (analyze_input strtodDigits "print_mat MAT_Z".toList (fun _ _ _ => 0)).errors
      = [UNDEFINED_MAT_ERR] :=
  ⟨by decide,
    (faults_per_line strtodDigits (fun _ _ _ => 0)).2.2 "print_mat MAT_Z".toList (by decide),
    by decide⟩

/-- C13, what the code does: for the line `stop` with optional white space around it and every
register state, `analyze_input` prints the farewell message and terminates the process with
exit status 0 exactly when the character stored behind the terminator of the line is a
terminator or a line feed. The line ends at `tl` (the end of the list or a terminator);
`handle_stop` receives the cursor on that terminator, moves it by one and tests the character
behind it. For every other character there the line is reported as text after the command,
then as a missing argument, nothing is printed and the process goes on. -/
theorem stop_line_exit {α : Type} [Add α] [Sub α] [Mul α] [Zero α]
    (strtod : List Char → α × Nat) (ws1 ws2 tl : List Char) (σ : Heap Reg α)
    (hws1 : ∀ a ∈ ws1, isspace a = true) (hws2 : ∀ a ∈ ws2, isspace a = true)
    (hend : deref tl = NUL) :
    ((analyze_input strtod (ws1 ++ "stop".toList ++ ws2 ++ tl) σ).exit = some 0
      ↔ deref tl.tail = NUL ∨ deref tl.tail = '\n') ∧
    (deref tl.tail = NUL ∨ deref tl.tail = '\n' →
      analyze_input strtod (ws1 ++ "stop".toList ++ ws2 ++ tl) σ
        = { regs := σ, errors := [], out := [.text EXIT_MESSAGE], exit := some 0 }) ∧
    (¬ (deref tl.tail = NUL ∨ deref tl.tail = '\n') →
      analyze_input strtod (ws1 ++ "stop".toList ++ ws2 ++ tl) σ
        = { regs := σ, errors := [EXT_TXT_ERR, NO_ARGS_ERR], out := [], exit := none }) := by
  rw [analyze_line strtod ws1 "stop".toList ws2 tl σ (by decide) hws1 hws2 (Or.inr hend)
    (by rw [hend]; decide)]
  have hcmd : first_Word_analysis "stop".toList = .STOP := by decide
  have h3 : deref tl ≠ ',' := by rw [hend]; decide
  have hyes : (deref tl.tail = NUL ∨ deref tl.tail = '\n') →
      analyze_operands strtod (first_Word_analysis "stop".toList) tl σ
        = { regs := σ, errors := [], out := [.text EXIT_MESSAGE], exit := some 0 } := by
    intro hafter
    rw [hcmd]
    unfold analyze_operands
    have h2 : handle_stop tl σ = stop σ := by
      unfold handle_stop
      rw [EXTRANEOUS_TEXT_eq]
      exact if_pos hafter
    rw [ILLEGAL_COMMA_eq, if_neg h3, if_pos rfl, h2]
    rfl
  have hno : ¬ (deref tl.tail = NUL ∨ deref tl.tail = '\n') →
      analyze_operands strtod (first_Word_analysis "stop".toList) tl σ
        = { regs := σ, errors := [EXT_TXT_ERR, NO_ARGS_ERR], out := [], exit := none } := by
    intro hafter
    rw [hcmd]
    unfold analyze_operands
    have h2 : handle_stop tl σ = fault σ EXT_TXT_ERR := by
      unfold handle_stop
      rw [EXTRANEOUS_TEXT_eq]
      exact if_neg hafter
    rw [ILLEGAL_COMMA_eq, if_neg h3, if_pos rfl, h2]
    simp only [MISSING_ARGUMENT_eq, hend, if_true]
    rfl
  refine ⟨⟨fun h => ?_, fun h => by rw [hyes h]⟩, hyes, hno⟩
  by_contra hafter
  rw [hno hafter] at h
  exact absurd h (by simp)

/-- C13, the failing input: the line `stop` in a buffer that holds the character `x` behind the
terminator reports two faults and does not end the process; the line `  stop  ` at the end of
which the buffer ends stops it with status 0. -/
theorem stop_line_exit_witness :
    (∀ a ∈ ([] : List Char), isspace a = true) ∧ deref [NUL, 'x'] = NUL ∧
    ¬ (deref [NUL, 'x'].tail = NUL ∨ deref [NUL, 'x'].tail = '\n') ∧
    analyze_input strtodDigits ([] ++ "stop".toList ++ [] ++ [NUL, 'x']) (fun _ _ _ => 3)
      = { regs := fun _ _ _ => 3, errors := [EXT_TXT_ERR, NO_ARGS_ERR], out := [],
          exit := none } ∧
    (∀ a ∈ [' ', ' '], isspace a = true) ∧
    "  stop  ".toList = [' ', ' '] ++ "stop".toList ++ [' ', ' '] ++ [] ∧
    analyze_input strtodDigits ([' ', ' '] ++ "stop".toList ++ [' ', ' '] ++ []) (fun _ _ _ => 3)
      = { regs := fun _ _ _ => 3, errors := [], out := [.text EXIT_MESSAGE], exit := some 0 } :=
  ⟨by decide, rfl, by decide,
    (stop_line_exit strtodDigits [] [] [NUL, 'x'] (fun _ _ _ => 3) (by decide) (by decide)
      rfl).2.2 (by decide),
    by decide, by decide,
    (stop_line_exit strtodDigits [' ', ' '] [' ', ' '] [] (fun _ _ _ => 3) (by decide)
      (by decide) rfl).2.1 (Or.inl rfl)⟩

/-- C14, against the claim: when the input ends at once, and when it ends after the text
`stop` without a line feed, `get_line` reports the premature end of the input and terminates
the process with exit status 0, which is not a failure status. -/
theorem end_of_input_exit_status :
    get_line (fun _ => none) [] (fun _ => NUL) = .exited [EOF_ERR] [] 0 ∧
    get_line (fun _ => none) "stop".toList (fun _ => NUL) = .exited [EOF_ERR] [] 0 ∧
    (0 : Nat) ≠ EXIT_FAILURE :=
  ⟨rfl, rfl, by decide⟩

/-- C14, amended: when the input ends before a line feed and no reallocation of the buffer
fails, `get_line` passes the message of the premature end of the input to `error_handling`
and terminates the process with exit status 0. -/
theorem get_line_end_of_input (realloc : Nat → Option (Nat → Char)) (stdin : List Char)
    (line : Nat → Char) (hnl : '\n' ∉ stdin) (hmem : ∀ n, realloc n ≠ none) :
    get_line realloc stdin line = .exited [EOF_ERR] [] 0 :=
  get_line_loop_eof realloc stdin hnl hmem 0 line INIT_LINE_SIZE

/-- C14, amended, an instance: the input `print_mat MAT_A` without a line feed. -/
theorem get_line_end_of_input_witness :
    '\n' ∉ "print_mat MAT_A".toList ∧
    get_line (fun _ => some (fun _ => NUL)) "print_mat MAT_A".toList (fun _ => NUL)
      = .exited [EOF_ERR] [] 0 :=
  ⟨by decide,
    get_line_end_of_input (fun _ => some (fun _ => NUL)) "print_mat MAT_A".toList
      (fun _ => NUL) (by decide) (fun _ => by simp)⟩

/-- C15, what the code does: for every line whose first word is not exactly `stop`,
`analyze_input` returns without terminating the process, with one exception. When the line is
not blank, its first word is no command name and white space precedes that word, the fault of
the undefined command is followed by `free(userInput)` on the cursor that
`MOVE_TO_NON_WHITE` has moved away from the start of the block: the process is ended by
`abort`, the fault having been reported and the registers being unchanged. -/
theorem only_stop_terminates {α : Type} [Add α] [Sub α] [Mul α] [Zero α]
    (strtod : List Char → α × Nat) (line : List Char) (σ : Heap Reg α)
    (hstop : wordAt (MOVE_TO_NON_WHITE line) ≠ "stop".toList) :
    ((analyze_input strtod line σ).exit = some ABORTED ↔
      deref (MOVE_TO_NON_WHITE line) ≠ NUL ∧ wordAt (MOVE_TO_NON_WHITE line) ∉ funcNames ∧
      MOVE_TO_NON_WHITE line ≠ line) ∧
    ((analyze_input strtod line σ).exit ≠ some ABORTED →
      (analyze_input strtod line σ).exit = none) ∧
    ((analyze_input strtod line σ).exit = some ABORTED →
      (analyze_input strtod line σ).errors = [UNDEFINED_CMD] ∧
      (analyze_input strtod line σ).regs = σ) :=
  (analyze_input_not_stop strtod line σ hstop).2

/-- C15, the failing input: the line `  foo` ends the process; the lines `foo bar`, `stop,`
and `  print_mat MAT_Z` do not. -/
theorem only_stop_terminates_witness :
    wordAt (MOVE_TO_NON_WHITE "  foo".toList) ≠ "stop".toList ∧
    (analyze_input strtodDigits "  foo".toList (fun _ _ _ => 0)).exit = some ABORTED ∧
    (analyze_input strtodDigits "  foo".toList (fun _ _ _ => 0)).errors = [UNDEFINED_CMD] ∧
    ABORTED = 134 ∧
    (analyze_input strtodDigits "foo bar".toList (fun _ _ _ => 0)).exit = none ∧
    (analyze_input strtodDigits "stop,".toList (fun _ _ _ => 0)).exit = none ∧
    (analyze_input strtodDigits "  print_mat MAT_Z".toList (fun _ _ _ => 0)).exit = none :=
  ⟨by decide,
    (only_stop_terminates strtodDigits "  foo".toList _ (by decide)).1.mpr
      ⟨by decide, by decide, by decide⟩,
    ((only_stop_terminates strtodDigits "  foo".toList (fun _ _ _ => 0) (by decide)).2.2
      ((only_stop_terminates strtodDigits "  foo".toList (fun _ _ _ => 0) (by decide)).1.mpr
        ⟨by decide, by decide, by decide⟩)).1,
    rfl,
    (only_stop_terminates strtodDigits "foo bar".toList _ (by decide)).2.1
      (fun h => absurd
        ((only_stop_terminates strtodDigits "foo bar".toList _ (by decide)).1.mp h).2.2
        (by decide)),
    (only_stop_terminates strtodDigits "stop,".toList _ (by decide)).2.1
      (fun h => absurd
        ((only_stop_terminates strtodDigits "stop,".toList _ (by decide)).1.mp h).2.2
        (by decide)),
    (only_stop_terminates strtodDigits "  print_mat MAT_Z".toList _ (by decide)).2.1
      (fun h => absurd
        ((only_stop_terminates strtodDigits "  print_mat MAT_Z".toList _ (by decide)).1.mp h).2.1
        (by decide))⟩

/-- C16: `first_Word_analysis` returns the command tag `k` if and only if the word at the
cursor (the characters up to the first white space or terminator) is, character for
character, the `k`-th name of the table, and the undefined tag if and only if the word is no
name of the table; so `stop,`, `READ_MAT`, `sto` and `stopp` are undefined. -/
theorem first_Word_analysis_iff (p : List Char) :
    (∀ k : Fin funcNames.length,
      first_Word_analysis p = CommandType.ofIndex k.val ↔ wordAt p = funcNames.get k) ∧
    (first_Word_analysis p = .NONE_FUNC ↔ wordAt p ∉ funcNames) ∧
    first_Word_analysis "stop,".toList = .NONE_FUNC ∧
    first_Word_analysis "READ_MAT".toList = .NONE_FUNC ∧
    first_Word_analysis "sto".toList = .NONE_FUNC ∧
    first_Word_analysis "stopp".toList = .NONE_FUNC := by
  refine ⟨?_, ?_, by decide, by decide, by decide, by decide⟩
  · intro k
    rw [first_Word_analysis_eq]
    generalize wordAt p = w
    by_cases e0 : w = "read_mat".toList
    · subst e0; revert k; decide
    by_cases e1 : w = "print_mat".toList
    · subst e1; revert k; decide
    by_cases e2 : w = "add_mat".toList
    · subst e2; revert k; decide
    by_cases e3 : w = "sub_mat".toList
    · subst e3; revert k; decide
    by_cases e4 : w = "mul_mat".toList
    · subst e4; revert k; decide
    by_cases e5 : w = "mul_scalar".toList
    · subst e5; revert k; decide
    by_cases e6 : w = "trans_mat".toList
    · subst e6; revert k; decide
    by_cases e7 : w = "stop".toList
    · subst e7; revert k; decide
    rw [if_neg e0, if_neg e1, if_neg e2, if_neg e3, if_neg e4, if_neg e5, if_neg e6, if_neg e7]
    revert k
    intro k
    fin_cases k
    · exact ⟨fun h => (by cases h), fun h => absurd h e0⟩
    · exact ⟨fun h => (by cases h), fun h => absurd h e1⟩
    · exact ⟨fun h => (by cases h), fun h => absurd h e2⟩
    · exact ⟨fun h => (by cases h), fun h => absurd h e3⟩
    · exact ⟨fun h => (by cases h), fun h => absurd h e4⟩
    · exact ⟨fun h => (by cases h), fun h => absurd h e5⟩
    · exact ⟨fun h => (by cases h), fun h => absurd h e6⟩
    · exact ⟨fun h => (by cases h), fun h => absurd h e7⟩
  · rw [first_Word_analysis_eq]
    generalize wordAt p = w
    by_cases e0 : w = "read_mat".toList
    · subst e0; decide
    by_cases e1 : w = "print_mat".toList
    · subst e1; decide
    by_cases e2 : w = "add_mat".toList
    · subst e2; decide
    by_cases e3 : w = "sub_mat".toList
    · subst e3; decide
    by_cases e4 : w = "mul_mat".toList
    · subst e4; decide
    by_cases e5 : w = "mul_scalar".toList
    · subst e5; decide
    by_cases e6 : w = "trans_mat".toList
    · subst e6; decide
    by_cases e7 : w = "stop".toList
    · subst e7; decide
    rw [if_neg e0, if_neg e1, if_neg e2, if_neg e3, if_neg e4, if_neg e5, if_neg e6, if_neg e7]
    simp only [funcNames, List.mem_cons, List.mem_singleton, List.not_mem_nil, or_false, true_iff]
    intro h
    rcases h with h | h | h | h | h | h | h | h
    · exact e0 h
    · exact e1 h
    · exact e2 h
    · exact e3 h
    · exact e4 h
    · exact e5 h
    · exact e6 h
    · exact e7 h

/-- C17: `whichMatrix` returns register `R`, and `getMatrix` the matching tag, if and only
if the five characters at the cursor are the name of `R`, whatever follows them (`MAT_AB`
resolves to `MAT_A`); both return none for every other text, such as a text shorter than five
characters or a lower-case name. -/
theorem register_resolution_iff (p : List Char) :
    (∀ R : Reg, whichMatrix p = some R ↔ p.take MAX_MAT_NAME = R.name) ∧
    (∀ k : Fin matrices.length,
      getMatrix p = Matrix.ofIndex k.val ↔ p.take MAX_MAT_NAME = matrices.get k) ∧
    (whichMatrix p = none ↔ p.take MAX_MAT_NAME ∉ matrices) ∧
    (getMatrix p = .NONE_MATRIX ↔ p.take MAX_MAT_NAME ∉ matrices) ∧
    whichMatrix "MAT_AB".toList = some .MAT_A ∧
    whichMatrix "MAT_".toList = none ∧
    whichMatrix "mat_a".toList = none := by
  have hmem : ∀ w : List Char, w ∈ matrices ↔ ∃ R : Reg, w = R.name := by
    intro w
    constructor
    · intro h
      simp only [matrices, List.mem_cons, List.mem_singleton, List.not_mem_nil, or_false] at h
      rcases h with h | h | h | h | h | h
      · exact ⟨.MAT_A, h⟩
      · exact ⟨.MAT_B, h⟩
      · exact ⟨.MAT_C, h⟩
      · exact ⟨.MAT_D, h⟩
      · exact ⟨.MAT_E, h⟩
      · exact ⟨.MAT_F, h⟩
    · rintro ⟨R, rfl⟩
      cases R <;> decide
  have hnone : whichMatrix p = none ↔ p.take MAX_MAT_NAME ∉ matrices := by
    rw [whichMatrix_eq_none, hmem]
    constructor
    · rintro h ⟨R, hR⟩
      exact h R hR
    · intro h R hR
      exact h ⟨R, hR⟩
  refine ⟨?_, ?_, hnone, ?_, by decide, by decide, by decide⟩
  · intro R
    have h5 : R.name.length = 5 := by cases R <;> rfl
    rw [whichMatrix_eq_some, take_eq_name_iff, h5]
    rfl
  · intro k
    rw [getMatrix_eq]
    show _ ↔ p.take 5 = matrices.get k
    generalize p.take 5 = w
    by_cases e0 : w = "MAT_A".toList
    · subst e0; revert k; decide
    by_cases e1 : w = "MAT_B".toList
    · subst e1; revert k; decide
    by_cases e2 : w = "MAT_C".toList
    · subst e2; revert k; decide
    by_cases e3 : w = "MAT_D".toList
    · subst e3; revert k; decide
    by_cases e4 : w = "MAT_E".toList
    · subst e4; revert k; decide
    by_cases e5 : w = "MAT_F".toList
    · subst e5; revert k; decide
    rw [if_neg e0, if_neg e1, if_neg e2, if_neg e3, if_neg e4, if_neg e5]
    fin_cases k
    · exact ⟨fun h => (by cases h), fun h => absurd h e0⟩
    · exact ⟨fun h => (by cases h), fun h => absurd h e1⟩
    · exact ⟨fun h => (by cases h), fun h => absurd h e2⟩
    · exact ⟨fun h => (by cases h), fun h => absurd h e3⟩
    · exact ⟨fun h => (by cases h), fun h => absurd h e4⟩
    · exact ⟨fun h => (by cases h), fun h => absurd h e5⟩
  · rw [← hnone]
    unfold whichMatrix
    cases getMatrix p <;> simp

/-- C18: for every line whose command is one of the seven commands other than `stop`, when
the first operand position holds a character that is not a comma and the five characters
there are the name of no register, `analyze_input` reports the undefined-matrix fault and
nothing else, leaves all registers unchanged and does not terminate the process. -/
theorem undefined_first_register {α : Type} [Add α] [Sub α] [Mul α] [Zero α]
    (strtod : List Char → α × Nat) (line : List Char) (σ : Heap Reg α)
    (hcmd : wordAt (MOVE_TO_NON_WHITE line) ∈ funcNames)
    (hstop : wordAt (MOVE_TO_NON_WHITE line) ≠ "stop".toList)
    (hpresent : deref (firstOperandText line) ≠ NUL)
    (hcomma : deref (firstOperandText line) ≠ ',')
    (hnone : ∀ R : Reg, (firstOperandText line).take 5 ≠ R.name) :
    analyze_input strtod line σ
      = { regs := σ, errors := [UNDEFINED_MAT_ERR], out := [], exit := none } := by
  have h1 := not_end_of_command_word _ hcmd
  have h2 : first_Word_analysis (MOVE_TO_NON_WHITE line) ≠ .NONE_FUNC :=
    fun h => (first_Word_analysis_none_iff _).mp h hcmd
  have h3 : first_Word_analysis (MOVE_TO_NON_WHITE line) ≠ .STOP :=
    fun h => hstop ((first_Word_analysis_stop_iff _).mp h)
  have h4 : whichMatrix (firstOperandText line) = none := (whichMatrix_eq_none _).mpr hnone
  rw [analyze_input_eq, h1, if_neg (by simp), if_neg h2]
  unfold analyze_operands
  rw [ILLEGAL_COMMA_eq, if_neg hcomma, if_neg h3, done_andThen, MISSING_ARGUMENT_eq,
    if_neg hpresent, h4]
  rfl

/-- C18, an instance: the line `print_mat MAT_Z`. -/
theorem undefined_first_register_witness :
    wordAt (MOVE_TO_NON_WHITE "print_mat MAT_Z".toList) ∈ funcNames ∧
    firstOperandText "print_mat MAT_Z".toList = "MAT_Z".toList ∧
    analyze_input strtodDigits "print_mat MAT_Z".toList (fun _ _ _ => 2)
      = { regs := fun _ _ _ => 2, errors := [UNDEFINED_MAT_ERR], out := [], exit := none } :=
  ⟨by decide, by decide,
    undefined_first_register strtodDigits "print_mat MAT_Z".toList _ (by decide) (by decide)
      (by decide) (by decide) (fun R => by cases R <;> decide)⟩

/-- C19, against the claim: on the line `trans_mat MAT_A, MAT_Z` the text at the second
register is present and names no register, and the fault reported is "Missing argument",
not "Undefined matrix name". -/
theorem second_register_counterexample :
    whichMatrix "MAT_Z".toList = none ∧ deref "MAT_Z".toList ≠ NUL ∧
    (analyze_input strtodDigits "trans_mat MAT_A, MAT_Z".toList (fun _ _ _ => 0)).errors
      = [MISSING_ARG_ERR] ∧
    (analyze_input strtodDigits "trans_mat MAT_A, MAT_Z".toList (fun _ _ _ => 0)).errors
      ≠ [UNDEFINED_MAT_ERR] := by
  decide

/-- C19, amended: for `trans_mat`, `add_mat`, `sub_mat` and `mul_mat` at the second register,
for `add_mat`, `sub_mat` and `mul_mat` at the third register, and for `mul_scalar` at the
register after the scalar, when the text `X` at that position begins with neither white space
nor a comma and names none of the six registers, `analyze_input` reports the fault
"Missing argument" and nothing else, and leaves the registers unchanged. -/
theorem later_register_unresolved {α : Type} [Add α] [Sub α] [Mul α] [Zero α]
    (strtod : List Char → α × Nat) (ws1 ws2 ws3 ws4 ws5 ws6 lit X : List Char) (R1 R2 : Reg)
    (σ : Heap Reg α)
    (hws : ∀ ws ∈ [ws1, ws2, ws3, ws4, ws5, ws6], ∀ c ∈ ws, isspace c = true)
    (hne : ws2 ≠ []) (hX : isspace (deref X) = false) (hcomma : deref X ≠ ',')
    (hnone : whichMatrix X = none)
    (hlit : ∃ c t, lit = c :: t ∧ isspace c = false ∧ c ≠ ',' ∧ c ≠ NUL)
    (hscan : (strtod (lit ++ ws5 ++ ',' :: (ws6 ++ X))).2 = lit.length) :
    (∀ name ∈ ["trans_mat".toList, "add_mat".toList, "sub_mat".toList, "mul_mat".toList],
      analyze_input strtod
          (ws1 ++ name ++ ws2 ++ (R1.name ++ ws3 ++ ',' :: (ws4 ++ X))) σ
        = { regs := σ, errors := [MISSING_ARG_ERR], out := [], exit := none }) ∧
    (∀ name ∈ ["add_mat".toList, "sub_mat".toList, "mul_mat".toList],
      analyze_input strtod
          (ws1 ++ name ++ ws2 ++
            (R1.name ++ ws3 ++ ',' :: (ws4 ++ (R2.name ++ ws5 ++ ',' :: (ws6 ++ X))))) σ
        = { regs := σ, errors := [MISSING_ARG_ERR], out := [], exit := none }) ∧
    analyze_input strtod
        (ws1 ++ "mul_scalar".toList ++ ws2 ++
          (R1.name ++ ws3 ++ ',' :: (ws4 ++ (lit ++ ws5 ++ ',' :: (ws6 ++ X))))) σ
      = { regs := σ, errors := [MISSING_ARG_ERR], out := [], exit := none } := by
  have h1 := hws ws1 (by simp)
  have h2 := hws ws2 (by simp)
  have h3 := hws ws3 (by simp)
  have h4 := hws ws4 (by simp)
  have h5 := hws ws5 (by simp)
  have h6 := hws ws6 (by simp)
  have hM : ∀ Y, isspace (deref (R1.name ++ ws3 ++ Y)) = false := by
    intro Y
    obtain ⟨t, ht, -⟩ := Reg.name_eq R1
    rw [ht]
    rfl
  have hC : ∀ Y, isspace (deref (',' :: Y)) = false := fun _ => rfl
  refine ⟨?_, ?_, ?_⟩
  · intro name hname
    have hmem : name ∈ funcNames := by
      revert name; decide
    rw [analyze_line strtod ws1 name ws2 _ σ hmem h1 h2 (Or.inl hne) (hM _)]
    simp only [List.mem_cons, List.mem_singleton, List.not_mem_nil, or_false] at hname
    rcases hname with rfl | rfl | rfl | rfl
    · rw [analyze_operands_first strtod _ R1 ws3 _ σ (by decide) h3 (hC _)]
      exact handle_trans_mat_second ws4 X R1 σ h4 hX hcomma hnone
    all_goals
      rw [analyze_operands_first strtod _ R1 ws3 _ σ (by decide) h3 (hC _)]
      exact handle_add_sub_mul_second ws4 X R1 _ σ h4 hX hcomma hnone
  · intro name hname
    have hmem : name ∈ funcNames := by
      revert name; decide
    rw [analyze_line strtod ws1 name ws2 _ σ hmem h1 h2 (Or.inl hne) (hM _)]
    simp only [List.mem_cons, List.mem_singleton, List.not_mem_nil, or_false] at hname
    rcases hname with rfl | rfl | rfl
    all_goals
      rw [analyze_operands_first strtod _ R1 ws3 _ σ (by decide) h3 (hC _)]
      exact handle_add_sub_mul_third ws4 ws5 ws6 X R1 R2 _ σ h4 h5 h6 hX hnone
  · rw [analyze_line strtod ws1 "mul_scalar".toList ws2 _ σ (by decide) h1 h2 (Or.inl hne)
      (hM _)]
    rw [analyze_operands_first strtod _ R1 ws3 _ σ (by decide) h3 (hC _)]
    exact handle_mul_scalar_third strtod ws4 lit ws5 ws6 X R1 σ h4 h5 h6 hX hcomma hnone hlit
      hscan

/-- C19, amended, instances: the lines `trans_mat MAT_A, MAT_Z`, `mul_mat MAT_A, MAT_B, MAT_Z`
and `mul_scalar MAT_A, 2, MAT_Z` report "Missing argument". -/
theorem later_register_unresolved_witness :
    "trans_mat MAT_A, MAT_Z".toList
      = [] ++ "trans_mat".toList ++ [' '] ++
          (Reg.MAT_A.name ++ [] ++ ',' :: ([' '] ++ "MAT_Z".toList)) ∧
    "mul_mat MAT_A, MAT_B, MAT_Z".toList
      = [] ++ "mul_mat".toList ++ [' '] ++ (Reg.MAT_A.name ++ [] ++
          ',' :: ([' '] ++ (Reg.MAT_B.name ++ [] ++ ',' :: ([' '] ++ "MAT_Z".toList)))) ∧
    "mul_scalar MAT_A, 2, MAT_Z".toList
      = [] ++ "mul_scalar".toList ++ [' '] ++ (Reg.MAT_A.name ++ [] ++
          ',' :: ([' '] ++ (['2'] ++ [] ++ ',' :: ([' '] ++ "MAT_Z".toList)))) ∧
    ((∀ name ∈ ["trans_mat".toList, "add_mat".toList, "sub_mat".toList, "mul_mat".toList],
      analyze_input strtodDigits
          ([] ++ name ++ [' '] ++
            (Reg.MAT_A.name ++ [] ++ ',' :: ([' '] ++ "MAT_Z".toList))) (fun _ _ _ => 0)
        = { regs := fun _ _ _ => 0, errors := [MISSING_ARG_ERR], out := [], exit := none }) ∧
    (∀ name ∈ ["add_mat".toList, "sub_mat".toList, "mul_mat".toList],
      analyze_input strtodDigits
          ([] ++ name ++ [' '] ++ (Reg.MAT_A.name ++ [] ++
            ',' :: ([' '] ++ (Reg.MAT_B.name ++ [] ++ ',' :: ([' '] ++ "MAT_Z".toList)))))
          (fun _ _ _ => 0)
        = { regs := fun _ _ _ => 0, errors := [MISSING_ARG_ERR], out := [], exit := none }) ∧
    analyze_input strtodDigits
        ([] ++ "mul_scalar".toList ++ [' '] ++ (Reg.MAT_A.name ++ [] ++
          ',' :: ([' '] ++ (['2'] ++ [] ++ ',' :: ([' '] ++ "MAT_Z".toList)))))
        (fun _ _ _ => 0)
      = { regs := fun _ _ _ => 0, errors := [MISSING_ARG_ERR], out := [], exit := none }) :=
  ⟨by decide, by decide, by decide,
    later_register_unresolved strtodDigits [] [' '] [] [' '] [] [' '] ['2'] "MAT_Z".toList
      .MAT_A .MAT_B (fun _ _ _ => 0) (by decide) (by decide) (by decide) (by decide)
      (by decide) ⟨'2', [], rfl, by decide, by decide, by decide⟩ (by decide)⟩

/-- C20, the failing lines: for `add_mat`, `sub_mat` and `mul_mat`, a line that is well formed
up to and including the comma after the second register and whose next character other than
white space is a second comma reports "Missing argument", not "Multiple consecutive commas":
`handle_add_sub_mul` has no test for a second comma before the third register. At the comma
after the first register the same handler, like `handle_trans_mat` and `handle_mul_scalar`,
does report "Multiple consecutive commas". -/
theorem second_comma_before_third_register {α : Type} [Add α] [Sub α] [Mul α] [Zero α]
    (strtod : List Char → α × Nat) (ws1 ws2 ws3 ws4 ws5 ws6 tl : List Char) (R1 R2 : Reg)
    (σ : Heap Reg α)
    (hws : ∀ ws ∈ [ws1, ws2, ws3, ws4, ws5, ws6], ∀ c ∈ ws, isspace c = true)
    (hne : ws2 ≠ []) :
    (∀ name ∈ ["add_mat".toList, "sub_mat".toList, "mul_mat".toList],
      analyze_input strtod
          (ws1 ++ name ++ ws2 ++
            (R1.name ++ ws3 ++ ',' :: (ws4 ++ (R2.name ++ ws5 ++ ',' :: (ws6 ++ ',' :: tl))))) σ
        = fault σ MISSING_ARG_ERR) ∧
    MISSING_ARG_ERR ≠ UNNECESSARY_COMMA_ERR ∧
    (∀ name ∈ ["trans_mat".toList, "mul_scalar".toList, "add_mat".toList, "sub_mat".toList,
        "mul_mat".toList],
      analyze_input strtod (ws1 ++ name ++ ws2 ++ (R1.name ++ ws3 ++ ',' :: (ws4 ++ ',' :: tl))) σ
        = fault σ UNNECESSARY_COMMA_ERR) := by
  have h1 := hws ws1 (by simp)
  have h2 := hws ws2 (by simp)
  have h3 := hws ws3 (by simp)
  have h4 := hws ws4 (by simp)
  have h5 := hws ws5 (by simp)
  have h6 := hws ws6 (by simp)
  have hM : ∀ Y, isspace (deref (R1.name ++ ws3 ++ Y)) = false := by
    intro Y
    obtain ⟨t, ht, -⟩ := Reg.name_eq R1
    rw [ht]
    rfl
  have hC : ∀ Y, isspace (deref (',' :: Y)) = false := fun _ => rfl
  refine ⟨?_, by decide, ?_⟩
  · intro name hname
    have hmem : name ∈ funcNames := by
      revert name; decide
    rw [analyze_line strtod ws1 name ws2 _ σ hmem h1 h2 (Or.inl hne) (hM _)]
    simp only [List.mem_cons, List.mem_singleton, List.not_mem_nil, or_false] at hname
    rcases hname with rfl | rfl | rfl
    all_goals
      rw [analyze_operands_first strtod _ R1 ws3 _ σ (by decide) h3 (hC _)]
      exact handle_add_sub_mul_third ws4 ws5 ws6 (',' :: tl) R1 R2 _ σ h4 h5 h6 rfl rfl
  · intro name hname
    have hmem : name ∈ funcNames := by
      revert name; decide
    obtain ⟨c1, c2⟩ := comma_step ws4 (',' :: tl) h4 rfl
    have h0 : MOVE_TO_NON_WHITE (',' :: (ws4 ++ ',' :: tl)) = ',' :: (ws4 ++ ',' :: tl) :=
      MOVE_self _ rfl
    rw [analyze_line strtod ws1 name ws2 _ σ hmem h1 h2 (Or.inl hne) (hM _)]
    simp only [List.mem_cons, List.mem_singleton, List.not_mem_nil, or_false] at hname
    rcases hname with rfl | rfl | rfl | rfl | rfl
    all_goals
      rw [analyze_operands_first strtod _ R1 ws3 _ σ (by decide) h3 (hC _)]
    · show handle_trans_mat _ R1 σ = _
      unfold handle_trans_mat
      rw [MISSING_COMMA_eq, c2, if_pos rfl]
      simp only [c1]
      rw [MULTIPLE_CONSECUTIVE_COMMAS_eq]
      exact if_pos rfl
    · show handle_mul_scalar strtod _ R1 σ = _
      unfold handle_mul_scalar
      simp only [h0]
      rw [MISSING_COMMA_eq, c2, if_pos rfl]
      simp only [c1]
      rw [MULTIPLE_CONSECUTIVE_COMMAS_eq]
      exact if_pos rfl
    all_goals
      show handle_add_sub_mul _ R1 _ σ = _
      unfold handle_add_sub_mul
      rw [MISSING_COMMA_eq, c2, if_pos rfl]
      simp only [c1]
      rw [MULTIPLE_CONSECUTIVE_COMMAS_eq]
      exact if_pos rfl

/-- C20, the failing input: the line `add_mat MAT_A, MAT_B,, MAT_C` reports "Missing
argument". -/
theorem second_comma_before_third_register_witness :
    "add_mat MAT_A, MAT_B,, MAT_C".toList
      = [] ++ "add_mat".toList ++ [' '] ++ (Reg.MAT_A.name ++ [] ++
          ',' :: ([' '] ++ (Reg.MAT_B.name ++ [] ++ ',' :: ([] ++ ',' :: " MAT_C".toList)))) ∧
    (∀ name ∈ ["add_mat".toList, "sub_mat".toList, "mul_mat".toList],
      analyze_input strtodDigits
          ([] ++ name ++ [' '] ++ (Reg.MAT_A.name ++ [] ++
            ',' :: ([' '] ++ (Reg.MAT_B.name ++ [] ++ ',' :: ([] ++ ',' :: " MAT_C".toList)))))
          (fun _ _ _ => 0)
        = fault (fun _ _ _ => 0) MISSING_ARG_ERR) ∧
    (analyze_input strtodDigits "add_mat MAT_A,, MAT_B, MAT_C".toList (fun _ _ _ => 0)).errors
      = [UNNECESSARY_COMMA_ERR] :=
  ⟨by decide,
    (second_comma_before_third_register strtodDigits [] [' '] [] [' '] [] [] " MAT_C".toList
      .MAT_A .MAT_B (fun _ _ _ => 0) (by decide) (by decide)).1, by decide⟩

/-- C21, against the claim: the line `mul_scalar MAT_A,` ends where the scalar is required,
and the fault reported is "Argument is not a scalar", not "Missing argument". -/
theorem line_ends_at_scalar_counterexample :
    (analyze_input strtodDigits "mul_scalar MAT_A,".toList (fun _ _ _ => 0)).errors
      = [MISSING_SCALAR_ERR] ∧
    (analyze_input strtodDigits "mul_scalar MAT_A,".toList (fun _ _ _ => 0)).errors
      ≠ [MISSING_ARG_ERR] ∧
    MISSING_SCALAR_ERR ≠ NO_ARGS_ERR := by
  decide

/-- C21, amended: let the line end at `tl`. Directly after the command word of each of the
seven commands other than `stop`, after a comma that precedes a register (`trans_mat`,
`add_mat`, `sub_mat`, `mul_mat` at both commas, `mul_scalar` at its second comma) and after
the first comma of `read_mat`, the fault reported is "Missing argument". After the first
comma of `mul_scalar`, where the scan consumes nothing, it is "Argument is not a scalar", and
after a comma that follows a value of `read_mat` it is "Extraneous text after end of
command". In every case the registers are unchanged. -/
theorem line_ends_at_operand {α : Type} [Add α] [Sub α] [Mul α] [Zero α]
    (strtod : List Char → α × Nat) (ws1 ws2 ws3 ws4 ws5 ws6 lit tl : List Char) (R1 R2 : Reg)
    (items : List (ValueItem α)) (last : ValueItem α) (σ : Heap Reg α)
    (hws : ∀ ws ∈ [ws1, ws2, ws3, ws4, ws5, ws6], ∀ c ∈ ws, isspace c = true)
    (hend : deref tl = NUL) (hzero : (strtod tl).2 = 0)
    (hlit : ∃ c t, lit = c :: t ∧ isspace c = false ∧ c ≠ ',' ∧ c ≠ NUL)
    (hscan : (strtod (lit ++ ws5 ++ ',' :: (ws6 ++ tl))).2 = lit.length)
    (hitems : ∀ it ∈ items, IsLiteral strtod it) (hlast : IsLiteral strtod last) :
    (∀ name ∈ funcNames, name ≠ "stop".toList →
      analyze_input strtod (ws1 ++ name ++ ws2 ++ tl) σ = fault σ NO_ARGS_ERR) ∧
    (ws2 ≠ [] →
      (∀ name ∈ ["trans_mat".toList, "add_mat".toList, "sub_mat".toList, "mul_mat".toList],
        analyze_input strtod (ws1 ++ name ++ ws2 ++ (R1.name ++ ws3 ++ ',' :: (ws4 ++ tl))) σ
          = fault σ MISSING_ARG_ERR) ∧
      (∀ name ∈ ["add_mat".toList, "sub_mat".toList, "mul_mat".toList],
        analyze_input strtod
            (ws1 ++ name ++ ws2 ++
              (R1.name ++ ws3 ++ ',' :: (ws4 ++ (R2.name ++ ws5 ++ ',' :: (ws6 ++ tl))))) σ
          = fault σ MISSING_ARG_ERR) ∧
      analyze_input strtod
          (ws1 ++ "mul_scalar".toList ++ ws2 ++
            (R1.name ++ ws3 ++ ',' :: (ws4 ++ (lit ++ ws5 ++ ',' :: (ws6 ++ tl))))) σ
        = fault σ MISSING_ARG_ERR ∧
      analyze_input strtod
          (ws1 ++ "read_mat".toList ++ ws2 ++ (R1.name ++ ws3 ++ ',' :: (ws4 ++ tl))) σ
        = fault σ NO_ARGS_ERR ∧
      analyze_input strtod
          (ws1 ++ "mul_scalar".toList ++ ws2 ++ (R1.name ++ ws3 ++ ',' :: (ws4 ++ tl))) σ
        = fault σ MISSING_SCALAR_ERR ∧
      analyze_input strtod
          (ws1 ++ "read_mat".toList ++ ws2 ++ (R1.name ++ ws3 ++
            ',' :: valuesBefore items (last.ws ++ last.lit ++ ',' :: (ws6 ++ tl)))) σ
        = fault σ EXT_TXT_ERR) ∧
    NO_ARGS_ERR = "Missing argument" ∧ MISSING_ARG_ERR = "Missing argument" := by
  have h1 := hws ws1 (by simp)
  have h2 := hws ws2 (by simp)
  have h3 := hws ws3 (by simp)
  have h4 := hws ws4 (by simp)
  have h5 := hws ws5 (by simp)
  have h6 := hws ws6 (by simp)
  obtain ⟨e1, e2, e3⟩ := whichMatrix_of_end tl hend
  have hM : ∀ Y, isspace (deref (R1.name ++ ws3 ++ Y)) = false := by
    intro Y
    obtain ⟨t, ht, -⟩ := Reg.name_eq R1
    rw [ht]
    rfl
  have hC : ∀ Y, isspace (deref (',' :: Y)) = false := fun _ => rfl
  refine ⟨?_, ?_, rfl, rfl⟩
  · intro name hname hstop
    have hcmd : first_Word_analysis name ≠ .STOP := by
      revert name
      decide
    rw [analyze_line strtod ws1 name ws2 tl σ hname h1 h2 (Or.inr hend) e2]
    unfold analyze_operands
    rw [ILLEGAL_COMMA_eq, if_neg e3, if_neg hcmd, done_andThen, MISSING_ARGUMENT_eq,
      if_pos hend]
  · intro hne
    refine ⟨?_, ?_, ?_, ?_, ?_, ?_⟩
    · intro name hname
      have hmem : name ∈ funcNames := by
        revert name; decide
      rw [analyze_line strtod ws1 name ws2 _ σ hmem h1 h2 (Or.inl hne) (hM _)]
      simp only [List.mem_cons, List.mem_singleton, List.not_mem_nil, or_false] at hname
      rcases hname with rfl | rfl | rfl | rfl
      · rw [analyze_operands_first strtod _ R1 ws3 _ σ (by decide) h3 (hC _)]
        exact handle_trans_mat_second ws4 tl R1 σ h4 e2 e3 e1
      all_goals
        rw [analyze_operands_first strtod _ R1 ws3 _ σ (by decide) h3 (hC _)]
        exact handle_add_sub_mul_second ws4 tl R1 _ σ h4 e2 e3 e1
    · intro name hname
      have hmem : name ∈ funcNames := by
        revert name; decide
      rw [analyze_line strtod ws1 name ws2 _ σ hmem h1 h2 (Or.inl hne) (hM _)]
      simp only [List.mem_cons, List.mem_singleton, List.not_mem_nil, or_false] at hname
      rcases hname with rfl | rfl | rfl
      all_goals
        rw [analyze_operands_first strtod _ R1 ws3 _ σ (by decide) h3 (hC _)]
        exact handle_add_sub_mul_third ws4 ws5 ws6 tl R1 R2 _ σ h4 h5 h6 e2 e1
    · rw [analyze_line strtod ws1 _ ws2 _ σ (by decide) h1 h2 (Or.inl hne) (hM _),
        analyze_operands_first strtod _ R1 ws3 _ σ (by decide) h3 (hC _)]
      exact handle_mul_scalar_third strtod ws4 lit ws5 ws6 tl R1 σ h4 h5 h6 e2 e3 e1 hlit hscan
    · rw [analyze_line strtod ws1 _ ws2 _ σ (by decide) h1 h2 (Or.inl hne) (hM _),
        analyze_operands_first strtod _ R1 ws3 _ σ (by decide) h3 (hC _)]
      exact handle_read_mat_end strtod ws4 tl R1 σ h4 hend
    · rw [analyze_line strtod ws1 _ ws2 _ σ (by decide) h1 h2 (Or.inl hne) (hM _),
        analyze_operands_first strtod _ R1 ws3 _ σ (by decide) h3 (hC _)]
      exact handle_mul_scalar_not_number strtod ws4 tl R1 σ h4 e2 e3 hzero
    · have hm : MOVE_TO_NON_WHITE (last.ws ++ last.lit ++ ',' :: (ws6 ++ tl))
          = last.lit ++ ',' :: (ws6 ++ tl) := MOVE_ws_lit last.ws last.lit _ hlast.1 hlast.2.1
      have hstart := literal_start strtod last (',' :: (ws6 ++ tl)) hlast
      have hs := hlast.2.2 (',' :: (ws6 ++ tl)) (Or.inr ⟨_, rfl⟩)
      have hlen : last.lit.length ≠ 0 := by
        obtain ⟨c, t, hl, -⟩ := hlast.2.1
        rw [hl]; simp
      have hdrop : MOVE_TO_NON_WHITE ((last.lit ++ ',' :: (ws6 ++ tl)).drop
          (strtod (last.lit ++ ',' :: (ws6 ++ tl))).2) = ',' :: (ws6 ++ tl) := by
        rw [hs]
        simp only [List.drop_left']
        rfl
      have hmv : MOVE_TO_NON_WHITE (ws6 ++ tl) = tl := MOVE_ws ws6 tl h6 e2
      exact analyze_read_mat_returned strtod ws1 ws2 ws3 _ R1 items EXT_TXT_ERR σ h1 h2 h3 hne
        hitems (by rw [hm]; exact hstart.2.2.2) (by rw [hm]; exact hstart.2.2.1)
        (fun i values => by
          rw [hm, read_values_next strtod _ (ws6 ++ tl) ',' i values hstart.1
            (by rw [hs]; exact hlen) hdrop (by decide), hmv, if_pos hend])

/-- C21, amended, instances: `print_mat`, `trans_mat MAT_A,`, `add_mat MAT_A, MAT_B,`,
`mul_scalar MAT_A, 2,` and `read_mat MAT_A,` report "Missing argument"; `mul_scalar MAT_A,`
reports "Argument is not a scalar" and `read_mat MAT_A, 1,` reports "Extraneous text after end
of command". -/
theorem line_ends_at_operand_witness :
    "read_mat MAT_A, 1,".toList
      = [] ++ "read_mat".toList ++ [' '] ++ (Reg.MAT_A.name ++ [] ++
          ',' :: valuesBefore ([] : List (ValueItem Int)) ([' '] ++ ['1'] ++ ',' :: ([] ++ []))) ∧
    "mul_scalar MAT_A, 2,".toList
      = [] ++ "mul_scalar".toList ++ [' '] ++
          (Reg.MAT_A.name ++ [] ++ ',' :: ([' '] ++ (['2'] ++ [] ++ ',' :: ([] ++ [])))) ∧
    ((∀ name ∈ funcNames, name ≠ "stop".toList →
      analyze_input strtodDigits ([] ++ name ++ [' '] ++ []) (fun _ _ _ => 0)
        = fault (fun _ _ _ => 0) NO_ARGS_ERR) ∧
    ([' '] ≠ [] →
      (∀ name ∈ ["trans_mat".toList, "add_mat".toList, "sub_mat".toList, "mul_mat".toList],
        analyze_input strtodDigits
            ([] ++ name ++ [' '] ++ (Reg.MAT_A.name ++ [] ++ ',' :: ([' '] ++ [])))
            (fun _ _ _ => 0)
          = fault (fun _ _ _ => 0) MISSING_ARG_ERR) ∧
      (∀ name ∈ ["add_mat".toList, "sub_mat".toList, "mul_mat".toList],
        analyze_input strtodDigits
            ([] ++ name ++ [' '] ++
              (Reg.MAT_A.name ++ [] ++ ',' :: ([' '] ++ (Reg.MAT_B.name ++ [] ++ ',' :: ([] ++ [])))))
            (fun _ _ _ => 0)
          = fault (fun _ _ _ => 0) MISSING_ARG_ERR) ∧
      analyze_input strtodDigits
          ([] ++ "mul_scalar".toList ++ [' '] ++
            (Reg.MAT_A.name ++ [] ++ ',' :: ([' '] ++ (['2'] ++ [] ++ ',' :: ([] ++ [])))))
          (fun _ _ _ => 0)
        = fault (fun _ _ _ => 0) MISSING_ARG_ERR ∧
      analyze_input strtodDigits
          ([] ++ "read_mat".toList ++ [' '] ++ (Reg.MAT_A.name ++ [] ++ ',' :: ([' '] ++ [])))
          (fun _ _ _ => 0)
        = fault (fun _ _ _ => 0) NO_ARGS_ERR ∧
      analyze_input strtodDigits
          ([] ++ "mul_scalar".toList ++ [' '] ++ (Reg.MAT_A.name ++ [] ++ ',' :: ([' '] ++ [])))
          (fun _ _ _ => 0)
        = fault (fun _ _ _ => 0) MISSING_SCALAR_ERR ∧
      analyze_input strtodDigits
          ([] ++ "read_mat".toList ++ [' '] ++ (Reg.MAT_A.name ++ [] ++
            ',' :: valuesBefore ([] : List (ValueItem Int))
              ([' '] ++ ['1'] ++ ',' :: ([] ++ []))))
          (fun _ _ _ => 0)
        = fault (fun _ _ _ => 0) EXT_TXT_ERR) ∧
    NO_ARGS_ERR = "Missing argument" ∧ MISSING_ARG_ERR = "Missing argument") :=
  ⟨by decide, by decide,
    line_ends_at_operand strtodDigits [] [' '] [] [' '] [] [] ['2'] [] .MAT_A .MAT_B []
      ⟨[' '], ['1'], 1⟩ (fun _ _ _ => 0) (by decide) rfl (by decide)
      ⟨'2', [], rfl, by decide, by decide, by decide⟩ (by decide) (by simp)
      ⟨by decide, ⟨_, _, rfl, by decide, by decide, by decide⟩,
        by rintro rest (rfl | ⟨t, rfl⟩) <;> rfl⟩⟩

/-- C22, what the code does: on a `read_mat` line where a value `lit` is followed by white
space `ws5` and then by a character `c` that is neither white space, nor a comma, nor the
terminator (the first character of a second value), the registers are unchanged and one fault
is reported: "Missing comma" when something other than white space follows `c`, but
"Extraneous text after end of command" when `c` is the last character of the line, as in
`read_mat MAT_A, 1 2`. -/
theorem values_without_comma {α : Type} [Add α] [Sub α] [Mul α] [Zero α]
    (strtod : List Char → α × Nat) (ws1 ws2 ws3 ws4 ws5 lit rest : List Char) (c : Char)
    (R : Reg) (items : List (ValueItem α)) (σ : Heap Reg α)
    (hws : ∀ ws ∈ [ws1, ws2, ws3, ws4, ws5], ∀ a ∈ ws, isspace a = true) (hne : ws2 ≠ [])
    (hitems : ∀ it ∈ items, IsLiteral strtod it)
    (hlit : ∃ d t, lit = d :: t ∧ isspace d = false ∧ d ≠ ',' ∧ d ≠ NUL)
    (hscan : (strtod (lit ++ ws5 ++ c :: rest)).2 = lit.length)
    (hc : isspace c = false) (hnul : c ≠ NUL) (hcomma : c ≠ ',') :
    analyze_input strtod
        (ws1 ++ "read_mat".toList ++ ws2 ++
          (R.name ++ ws3 ++ ',' :: valuesBefore items (ws4 ++ (lit ++ ws5 ++ c :: rest)))) σ
      = { regs := σ,
          errors := [if deref (MOVE_TO_NON_WHITE rest) = NUL then EXT_TXT_ERR else NO_COMMA_ERR],
          out := [], exit := none } := by
  have h1 := hws ws1 (by simp)
  have h2 := hws ws2 (by simp)
  have h3 := hws ws3 (by simp)
  have h4 := hws ws4 (by simp)
  have h5 := hws ws5 (by simp)
  obtain ⟨d, t, hl, hd, hdc, hdn⟩ := hlit
  have hL : deref (lit ++ ws5 ++ c :: rest) = d := by rw [hl]; rfl
  have hLs : isspace (deref (lit ++ ws5 ++ c :: rest)) = false := by rw [hL]; exact hd
  have hmove : MOVE_TO_NON_WHITE (ws4 ++ (lit ++ ws5 ++ c :: rest)) = lit ++ ws5 ++ c :: rest :=
    MOVE_ws ws4 _ h4 hLs
  have hlen : lit.length ≠ 0 := by rw [hl]; simp
  have hdrop : MOVE_TO_NON_WHITE
      ((lit ++ ws5 ++ c :: rest).drop (strtod (lit ++ ws5 ++ c :: rest)).2) = c :: rest := by
    rw [hscan, List.append_assoc, List.drop_left]
    exact MOVE_ws ws5 _ h5 hc
  have key := analyze_read_mat_returned strtod ws1 ws2 ws3 (ws4 ++ (lit ++ ws5 ++ c :: rest)) R
    items (if deref (MOVE_TO_NON_WHITE rest) = NUL then EXT_TXT_ERR else NO_COMMA_ERR) σ
    h1 h2 h3 hne hitems (by rw [hmove, hL]; exact hdn) (by rw [hmove, hL]; exact hdc)
    (fun i values => by
      rw [hmove, read_values_next strtod _ rest c i values
        ((end_of_command_iff _ hLs).2.mpr (by rw [hL]; exact hdn))
        (by rw [hscan]; exact hlen) hdrop hnul]
      by_cases he : deref (MOVE_TO_NON_WHITE rest) = NUL
      · rw [if_pos he, if_pos he]
      · rw [if_neg he, if_neg he, if_pos hcomma])
  exact key

/-- C22, the failing input: the line `read_mat MAT_A, 1 2` reports "Extraneous text after end
of command", while `read_mat MAT_A, 1 23` reports "Missing comma". -/
theorem values_without_comma_witness :
    "read_mat MAT_A, 1 2".toList
      = [] ++ "read_mat".toList ++ [' '] ++ (Reg.MAT_A.name ++ [] ++
          ',' :: valuesBefore ([] : List (ValueItem Int)) ([' '] ++ (['1'] ++ [' '] ++ '2' :: []))) ∧
    "read_mat MAT_A, 1 23".toList
      = [] ++ "read_mat".toList ++ [' '] ++ (Reg.MAT_A.name ++ [] ++
          ',' :: valuesBefore ([] : List (ValueItem Int))
            ([' '] ++ (['1'] ++ [' '] ++ '2' :: ['3']))) ∧
    analyze_input strtodDigits
        ([] ++ "read_mat".toList ++ [' '] ++ (Reg.MAT_A.name ++ [] ++
          ',' :: valuesBefore ([] : List (ValueItem Int)) ([' '] ++ (['1'] ++ [' '] ++ '2' :: []))))
        (fun _ _ _ => 3)
      = { regs := fun _ _ _ => 3, errors := [EXT_TXT_ERR], out := [], exit := none } ∧
    analyze_input strtodDigits
        ([] ++ "read_mat".toList ++ [' '] ++ (Reg.MAT_A.name ++ [] ++
          ',' :: valuesBefore ([] : List (ValueItem Int))
            ([' '] ++ (['1'] ++ [' '] ++ '2' :: ['3']))))
        (fun _ _ _ => 3)
      = { regs := fun _ _ _ => 3, errors := [NO_COMMA_ERR], out := [], exit := none } :=
  ⟨by decide, by decide,
    values_without_comma strtodDigits [] [' '] [] [' '] [' '] ['1'] [] '2' .MAT_A []
      (fun _ _ _ => 3) (by decide) (by decide) (by simp)
      ⟨'1', [], rfl, by decide, by decide, by decide⟩ (by decide) (by decide) (by decide)
      (by decide),
    values_without_comma strtodDigits [] [' '] [] [' '] [' '] ['1'] ['3'] '2' .MAT_A []
      (fun _ _ _ => 3) (by decide) (by decide) (by simp)
      ⟨'1', [], rfl, by decide, by decide, by decide⟩ (by decide) (by decide) (by decide)
      (by decide)⟩

/-- C23: for `print_mat`, `trans_mat`, `add_mat`, `sub_mat`, `mul_mat` and `mul_scalar`, a
line made of a well-formed command, optional white space `ws7`, and a further character `c`
that is neither white space nor the terminator, followed by anything, reports the
extraneous-text fault and nothing else, and leaves every register unchanged; `ws7` may be
empty, so that `c` is glued to the last register name. -/
theorem text_after_command {α : Type} [Add α] [Sub α] [Mul α] [Zero α]
    (strtod : List Char → α × Nat) (ws1 ws2 ws3 ws4 ws5 ws6 ws7 lit rest : List Char) (c : Char)
    (R1 R2 R3 : Reg) (σ : Heap Reg α)
    (hws : ∀ ws ∈ [ws1, ws2, ws3, ws4, ws5, ws6, ws7], ∀ a ∈ ws, isspace a = true)
    (hne : ws2 ≠ []) (hc : isspace c = false) (hnul : c ≠ NUL)
    (hlit : ∃ d t, lit = d :: t ∧ isspace d = false ∧ d ≠ ',' ∧ d ≠ NUL)
    (hscan : (strtod (lit ++ ws5 ++ ',' :: (ws6 ++ (R2.name ++ ws7 ++ c :: rest)))).2
      = lit.length) :
    analyze_input strtod (ws1 ++ "print_mat".toList ++ ws2 ++ (R1.name ++ ws7 ++ c :: rest)) σ
      = { regs := σ, errors := [EXT_TXT_ERR], out := [], exit := none } ∧
    analyze_input strtod
        (ws1 ++ "trans_mat".toList ++ ws2 ++
          (R1.name ++ ws3 ++ ',' :: (ws4 ++ (R2.name ++ ws7 ++ c :: rest)))) σ
      = { regs := σ, errors := [EXT_TXT_ERR], out := [], exit := none } ∧
    (∀ name ∈ ["add_mat".toList, "sub_mat".toList, "mul_mat".toList],
      analyze_input strtod
          (ws1 ++ name ++ ws2 ++ (R1.name ++ ws3 ++
            ',' :: (ws4 ++ (R2.name ++ ws5 ++ ',' :: (ws6 ++ (R3.name ++ ws7 ++ c :: rest)))))) σ
        = { regs := σ, errors := [EXT_TXT_ERR], out := [], exit := none }) ∧
    analyze_input strtod
        (ws1 ++ "mul_scalar".toList ++ ws2 ++ (R1.name ++ ws3 ++
          ',' :: (ws4 ++ (lit ++ ws5 ++ ',' :: (ws6 ++ (R2.name ++ ws7 ++ c :: rest)))))) σ
      = { regs := σ, errors := [EXT_TXT_ERR], out := [], exit := none } := by
  have h1 := hws ws1 (by simp)
  have h2 := hws ws2 (by simp)
  have h3 := hws ws3 (by simp)
  have h4 := hws ws4 (by simp)
  have h5 := hws ws5 (by simp)
  have h6 := hws ws6 (by simp)
  have h7 := hws ws7 (by simp)
  have hM : ∀ ws Y, isspace (deref (R1.name ++ ws ++ Y)) = false := by
    intro ws Y
    obtain ⟨t, ht, -⟩ := Reg.name_eq R1
    rw [ht]
    rfl
  have hC : ∀ Y, isspace (deref (',' :: Y)) = false := fun _ => rfl
  have hX : isspace (deref (c :: rest)) = false := hc
  refine ⟨?_, ?_, ?_, ?_⟩
  · rw [analyze_line strtod ws1 _ ws2 _ σ (by decide) h1 h2 (Or.inl hne) (hM _ _),
      analyze_operands_first strtod _ R1 ws7 _ σ (by decide) h7 hX]
    exact EXTRANEOUS_TEXT_char c rest σ _ hc hnul
  · rw [analyze_line strtod ws1 _ ws2 _ σ (by decide) h1 h2 (Or.inl hne) (hM _ _),
      analyze_operands_first strtod _ R1 ws3 _ σ (by decide) h3 (hC _)]
    show handle_trans_mat _ R1 σ = _
    rw [handle_trans_mat_tail ws4 ws7 _ R1 R2 σ h4 h7 hX]
    exact EXTRANEOUS_TEXT_char c rest σ _ hc hnul
  · intro name hname
    have hmem : name ∈ funcNames := by
      revert name; decide
    rw [analyze_line strtod ws1 name ws2 _ σ hmem h1 h2 (Or.inl hne) (hM _ _)]
    simp only [List.mem_cons, List.mem_singleton, List.not_mem_nil, or_false] at hname
    rcases hname with rfl | rfl | rfl
    all_goals
      rw [analyze_operands_first strtod _ R1 ws3 _ σ (by decide) h3 (hC _)]
      show handle_add_sub_mul _ R1 _ σ = _
      rw [handle_add_sub_mul_tail ws4 ws5 ws6 ws7 _ R1 R2 R3 _ σ h4 h5 h6 h7 hX]
      exact EXTRANEOUS_TEXT_char c rest σ _ hc hnul
  · rw [analyze_line strtod ws1 _ ws2 _ σ (by decide) h1 h2 (Or.inl hne) (hM _ _),
      analyze_operands_first strtod _ R1 ws3 _ σ (by decide) h3 (hC _)]
    show handle_mul_scalar strtod _ R1 σ = _
    rw [handle_mul_scalar_tail strtod ws4 lit ws5 ws6 ws7 _ R1 R2 σ h4 h5 h6 h7 hX hlit hscan]
    exact EXTRANEOUS_TEXT_char c rest σ _ hc hnul

/-- C23, instances: the lines `print_mat MAT_AB`, `trans_mat MAT_A, MAT_BB`,
`add_mat MAT_A, MAT_B, MAT_CB`, `sub_mat ...`, `mul_mat ...` and `mul_scalar MAT_A, 2, MAT_BB`
report extraneous text. -/
theorem text_after_command_witness :
    "print_mat MAT_AB".toList
      = [] ++ "print_mat".toList ++ [' '] ++ (Reg.MAT_A.name ++ [] ++ 'B' :: []) ∧
    "mul_scalar MAT_A, 2, MAT_BB".toList
      = [] ++ "mul_scalar".toList ++ [' '] ++ (Reg.MAT_A.name ++ [] ++
          ',' :: ([' '] ++ (['2'] ++ [] ++ ',' :: ([' '] ++ (Reg.MAT_B.name ++ [] ++ 'B' :: []))))) ∧
    (analyze_input strtodDigits
        ([] ++ "print_mat".toList ++ [' '] ++ (Reg.MAT_A.name ++ [] ++ 'B' :: []))
        (fun _ _ _ => 0)
      = { regs := fun _ _ _ => 0, errors := [EXT_TXT_ERR], out := [], exit := none } ∧
    analyze_input strtodDigits
        ([] ++ "trans_mat".toList ++ [' '] ++
          (Reg.MAT_A.name ++ [] ++ ',' :: ([' '] ++ (Reg.MAT_B.name ++ [] ++ 'B' :: []))))
        (fun _ _ _ => 0)
      = { regs := fun _ _ _ => 0, errors := [EXT_TXT_ERR], out := [], exit := none } ∧
    (∀ name ∈ ["add_mat".toList, "sub_mat".toList, "mul_mat".toList],
      analyze_input strtodDigits
          ([] ++ name ++ [' '] ++ (Reg.MAT_A.name ++ [] ++
            ',' :: ([' '] ++ (Reg.MAT_B.name ++ [] ++
              ',' :: ([' '] ++ (Reg.MAT_C.name ++ [] ++ 'B' :: []))))))
          (fun _ _ _ => 0)
        = { regs := fun _ _ _ => 0, errors := [EXT_TXT_ERR], out := [], exit := none }) ∧
    analyze_input strtodDigits
        ([] ++ "mul_scalar".toList ++ [' '] ++ (Reg.MAT_A.name ++ [] ++
          ',' :: ([' '] ++ (['2'] ++ [] ++ ',' :: ([' '] ++ (Reg.MAT_B.name ++ [] ++ 'B' :: []))))))
        (fun _ _ _ => 0)
      = { regs := fun _ _ _ => 0, errors := [EXT_TXT_ERR], out := [], exit := none }) :=
  ⟨by decide, by decide,
    text_after_command strtodDigits [] [' '] [] [' '] [] [' '] [] ['2'] [] 'B'
      .MAT_A .MAT_B .MAT_C (fun _ _ _ => 0) (by decide) (by decide) (by decide) (by decide)
      ⟨'2', [], rfl, by decide, by decide, by decide⟩ (by decide)⟩

/-- C24: for every line whose first word is one of the eight command names, `stop` included,
and whose first character other than white space after that word is a comma, `analyze_input`
reports the illegal-comma fault and nothing else, changes no register and does not terminate
the process. -/
theorem comma_after_command_word {α : Type} [Add α] [Sub α] [Mul α] [Zero α]
    (strtod : List Char → α × Nat) (line : List Char) (σ : Heap Reg α)
    (hcmd : wordAt (MOVE_TO_NON_WHITE line) ∈ funcNames)
    (hcomma : deref (firstOperandText line) = ',') :
    analyze_input strtod line σ
      = { regs := σ, errors := [COMMA_ERR], out := [], exit := none } := by
  have h1 := not_end_of_command_word _ hcmd
  have h2 : first_Word_analysis (MOVE_TO_NON_WHITE line) ≠ .NONE_FUNC :=
    fun h => (first_Word_analysis_none_iff _).mp h hcmd
  rw [analyze_input_eq, h1, if_neg (by simp), if_neg h2]
  unfold analyze_operands
  rw [ILLEGAL_COMMA_eq, if_pos hcomma]
  rfl

/-- C24, instances: the lines `stop ,` and `  read_mat   , MAT_A`. -/
theorem comma_after_command_word_witness :
    wordAt (MOVE_TO_NON_WHITE "stop ,".toList) ∈ funcNames ∧
    deref (firstOperandText "stop ,".toList) = ',' ∧
    analyze_input strtodDigits "stop ,".toList (fun _ _ _ => 4)
      = { regs := fun _ _ _ => 4, errors := [COMMA_ERR], out := [], exit := none } ∧
    analyze_input strtodDigits "  read_mat   , MAT_A".toList (fun _ _ _ => 4)
      = { regs := fun _ _ _ => 4, errors := [COMMA_ERR], out := [], exit := none } :=
  ⟨by decide, by decide,
    comma_after_command_word strtodDigits "stop ,".toList _ (by decide) (by decide),
    comma_after_command_word strtodDigits "  read_mat   , MAT_A".toList _ (by decide)
      (by decide)⟩

/-- C25: when the text `X` at the scalar of `mul_scalar`, or at a value of `read_mat` (the
first one or one that follows values each closed by a comma), is not empty, does not begin
with a comma and the numeric scan consumes no character of it, `analyze_input` reports the
not-a-number fault of the command ("Argument is not a scalar", "Argument is not a real
number") and nothing else, and leaves every register unchanged. -/
theorem not_a_number {α : Type} [Add α] [Sub α] [Mul α] [Zero α]
    (strtod : List Char → α × Nat) (ws1 ws2 ws3 ws4 X : List Char) (R : Reg)
    (items : List (ValueItem α)) (σ : Heap Reg α)
    (hws : ∀ ws ∈ [ws1, ws2, ws3, ws4], ∀ c ∈ ws, isspace c = true) (hne : ws2 ≠ [])
    (hlit : ∀ it ∈ items, IsLiteral strtod it)
    (hX : isspace (deref X) = false) (hpresent : deref X ≠ NUL) (hcomma : deref X ≠ ',')
    (hzero : (strtod X).2 = 0) :
    analyze_input strtod
        (ws1 ++ "mul_scalar".toList ++ ws2 ++ (R.name ++ ws3 ++ ',' :: (ws4 ++ X))) σ
      = { regs := σ, errors := [MISSING_SCALAR_ERR], out := [], exit := none } ∧
    analyze_input strtod
        (ws1 ++ "read_mat".toList ++ ws2 ++
          (R.name ++ ws3 ++ ',' :: valuesBefore items (ws4 ++ X))) σ
      = { regs := σ, errors := [ARG_IS_NOT_DOUBLE], out := [], exit := none } := by
  have h1 := hws ws1 (by simp)
  have h2 := hws ws2 (by simp)
  have h3 := hws ws3 (by simp)
  have h4 := hws ws4 (by simp)
  have hM : ∀ Y, isspace (deref (R.name ++ ws3 ++ Y)) = false := by
    intro Y
    obtain ⟨t, ht, -⟩ := Reg.name_eq R
    rw [ht]
    rfl
  have hmove : MOVE_TO_NON_WHITE (ws4 ++ X) = X := MOVE_ws ws4 X h4 hX
  constructor
  · rw [analyze_line strtod ws1 _ ws2 _ σ (by decide) h1 h2 (Or.inl hne) (hM _),
      analyze_operands_first strtod _ R ws3 (',' :: (ws4 ++ X)) σ (by decide) h3 rfl]
    exact handle_mul_scalar_not_number strtod ws4 X R σ h4 hX hcomma hzero
  · exact analyze_read_mat_returned strtod ws1 ws2 ws3 (ws4 ++ X) R items _ σ h1 h2 h3 hne hlit
      (by rw [hmove]; exact hpresent) (by rw [hmove]; exact hcomma)
      (fun i values => by
        rw [hmove]
        exact read_values_not_number strtod X i values
          ((end_of_command_iff X hX).2.mpr hpresent) hzero)

/-- C25, instances: the lines `mul_scalar MAT_A, x, MAT_B` and `read_mat MAT_A, 1, x`. -/
theorem not_a_number_witness :
    "mul_scalar MAT_A, x, MAT_B".toList
      = [] ++ "mul_scalar".toList ++ [' '] ++
          (Reg.MAT_A.name ++ [] ++ ',' :: ([' '] ++ "x, MAT_B".toList)) ∧
    "read_mat MAT_A, 1, x".toList
      = [] ++ "read_mat".toList ++ [' '] ++ (Reg.MAT_A.name ++ [] ++
          ',' :: valuesBefore [(⟨[' '], ['1'], 1⟩ : ValueItem Int)] ([' '] ++ "x".toList)) ∧
    (strtodDigits "x, MAT_B".toList).2 = 0 ∧
    analyze_input strtodDigits
        ([] ++ "mul_scalar".toList ++ [' '] ++
          (Reg.MAT_A.name ++ [] ++ ',' :: ([' '] ++ "x, MAT_B".toList))) (fun _ _ _ => 3)
      = { regs := fun _ _ _ => 3, errors := [MISSING_SCALAR_ERR], out := [], exit := none } ∧
    analyze_input strtodDigits
        ([] ++ "read_mat".toList ++ [' '] ++ (Reg.MAT_A.name ++ [] ++
          ',' :: valuesBefore [(⟨[' '], ['1'], 1⟩ : ValueItem Int)] ([' '] ++ "x".toList)))
        (fun _ _ _ => 3)
      = { regs := fun _ _ _ => 3, errors := [ARG_IS_NOT_DOUBLE], out := [], exit := none } :=
  ⟨by decide, by decide, by decide,
    (not_a_number strtodDigits [] [' '] [] [' '] "x, MAT_B".toList .MAT_A [] (fun _ _ _ => 3)
      (by decide) (by decide) (by simp) (by decide) (by decide) (by decide) (by decide)).1,
    (not_a_number strtodDigits [] [' '] [] [' '] "x".toList .MAT_A [⟨[' '], ['1'], 1⟩]
      (fun _ _ _ => 3) (by decide) (by decide)
      (by
        intro it hit
        rw [List.mem_singleton] at hit
        subst hit
        refine ⟨by decide, ⟨_, _, rfl, by decide, by decide, by decide⟩, ?_⟩
        rintro rest (rfl | ⟨t, rfl⟩) <;> rfl)
      (by decide) (by decide) (by decide) (by decide)).2⟩

/-- C26: `print_mat` sets `useScientific` if and only if some cell has an absolute value
strictly greater than `1000`; it prints every cell with the conversion `%10.2e` when the flag
is set and every cell with `%7.2f` when it is not. A matrix whose largest magnitude is exactly
`1000` is printed in fixed point, and a matrix with one cell at `1000.01` has all its cells
printed in scientific notation. -/
theorem print_mat_threshold {α : Type} [LT α] [DecidableRel (fun a b : α => a < b)] [Neg α]
    [Zero α] [OfNat α 1000] (m : mat α) :
    (useScientific m = true ↔ ∃ row col, (1000 : α) < fabs (m row col)) ∧
    print_mat_items m
      = (List.finRange 4).flatMap (fun row => PrintItem.newline ::
          (List.finRange 4).map (fun col =>
            PrintItem.cell (if useScientific m = true then "%10.2e\t" else "%7.2f\t")
              (m row col)))
        ++ [PrintItem.newline] ∧
    fabs (atThreshold 1 2) = 1000 ∧ useScientific atThreshold = false ∧
    fabs (aboveThreshold 2 3) = 100001 / 100 ∧ useScientific aboveThreshold = true := by
  refine ⟨useScientific_iff m, print_mat_items_eq m, ?_, ?_, ?_, ?_⟩
  · norm_num [fabs, atThreshold]
  · decide
  · norm_num [fabs, aboveThreshold]
  · rw [useScientific_iff]
    exact ⟨2, 3, by norm_num [fabs, aboveThreshold]⟩

/-- C27, what the code does: `matrices_initialization` sets row `0` of each of the six
registers to `0` and leaves the rows `1`, `2` and `3` with the content they had before the
call, since it calls `read_mat` with `size = 1`. From registers that are all `0` the result is
all `0`; from registers that hold `7` in every cell, `MAT_A[1][0]` is still `7` afterwards. -/
theorem matrices_initialization_rows {α : Type} [Zero α] (σ : Heap Reg α) (R : Reg)
    (r c : Fin 4) :
    matrices_initialization σ R r c = (if r.val < 1 then 0 else σ R r c) ∧
    matrices_initialization (fun _ _ _ => (0 : α)) R r c = 0 ∧
    matrices_initialization (fun _ _ _ => (7 : Int)) Reg.MAT_A 1 0 = 7 := by
  have key : ∀ τ : Heap Reg α,
      matrices_initialization τ R r c = if r.val < 1 then 0 else τ R r c := by
    intro τ
    have hl : ∀ k : Fin 4, k.val < 1 → loadRule ([0] : List α) 1 k c = 0 := by
      intro k hk
      have hk0 : k = 0 := Fin.ext (by simpa using hk)
      subst hk0
      fin_cases c <;> simp [loadRule]
    unfold matrices_initialization
    simp only [read_mat_eq, List.length_singleton]
    by_cases hr : r.val < 1
    · cases R <;> simp [hr, hl r hr]
    · cases R <;> simp [hr]
  refine ⟨key σ, ?_, by decide⟩
  rw [key]
  split <;> rfl

/-- C28, what the code does: on an acquired line `ws` made only of white space (shorter than
`INIT_LINE_SIZE`, in a buffer whose memory holds a terminator after the line), one iteration
of the driver reports no fault, changes no register, does not terminate the process and goes
on to the next line; but it prints the empty-line notice only when the line is empty: for a
line of one or more white-space characters it prints the line after `The input is: `, since
`line_process` tests the first character of the line without skipping white space. -/
theorem blank_line_iteration {α : Type} [Add α] [Sub α] [Mul α] [Zero α]
    (malloc realloc : Nat → Option (Nat → Char)) (strtod : List Char → α × Nat)
    (ws rest : List Char) (mem : Nat → Char) (σ : Heap Reg α)
    (hmalloc : malloc (SIZEOF_CHAR_PTR * INIT_LINE_SIZE) = some mem)
    (hws : ∀ c ∈ ws, isspace c = true) (hnl : '\n' ∉ ws) (hlen : ws.length < INIT_LINE_SIZE)
    (hterm : mem ws.length = NUL) :
    program_iteration malloc realloc strtod (ws ++ '\n' :: rest) σ
      = { outcome :=
            { regs := σ, errors := [],
              out := [.text (if ws = [] then EMPTY_LINE
                        else "The input is: " ++ String.mk ws ++ "\n"),
                      .text "\nPlease enter a command.\n"],
              exit := none },
          stderr := [], stdin := rest } := by
  obtain ⟨junk, hj, hlp, -, -, -, -, -⟩ :=
    program_iteration_short malloc realloc strtod ws rest mem σ hmalloc hnl hlen
  rw [hterm] at hj hlp
  have ha : analyze_input strtod (ws ++ NUL :: junk) σ = done σ :=
    analyze_blank strtod ws (NUL :: junk) σ hws rfl
  have htext : lineText (ws ++ NUL :: junk) = ws :=
    lineText_of_end ws (NUL :: junk) (fun c hc => isspace_ne_NUL c (hws c hc)) rfl
  have hfirst : IS_END_OF_COMMAND (ws ++ NUL :: junk) = true ↔ ws = [] := by
    cases ws with
    | nil => simp [IS_END_OF_COMMAND, deref]
    | cons c t =>
      have h1 : c ≠ NUL := isspace_ne_NUL c (hws c (List.mem_cons_self _ _))
      have h2 : c ≠ '\n' := fun h => hnl (by simp [h])
      simp [IS_END_OF_COMMAND, deref, h1, h2]
  have hres : (line_process malloc realloc (ws ++ '\n' :: rest)).result
      = .returned true (written ws mem) rest := by
    rw [hlp, if_pos rfl]
  have hout : (line_process malloc realloc (ws ++ '\n' :: rest)).out
      = [if ws = [] then EMPTY_LINE else "The input is: " ++ String.mk ws ++ "\n"] := by
    rw [hlp, if_pos rfl]
    by_cases he : ws = []
    · rw [if_pos he]
      simp only [hfirst.mpr he, if_true]
    · rw [if_neg he]
      have : ¬ IS_END_OF_COMMAND (ws ++ NUL :: junk) = true := fun h => he (hfirst.mp h)
      simp [this, print_input, htext]
  unfold program_iteration
  simp only [hres, hj, ha, hout]
  rfl

/-- C28, the failing input: for the line of three spaces the driver prints
`The input is:    ` and not the empty-line notice; for the empty line it prints the notice. -/
theorem blank_line_iteration_witness :
    (∀ c ∈ "   ".toList, isspace c = true) ∧
    program_iteration (fun _ => some (fun _ => NUL)) (fun _ => none) strtodDigits
        ("   ".toList ++ '\n' :: "stop\n".toList) (fun _ _ _ => 0)
      = { outcome :=
            { regs := fun _ _ _ => 0, errors := [],
              out := [.text (if "   ".toList = [] then EMPTY_LINE
                        else "The input is: " ++ String.mk "   ".toList ++ "\n"),
                      .text "\nPlease enter a command.\n"],
              exit := none },
          stderr := [], stdin := "stop\n".toList } ∧
    (if "   ".toList = [] then EMPTY_LINE else "The input is: " ++ String.mk "   ".toList ++ "\n")
      = "The input is:    \n" ∧
    (program_iteration (fun _ => some (fun _ => NUL)) (fun _ => none) strtodDigits
        ([] ++ '\n' :: "stop\n".toList) (fun _ _ _ => 0)).outcome.out
      = [.text EMPTY_LINE, .text "\nPlease enter a command.\n"] :=
  ⟨by decide,
    blank_line_iteration _ _ strtodDigits "   ".toList "stop\n".toList (fun _ => NUL) _ rfl
      (by decide) (by decide) (by decide) rfl,
    by decide,
    congrArg (fun it => it.outcome.out)
      (blank_line_iteration (fun _ => some (fun _ => NUL)) (fun _ => none) strtodDigits []
        "stop\n".toList (fun _ => NUL) (fun _ _ _ => 0) rfl (by decide) (by decide) (by decide)
        rfl)⟩

/-- C29, what the code does: `get_line` stores the characters that precede the line feed in
order, for a line of any length when no reallocation fails, but it stores no terminator after
them: for a line shorter than `INIT_LINE_SIZE` the position after the last character keeps
what the memory of the buffer held, the result of `get_line` is whether that happens to be the
terminator, and the analyser is given the characters of the line followed by that memory. In
a buffer that holds the text of an earlier line `print_mat MAT_A`, the line `stop` reaches the
analyser as `stopt_mat MAT_A`: it is reported as an undefined command and the process does
not stop. -/
theorem get_line_stores_no_terminator {α : Type} [Add α] [Sub α] [Mul α] [Zero α]
    (malloc realloc : Nat → Option (Nat → Char)) (strtod : List Char → α × Nat)
    (chars rest : List Char) (mem : Nat → Char) (σ : Heap Reg α)
    (hmalloc : malloc (SIZEOF_CHAR_PTR * INIT_LINE_SIZE) = some mem)
    (hnl : '\n' ∉ chars) (hmem : ∀ n, realloc n ≠ none) :
    (∃ line1, get_line realloc (chars ++ '\n' :: rest) mem
        = .returned (line1 chars.length == NUL) line1 rest ∧
      ∀ j, j < chars.length → line1 j = chars.getD j NUL) ∧
    (chars.length < INIT_LINE_SIZE →
      get_line realloc (chars ++ '\n' :: rest) mem
        = .returned (mem chars.length == NUL) (written chars mem) rest ∧
      written chars mem chars.length = mem chars.length ∧
      ∃ junk,
        (program_iteration malloc realloc strtod (chars ++ '\n' :: rest) σ).outcome.errors
          = (analyze_input strtod (chars ++ mem chars.length :: junk) σ).errors ∧
        (program_iteration malloc realloc strtod (chars ++ '\n' :: rest) σ).outcome.exit
          = (analyze_input strtod (chars ++ mem chars.length :: junk) σ).exit) ∧
    (∀ junk, (analyze_input strtod ("stop".toList ++ 't' :: junk) σ).errors = [UNDEFINED_CMD] ∧
      (analyze_input strtod ("stop".toList ++ 't' :: junk) σ).exit = none) ∧
    (analyze_input strtod ("stop".toList ++ [NUL, NUL]) σ).errors = [] ∧
    (analyze_input strtod ("stop".toList ++ [NUL, NUL]) σ).exit = some 0 := by
  refine ⟨?_, ?_, ?_, rfl, rfl⟩
  · obtain ⟨line1, e1, -, e3⟩ :=
      get_line_loop_stores realloc chars rest hnl hmem 0 mem INIT_LINE_SIZE
    refine ⟨line1, ?_, ?_⟩
    · unfold get_line
      rw [e1, Nat.zero_add]
    · intro j hj
      have := e3 j hj
      rwa [Nat.zero_add] at this
  · intro hlen
    obtain ⟨junk, -, -, -, h2, h3, -, -⟩ :=
      program_iteration_short malloc realloc strtod chars rest mem σ hmalloc hnl hlen
    exact ⟨get_line_short realloc chars rest mem hnl hlen, by simp [written], junk, h2, h3⟩
  · intro junk
    have hw : wordAt (MOVE_TO_NON_WHITE ("stop".toList ++ 't' :: junk))
        = 's' :: 't' :: 'o' :: 'p' :: 't' :: wordAt junk := rfl
    have hnone : first_Word_analysis (MOVE_TO_NON_WHITE ("stop".toList ++ 't' :: junk))
        = .NONE_FUNC := by
      rw [first_Word_analysis_none_iff, hw]
      simp [funcNames]
    have hend : IS_END_OF_COMMAND (MOVE_TO_NON_WHITE ("stop".toList ++ 't' :: junk)) = false :=
      rfl
    have hsame : MOVE_TO_NON_WHITE ("stop".toList ++ 't' :: junk) = "stop".toList ++ 't' :: junk :=
      rfl
    rw [analyze_input_eq, hend, if_neg (by simp), if_pos hnone, undefined_command_outcome,
      if_pos ((skipped_eq_zero_iff _).mpr hsame)]
    exact ⟨rfl, rfl⟩

/-- C29, the failing input: the line `stop` read into a buffer whose memory holds the text
`print_mat MAT_A` of an earlier line. -/
theorem get_line_stores_no_terminator_witness :
    '\n' ∉ "stop".toList ∧ "stop".toList.length < INIT_LINE_SIZE ∧
    get_line (fun _ => some (fun _ => NUL)) ("stop".toList ++ '\n' :: [])
        (fun j => "print_mat MAT_A".toList.getD j NUL)
      = .returned ((fun j => "print_mat MAT_A".toList.getD j NUL) "stop".toList.length == NUL)
          (written "stop".toList (fun j => "print_mat MAT_A".toList.getD j NUL)) [] ∧
    (fun j => "print_mat MAT_A".toList.getD j NUL) "stop".toList.length = 't' ∧
    (∃ junk,
      (program_iteration (fun _ => some (fun j => "print_mat MAT_A".toList.getD j NUL))
          (fun _ => some (fun _ => NUL)) strtodDigits ("stop".toList ++ '\n' :: [])
          (fun _ _ _ => 0)).outcome.errors
        = (analyze_input strtodDigits
            ("stop".toList ++
              (fun j => "print_mat MAT_A".toList.getD j NUL) "stop".toList.length :: junk)
            (fun _ _ _ => 0)).errors ∧
      (program_iteration (fun _ => some (fun j => "print_mat MAT_A".toList.getD j NUL))
          (fun _ => some (fun _ => NUL)) strtodDigits ("stop".toList ++ '\n' :: [])
          (fun _ _ _ => 0)).outcome.exit
        = (analyze_input strtodDigits
            ("stop".toList ++
              (fun j => "print_mat MAT_A".toList.getD j NUL) "stop".toList.length :: junk)
            (fun _ _ _ => 0)).exit) :=
  ⟨by decide, by decide,
    ((get_line_stores_no_terminator
      (fun _ => some (fun j => "print_mat MAT_A".toList.getD j NUL))
      (fun _ => some (fun _ => NUL)) strtodDigits "stop".toList []
      (fun j => "print_mat MAT_A".toList.getD j NUL) (fun _ _ _ => 0) rfl (by decide)
      (fun _ => by simp)).2.1 (by decide)).1,
    by decide,
    ((get_line_stores_no_terminator
      (fun _ => some (fun j => "print_mat MAT_A".toList.getD j NUL))
      (fun _ => some (fun _ => NUL)) strtodDigits "stop".toList []
      (fun j => "print_mat MAT_A".toList.getD j NUL) (fun _ _ _ => 0) rfl (by decide)
      (fun _ => by simp)).2.1 (by decide)).2.2⟩

/-- C30, what the code does: on a numeral without a sign that begins with a digit other than
`0`, `getScalar` steps over the first digit as it steps over a sign, so the result is that of
the numeral with its first digit replaced by `+`. On `5` it returns `FALSE`, and on `123.45`
it returns `TRUE` with the value of `23.45`, computed as `2345 / 10 / 10`; on `+123.45` the
value is that of `123.45`. The values are shown in the rational numbers. -/
theorem getScalar_skips_first_digit {α : Type} [Zero α] [Add α] [Mul α] [Div α] [NatCast α]
    [IntCast α] (d : Char) (rest : List Char) (hd : isdigit d = true) (h0 : d ≠ '0') :
    (getScalar (d :: rest) : Option α) = getScalar ('+' :: rest) ∧
    (getScalar "5".toList : Option α) = none ∧
    (getScalar "123.45".toList : Option ℚ) = some (2345 / 100) ∧
    (getScalar "123.45".toList : Option ℚ) ≠ some (12345 / 100) ∧
    (getScalar "+123.45".toList : Option ℚ) = some (12345 / 100) := by
  refine ⟨getScalar_unsigned d rest hd h0, rfl, ?_, ?_, ?_⟩
  · rw [(getScalar_value ℚ).1]
    norm_num
  · rw [(getScalar_value ℚ).1]
    norm_num
  · rw [(getScalar_value ℚ).2]
    norm_num

/-- C30, the failing input: `123.45`, the example of the header. -/
theorem getScalar_skips_first_digit_witness :
    isdigit '1' = true ∧ '1' ≠ '0' ∧ "123.45".toList = '1' :: "23.45".toList ∧
    (getScalar ('1' :: "23.45".toList) : Option ℚ) = getScalar ('+' :: "23.45".toList) :=
  ⟨by decide, by decide, by decide,
    (getScalar_skips_first_digit '1' "23.45".toList (by decide) (by decide)).1⟩

/-- C31: for every string `s` that ends at a terminator, `hash` yields the fold `h0 = 5381`,
`h(n+1) = (h(n) * 33 + c(n)) mod 2^32` over the `int` values `c(n)` of the characters of `s`,
reduced modulo `HASH_SIZE = 100`; the result is below `100`, and it does not depend on what
follows the terminator. -/
theorem hash_is_fold (toInt : Char → Int) (s : List Char) (z : Char) (rest : List Char)
    (hs : ∀ c ∈ s, toInt c ≠ 0) (hz : toInt z = 0) :
    ((hash toInt (s ++ z :: rest) : Nat) : Int) = hashFold toInt s % 100 ∧
    hash toInt (s ++ z :: rest) < HASH_SIZE ∧
    hash toInt (s ++ z :: rest) = hash toInt s ∧
    HASH_SIZE = 100 := by
  obtain ⟨e1, e2⟩ := hash_loop_eq toInt s z rest hs hz 5381
  refine ⟨?_, Nat.mod_lt _ (by decide), ?_, rfl⟩
  · unfold hash hashFold HASH_SIZE
    rw [Int.natCast_mod, e1]
    rfl
  · unfold hash
    rw [e2]

/-- C31, an instance: the string `aa`, whose fold is `5381 * 33 * 33 + 97 * 33 + 97 = 5863207`
and whose hash is `7`. -/
theorem hash_is_fold_witness :
    (∀ c ∈ "aa".toList, codeOf c ≠ 0) ∧ codeOf NUL = 0 ∧
    ((hash codeOf ("aa".toList ++ NUL :: "junk".toList) : Nat) : Int)
      = hashFold codeOf "aa".toList % 100 ∧
    hashFold codeOf "aa".toList = 5863207 ∧
    hash codeOf ("aa".toList ++ NUL :: "junk".toList) = 7 :=
  ⟨by decide, by decide,
    (hash_is_fold codeOf "aa".toList NUL "junk".toList (by decide) (by decide)).1,
    by decide, by decide⟩

/-- C32, what the code does: when a word is added on the lines `l1, l2, ..., ln` in that
order to an index whose entry for it is empty, the list of the entry is `l1` followed by
`ln, ..., l2`: each further line is inserted behind the first node, not at the end. The text
written by `print_word_entry` for a word added on the lines `1, 2, 3` is
`w - appears in line 1 3 2`. The other entries are unchanged. -/
theorem repeated_word_lines (toInt : Char → Int) (index : Nat → WordEntry) (word : List Char)
    (l1 : Int) (ls : List Int) (hempty : (index (hash toInt word)).lines = []) :
    ∃ index1, addOccurrences toInt word (l1 :: ls) index = some index1 ∧
      (index1 (hash toInt word)).lines = l1 :: ls.reverse ∧
      (index1 (hash toInt word)).word = some (lineText word) ∧
      (∀ k, k ≠ hash toInt word → index1 k = index k) ∧
      print_word_entry toInt index1 word
        = (l1 :: ls.reverse).foldl (fun out n => out ++ " " ++ toString n)
            (String.mk (lineText word) ++ " - appears in line") ++ "\n" := by
  unfold addOccurrences
  rw [addWordToIndex_absent toInt index word l1 (Or.inr hempty)]
  dsimp only
  obtain ⟨index1, e1, e2, e3, e4⟩ := addOccurrences_present toInt word l1 ls []
    (Function.update index (hash toInt word) { word := some (lineText word), lines := [l1] })
    (by rw [Function.update_same]) (by rw [Function.update_same])
  refine ⟨index1, e1, by simpa using e2, e3, ?_, ?_⟩
  · intro k hk
    rw [e4 k hk, Function.update_noteq hk]
  · unfold print_word_entry
    simp only [e2, List.append_nil]

/-- C32, the failing input: the word `apple` on the lines `1, 2, 3` is reported on the lines
`1 3 2`. -/
theorem repeated_word_lines_witness :
    (emptyIndex (hash codeOf "apple".toList)).lines = [] ∧
    (∃ index1, addOccurrences codeOf "apple".toList (1 :: [2, 3]) emptyIndex = some index1 ∧
      (index1 (hash codeOf "apple".toList)).lines = 1 :: [2, 3].reverse ∧
      (index1 (hash codeOf "apple".toList)).word = some (lineText "apple".toList) ∧
      (∀ k, k ≠ hash codeOf "apple".toList → index1 k = emptyIndex k) ∧
      print_word_entry codeOf index1 "apple".toList
        = (1 :: [2, 3].reverse).foldl (fun out n => out ++ " " ++ toString n)
            (String.mk (lineText "apple".toList) ++ " - appears in line") ++ "\n") ∧
    (1 :: [2, 3].reverse : List Int) = [1, 3, 2] ∧
    ((1 :: [2, 3].reverse : List Int).foldl (fun out n => out ++ " " ++ toString n)
        (String.mk (lineText "apple".toList) ++ " - appears in line") ++ "\n")
      = "apple - appears in line 1 3 2\n" :=
  ⟨rfl, repeated_word_lines codeOf emptyIndex "apple".toList 1 [2, 3] rfl, by decide, by decide⟩

/-- C33: for every content of `nameList`, every `newName` and every `index` that is not
negative, `is_duplicate(newName, index)` returns `TRUE` if and only if one of the names
`nameList[0] .. nameList[index - 1]` equals `newName` when letter case is ignored; it returns
`FALSE` when `index` is `0`. -/
theorem is_duplicate_iff (nameList : Nat → List Char) (newName : List Char) (index : Nat) :
    (is_duplicate nameList newName index = true
      ↔ ∃ k, k < index ∧ EqualIgnoringCase (nameList k) newName) ∧
    is_duplicate nameList newName 0 = false ∧
    is_duplicate (fun k => ["Dan".toList, "Eve".toList].getD k []) "eVE".toList 2 = true ∧
    is_duplicate (fun k => ["Dan".toList, "Eve".toList].getD k []) "eVE".toList 1 = false ∧
    is_duplicate (fun k => ["Dan".toList, "Eve".toList].getD k []) "Ev".toList 2 = false := by
  refine ⟨?_, rfl, by decide, by decide, by decide⟩
  unfold is_duplicate
  by_cases h0 : index = 0
  · subst h0
    simp
  · rw [if_neg h0, is_duplicate_loop_iff]
    simp only [strcasecmp_eq_iff]

/-- C34: for every cursor, `MOVE_TO_NON_WHITE` passes only white-space characters, none of
which is the terminator; the cursor it yields is on the terminator or on a character that is
not white space; and applied to that cursor it leaves it where it is. -/
theorem skip_whitespace_idempotent (cursor : List Char) :
    (∃ skipped, cursor = skipped ++ MOVE_TO_NON_WHITE cursor ∧
      ∀ c ∈ skipped, isspace c = true ∧ c ≠ NUL) ∧
    (deref (MOVE_TO_NON_WHITE cursor) = NUL ∨
      isspace (deref (MOVE_TO_NON_WHITE cursor)) = false) ∧
    MOVE_TO_NON_WHITE (MOVE_TO_NON_WHITE cursor) = MOVE_TO_NON_WHITE cursor ∧
    MOVE_TO_NON_WHITE " \t x y".toList = "x y".toList ∧
    MOVE_TO_NON_WHITE ("  ".toList ++ NUL :: "  z".toList) = NUL :: "  z".toList := by
  refine ⟨⟨cursor.takeWhile (fun c => c != NUL && isspace c), ?_, ?_⟩,
    Or.inr (isspace_deref_MOVE cursor), MOVE_self _ (isspace_deref_MOVE cursor), by decide,
    by decide⟩
  · unfold MOVE_TO_NON_WHITE
    exact (List.takeWhile_append_dropWhile _ _).symm
  · intro c hc
    have := List.mem_takeWhile_imp hc
    simp only [Bool.and_eq_true, bne_iff_ne, ne_eq] at this
    exact ⟨this.2, this.1⟩

/-- C35, the lines that fail: for every line made of `stop` with optional white space around
it, what `analyze_input` does depends on the character stored behind the terminator of the
line, the list `after`. The cursor passed to `handle_stop` is on the terminator already; after
`userInput++` the macro `EXTRANEOUS_TEXT` reads the next position. When the character there is
a terminator or a line feed the process stops; for every other character the line is reported
as text after the command, then as a missing argument, and the process goes on. -/
theorem stop_reads_after_terminator {α : Type} [Add α] [Sub α] [Mul α] [Zero α]
    (strtod : List Char → α × Nat) (ws1 ws2 after : List Char) (σ : Heap Reg α)
    (hws1 : ∀ a ∈ ws1, isspace a = true) (hws2 : ∀ a ∈ ws2, isspace a = true) :
    lineText (ws1 ++ "stop".toList ++ ws2 ++ NUL :: after) = ws1 ++ "stop".toList ++ ws2 ∧
    analyze_input strtod (ws1 ++ "stop".toList ++ ws2 ++ NUL :: after) σ
      = if deref after = NUL ∨ deref after = '\n' then stop σ
        else { regs := σ, errors := [EXT_TXT_ERR, NO_ARGS_ERR], out := [], exit := none } := by
  constructor
  · unfold lineText
    rw [List.takeWhile_append_of_pos, List.takeWhile_cons, if_neg (by decide),
      List.append_nil]
    intro a ha
    simp only [List.mem_append] at ha
    have hsp : ∀ c : Char, isspace c = true → (c != NUL) = true := by
      intro c hc
      simp only [bne_iff_ne, ne_eq]
      rintro rfl
      exact absurd hc (by decide)
    rcases ha with (ha | ha) | ha
    · exact hsp a (hws1 a ha)
    · revert a; decide
    · exact hsp a (hws2 a ha)
  · rw [analyze_line strtod ws1 "stop".toList ws2 (NUL :: after) σ (by decide) hws1 hws2
      (Or.inr rfl) rfl]
    have hcmd : first_Word_analysis "stop".toList = .STOP := by decide
    rw [hcmd]
    unfold analyze_operands
    have h3 : deref (NUL :: after) ≠ ',' := by
      show NUL ≠ ','
      decide
    rw [ILLEGAL_COMMA_eq, if_neg h3, if_pos rfl]
    unfold handle_stop
    rw [EXTRANEOUS_TEXT_eq]
    show ((if deref after = NUL ∨ deref after = '\n' then stop σ
      else fault σ EXT_TXT_ERR).andThen _) = _
    by_cases h : deref after = NUL ∨ deref after = '\n'
    · rw [if_pos h, if_pos h]
      rfl
    · rw [if_neg h, if_neg h]
      rfl

/-- C35, the failing input: the line `stop` in a buffer that holds the character `x` behind
the terminator, against the same line with a second terminator behind the first. The two
lines have the same text; the first is reported as faulty and the process goes on, the second
stops the process. -/
theorem stop_reads_after_terminator_witness :
    (∀ a ∈ ([] : List Char), isspace a = true) ∧
    lineText ([] ++ "stop".toList ++ [] ++ NUL :: ['x']) = "stop".toList ∧
    lineText ("stop".toList ++ [NUL, NUL]) = "stop".toList ∧
    analyze_input strtodDigits ([] ++ "stop".toList ++ [] ++ NUL :: ['x']) (fun _ _ _ => 0)
      = { regs := fun _ _ _ => 0, errors := [EXT_TXT_ERR, NO_ARGS_ERR], out := [],
          exit := none } ∧
    analyze_input strtodDigits ("stop".toList ++ [NUL, NUL]) (fun _ _ _ => 0)
      = stop (fun _ _ _ => 0) :=
  have h := stop_reads_after_terminator strtodDigits [] [] ['x'] (fun _ _ _ => 0)
    (by decide) (by decide)
  ⟨by decide, h.1, by decide, h.2.trans (if_neg (by decide)), rfl⟩

/-- C36: on a `read_mat` line with sixteen numeric literals, a seventeenth text on which the
scan consumes nothing (not empty, not a comma) is reported as not a number and the registers
are unchanged; with a seventeenth numeric literal the line reports no fault and the register
holds exactly the first sixteen values, row by row, the other registers being unchanged. -/
theorem values_beyond_sixteen {α : Type} [Add α] [Sub α] [Mul α] [Zero α]
    (strtod : List Char → α × Nat) (R : Reg) (σ : Heap Reg α) (items : List (ValueItem α))
    (extra : ValueItem α) (ws X : List Char) (hlen : items.length = 16)
    (hlit : ∀ it ∈ items, IsLiteral strtod it) (hextra : IsLiteral strtod extra)
    (hws : ∀ c ∈ ws, isspace c = true) (hX : isspace (deref X) = false)
    (hpresent : deref X ≠ NUL) (hcomma : deref X ≠ ',') (hzero : (strtod X).2 = 0) :
    analyze_input strtod
        ("read_mat ".toList ++ R.name ++ ',' :: valuesBefore items (ws ++ X)) σ
      = { regs := σ, errors := [ARG_IS_NOT_DOUBLE], out := [], exit := none } ∧
    analyze_input strtod
        ("read_mat ".toList ++ R.name ++ ',' :: valuesBefore items (extra.ws ++ extra.lit)) σ
      = { regs := fun q => if q = R then fun r c =>
            (items.map (fun it => it.val)).getD (4 * r.val + c.val) 0 else σ q,
          errors := [], out := [], exit := none } := by
  constructor
  · have hmove : MOVE_TO_NON_WHITE (ws ++ X) = X := MOVE_ws ws X hws hX
    have key := analyze_read_mat_returned strtod [] [' '] [] (ws ++ X) R items
      ARG_IS_NOT_DOUBLE σ (by simp) (by decide) (by simp) (by decide) hlit
      (by rw [hmove]; exact hpresent) (by rw [hmove]; exact hcomma)
      (fun i values => by
        rw [hmove]
        exact read_values_not_number strtod X i values
          ((end_of_command_iff X hX).2.mpr hpresent) hzero)
    have hline : [] ++ "read_mat".toList ++ [' '] ++
        (R.name ++ [] ++ ',' :: valuesBefore items (ws ++ X))
        = "read_mat ".toList ++ R.name ++ ',' :: valuesBefore items (ws ++ X) := by
      simp
    rw [hline] at key
    exact key
  · have hall : ∀ it ∈ items ++ [extra], IsLiteral strtod it := by
      intro it hit
      rcases List.mem_append.mp hit with h | h
      · exact hlit it h
      · rw [List.mem_singleton] at h
        exact h ▸ hextra
    have key := analyze_read_mat_values strtod R σ (items ++ [extra]) (by simp) hall
    unfold readMatLine at key
    rw [valuesText_append] at key
    rw [key]
    refine congrArg done ?_
    funext q r c
    by_cases hq : q = R
    · have hr := r.isLt
      have hc := c.isLt
      have h1 : 4 * r.val + c.val < min (items ++ [extra]).length 16 := by
        simp [hlen]
        omega
      simp only [hq, if_true, if_pos h1, List.map_append]
      rw [List.getD_append _ _ _ _ (by simp [hlen]; omega)]
    · simp only [hq, if_false]

/-- C36, instances: the lines `read_mat MAT_A, 1,2,...,16, x` and `read_mat MAT_A, 1,2,...,16,17`
read with a scan of decimal integers into registers that held `7` everywhere. -/
theorem values_beyond_sixteen_witness :
    "read_mat MAT_A, 1,2,3,4,5,6,7,8,9,10,11,12,13,14,15,16, x".toList
      = "read_mat ".toList ++ Reg.MAT_A.name ++ ',' :: valuesBefore sixteenItems ([' '] ++ ['x']) ∧
    "read_mat MAT_A, 1,2,3,4,5,6,7,8,9,10,11,12,13,14,15,16,17".toList
      = "read_mat ".toList ++ Reg.MAT_A.name ++
          ',' :: valuesBefore sixteenItems (seventeenthItem.ws ++ seventeenthItem.lit) ∧
    sixteenItems.map (fun it => it.val) = [1, 2, 3, 4, 5, 6, 7, 8, 9, 10, 11, 12, 13, 14, 15, 16] ∧
    (analyze_input strtodDigits
        ("read_mat ".toList ++ Reg.MAT_A.name ++ ',' :: valuesBefore sixteenItems ([' '] ++ ['x']))
        (fun _ _ _ => 7)
      = { regs := fun _ _ _ => 7, errors := [ARG_IS_NOT_DOUBLE], out := [], exit := none } ∧
    analyze_input strtodDigits
        ("read_mat ".toList ++ Reg.MAT_A.name ++
          ',' :: valuesBefore sixteenItems (seventeenthItem.ws ++ seventeenthItem.lit))
        (fun _ _ _ => 7)
      = { regs := fun q => if q = Reg.MAT_A then fun r c =>
            (sixteenItems.map (fun it => it.val)).getD (4 * r.val + c.val) 0
            else (fun _ _ _ => 7) q,
          errors := [], out := [], exit := none }) :=
  ⟨by decide, by decide, by decide,
    values_beyond_sixteen strtodDigits .MAT_A (fun _ _ _ => 7) sixteenItems seventeenthItem
      [' '] ['x'] (by decide) sixteenItems_literal
      ⟨by decide, ⟨_, _, rfl, by decide, by decide, by decide⟩,
        by rintro rest (rfl | ⟨t, rfl⟩) <;> rfl⟩
      (by decide) (by decide) (by decide) (by decide) (by decide)⟩

/-- C37, what the code does: let the entry at `hash(w1)` hold the word `w1` and its lines, and
let `w2` be another word. When `hash(w2)` differs from `hash(w1)`, `addWordToIndex` for `w2`
leaves the entry of `w1` as it was. When `hash(w2) = hash(w1)`, it replaces the entry: the
word becomes `w2` and the list is made of the new line only, so that `print_word_entry` for
`w1` reports that line and none of the lines of `w1`. -/
theorem other_word_entry (toInt : Char → Int) (index : Nat → WordEntry) (w1 w2 : List Char)
    (k : Int) (hword : (index (hash toInt w1)).word = some (lineText w1))
    (hne : lineText w1 ≠ lineText w2) :
    (hash toInt w2 ≠ hash toInt w1 →
      ∃ index1, addWordToIndex toInt true index w2 k = some index1 ∧
        index1 (hash toInt w1) = index (hash toInt w1) ∧
        print_word_entry toInt index1 w1 = print_word_entry toInt index w1) ∧
    (hash toInt w2 = hash toInt w1 →
      ∃ index1, addWordToIndex toInt true index w2 k = some index1 ∧
        index1 (hash toInt w1) = { word := some (lineText w2), lines := [k] } ∧
        print_word_entry toInt index1 w1
          = String.mk (lineText w1) ++ " - appears in line" ++ " " ++ toString k ++ "\n") := by
  constructor
  · intro hh
    cases hr : addWordToIndex_loop index w2 (hash toInt w2) k [] (index (hash toInt w2)).lines with
    | none =>
      refine ⟨_, by unfold addWordToIndex; simp only [hr, if_true]; rfl, ?_, ?_⟩
      · simp [Function.update_noteq (Ne.symm hh)]
      · unfold print_word_entry
        simp [Function.update_noteq (Ne.symm hh)]
    | some lines =>
      refine ⟨_, by unfold addWordToIndex; simp only [hr, if_true]; rfl, ?_, ?_⟩
      · simp [Function.update_noteq (Ne.symm hh)]
      · unfold print_word_entry
        simp [Function.update_noteq (Ne.symm hh)]
  · intro hh
    have hc : word_compare index w2 (hash toInt w2) = false := by
      unfold word_compare
      rw [hh, hword]
      simp [strcmp_eq, lineText_lineText, hne]
    refine ⟨_, addWordToIndex_absent toInt index w2 k (Or.inl hc), ?_, ?_⟩
    · rw [hh, Function.update_same]
    · unfold print_word_entry
      rw [hh]
      dsimp only
      rw [Function.update_same]
      rfl

/-- C37, the failing input: the words `aa` and `db` both have the hash `7`; after `aa` has
been added on the lines `1` and `2`, adding `db` on line `3` makes `print_word_entry` report
`aa - appears in line 3`. -/
theorem other_word_entry_witness :
    (indexWithAa (hash codeOf "aa".toList)).word = some (lineText "aa".toList) ∧
    lineText "aa".toList ≠ lineText "db".toList ∧
    hash codeOf "db".toList = hash codeOf "aa".toList ∧
    print_word_entry codeOf indexWithAa "aa".toList = "aa - appears in line 1 2\n" ∧
    (∃ index1, addWordToIndex codeOf true indexWithAa "db".toList 3 = some index1 ∧
      index1 (hash codeOf "aa".toList) = { word := some (lineText "db".toList), lines := [3] } ∧
      print_word_entry codeOf index1 "aa".toList
        = String.mk (lineText "aa".toList) ++ " - appears in line" ++ " " ++ toString (3 : Int)
          ++ "\n") ∧
    String.mk (lineText "aa".toList) ++ " - appears in line" ++ " " ++ toString (3 : Int) ++ "\n"
      = "aa - appears in line 3\n" :=
  ⟨by decide, by decide, by decide, by decide,
    (other_word_entry codeOf indexWithAa "aa".toList "db".toList 3 (by decide) (by decide)).2
      (by decide),
    by decide⟩

/-- C38: when the multiplication of cells is commutative, as that of `double` is, the
transpose of the product computed by `mul_mat(A, B, C)` equals, cell by cell, the product
computed by `mul_mat` from the transposes of `B` and of `A`, in that order; the transposes
are stored at `TB` and `TA`, which must not overwrite an operand still to be read. -/
theorem transpose_reverses_product {ι α : Type} [DecidableEq ι] [Add α] [Mul α] [Zero α]
    (hcomm : ∀ a b : α, a * b = b * a) (A B C D TA TB E : ι) (h : Heap ι α)
    (hTB : TB ≠ A) (hTA : TA ≠ TB) (i j : Fin 4) :
    trans_mat C D (mul_mat A B C h) D i j
      = mul_mat TB TA E (trans_mat A TA (trans_mat B TB h)) E i j := by
  have hA : A ≠ TB := fun e => hTB e.symm
  have hT : TB ≠ TA := fun e => hTA e.symm
  simp only [trans_mat_eq, mul_mat_eq, dot, if_true, hA, hT, if_false]
  rw [hcomm (h A j 0), hcomm (h A j 1), hcomm (h A j 2), hcomm (h A j 3)]

/-- C38, an instance: integer matrices in the registers `MAT_A` and `MAT_B`, cell `(1, 2)`. -/
theorem transpose_reverses_product_witness :
    Reg.MAT_E ≠ Reg.MAT_A ∧ Reg.MAT_F ≠ Reg.MAT_E ∧
    trans_mat Reg.MAT_C Reg.MAT_D (mul_mat Reg.MAT_A Reg.MAT_B Reg.MAT_C integerRegs)
        Reg.MAT_D 1 2
      = mul_mat Reg.MAT_E Reg.MAT_F Reg.MAT_C
          (trans_mat Reg.MAT_A Reg.MAT_F (trans_mat Reg.MAT_B Reg.MAT_E integerRegs))
          Reg.MAT_C 1 2 :=
  have h := transpose_reverses_product Int.mul_comm Reg.MAT_A Reg.MAT_B Reg.MAT_C Reg.MAT_D
    Reg.MAT_F Reg.MAT_E Reg.MAT_C integerRegs (by decide) (by decide) 1 2
  ⟨by decide, by decide, h⟩

end Claims



end MainMat
